import Mathlib

/-!
# ALSA PCM ring-buffer position tracking (sound/core/pcm_lib.c)

A shallow embedding of the hardware-pointer update, the xrun detection, the
silence filling and the read/write transfer loops of `sound/core/pcm_lib.c`,
together with its refine-to-first/last helpers, its reset ioctl and its
channel-map tables, and of the walk over the firmware log buffers of
`drivers/accel/ivpu/ivpu_fw_log.c`.

Conventions of the embedding.

* `struct snd_pcm_substream`, its `runtime`, `runtime->status` and
  `runtime->control` are flattened into one record, `snd_pcm_substream`;
  a field keeps the name of the C member it stands for.
* `snd_pcm_uframes_t` (unsigned long) values are `Nat`, `snd_pcm_sframes_t`
  (long) values are `Int`.  Additions, subtractions and products are the
  mathematical ones, which is what the C code computes as long as no result
  leaves the range of `long`; conversions between the signed and the unsigned
  type that the C code relies on are explicit (`ulong`, `slong`), and the
  free-running `jiffies` counter is subtracted modulo `2 ^ BITS_PER_LONG`.
  A frame count passed for an `unsigned int` parameter and an `unsigned int`
  returned as `int` are converted explicitly as well (`uint`, `int_of_uint`).
* A division or remainder by zero, undefined in C, follows Lean's convention
  (`n / 0 = 0`, `n % 0 = n`).
* A call that does not return in C because a loop never ends is `none`; loops
  carry a `fuel` argument that bounds their iterations.
* Calls into collaborators (stopping the stream, wake-ups, the silence, copy
  and wait callbacks) are recorded in the `trace` field, oldest first.
  Diagnostics (`printk`, `hw_ptr_error`, trace points) and the time stamps
  written by `snd_pcm_gettime` / `update_audio_tstamp` are not part of the
  record.
-/

namespace PcmLib

/-! ## Constants and machine integers -/

/-- Width of `long` on the modelled (64-bit) kernel. -/
def BITS_PER_LONG : Nat := 64

/-- Number of values of `unsigned long`: `2 ^ 64`. -/
def ULONG_MOD : Nat := 18446744073709551616

/-- Largest `unsigned long`. -/
def ULONG_MAX : Nat := 18446744073709551615

/-- Largest `long`. -/
def LONG_MAX : Nat := 9223372036854775807

/-- Conversion of a signed value to `unsigned long` (as in `(snd_pcm_uframes_t)x`). -/
def ulong (x : Int) : Nat := (x % (ULONG_MOD : Int)).toNat

/-- Conversion of an unsigned value to `long` (as in `(snd_pcm_sframes_t)x`). -/
def slong (x : Nat) : Int :=
  if x % ULONG_MOD ≤ LONG_MAX then ((x % ULONG_MOD : Nat) : Int)
  else ((x % ULONG_MOD : Nat) : Int) - (ULONG_MOD : Int)

/-- The modulus of `unsigned int` arithmetic: `2 ^ 32`. -/
def UINT_MOD : Nat := 4294967296

/-- Conversion of an unsigned value to `unsigned int`, as when a
`snd_pcm_uframes_t` is passed for an `unsigned int` parameter. -/
def uint (x : Nat) : Nat := x % UINT_MOD

/-- Conversion of an `unsigned int` value to `int`, as when a function that
returns `int` returns an `unsigned int`: values from `2 ^ 31` on come out
negative. -/
def int_of_uint (x : Nat) : Int :=
  if x % UINT_MOD < 2147483648 then ((x % UINT_MOD : Nat) : Int)
  else ((x % UINT_MOD : Nat) : Int) - (UINT_MOD : Int)

/-- Unsigned subtraction of two `jiffies` readings, `a - b` in `unsigned long`. -/
def jiffies_sub (a b : Nat) : Nat := ulong ((a : Int) - (b : Int))

/-- The value `SNDRV_PCM_POS_XRUN`, `(snd_pcm_uframes_t)-1` in `include/sound/pcm.h`:
the position a driver reports to signal an xrun. -/
def SNDRV_PCM_POS_XRUN : Nat := ULONG_MAX

def EIO : Int := 5
def ENXIO : Int := 6
def EAGAIN : Int := 11
def EINVAL : Int := 22
def EPIPE : Int := 32
def EBADFD : Int := 77
def ESTRPIPE : Int := 86
def ERESTARTSYS : Int := 512

def XRUN_DEBUG_BASIC : Nat := 1
def XRUN_DEBUG_STACK : Nat := 2
def XRUN_DEBUG_JIFFIESCHECK : Nat := 4

/-! ## Data model -/

/-- The stream direction, `substream->stream`. -/
inductive snd_pcm_stream
  | PLAYBACK
  | CAPTURE
deriving DecidableEq, Repr

/-- The stream state, `runtime->status->state` (`SNDRV_PCM_STATE_*`). -/
inductive snd_pcm_state
  | OPEN
  | SETUP
  | PREPARED
  | RUNNING
  | XRUN
  | DRAINING
  | PAUSED
  | SUSPENDED
  | DISCONNECTED
deriving DecidableEq, Repr

/-- The access mode, `runtime->access` (`SNDRV_PCM_ACCESS_*`). -/
inductive snd_pcm_access
  | MMAP_INTERLEAVED
  | MMAP_NONINTERLEAVED
  | MMAP_COMPLEX
  | RW_INTERLEAVED
  | RW_NONINTERLEAVED
deriving DecidableEq, Repr

/-- Calls into collaborators, in the order they are made. -/
inductive Event
  /-- A call of `snd_pcm_stop(substream, state)`. -/
  | stop (state : snd_pcm_state)
  /-- A call of `snd_pcm_drain_done(substream)`. -/
  | drain_done
  /-- A call of `wake_up(&runtime->tsleep)`. -/
  | wake_up_tsleep
  /-- A call of `wake_up(&runtime->sleep)`. -/
  | wake_up_sleep
  /-- Silence written for `channel` (`-1`: all, interleaved) at ring offset `ofs`,
  `frames` frames long. -/
  | silence (channel : Int) (ofs frames : Nat)
  /-- A call of `transfer(substream, hwoff, data, off, frames)`. -/
  | transfer (hwoff off frames : Nat)
  /-- A call of `schedule_timeout(wait_time)` in `wait_for_avail`. -/
  | schedule_timeout
  /-- A call of `snd_pcm_start(substream)`. -/
  | start
  /-- A call of `substream->ops->ack(substream)`. -/
  | ack
deriving DecidableEq, Repr

/-- The substream with its runtime, flattened. -/
structure snd_pcm_substream where
  /-- The direction, `substream->stream`. -/
  stream : snd_pcm_stream
  /-- The debug mask `substream->pstr->xrun_debug`; `0` when the kernel is built
  without `CONFIG_SND_PCM_XRUN_DEBUG`. -/
  pstr_xrun_debug : Nat
  /-- Whether `substream->ops->ack` is set. -/
  ops_ack : Bool
  /-- Whether `substream->ops->silence` is set. -/
  ops_silence : Bool
  /-- Whether `substream->ops->copy` is set. -/
  ops_copy : Bool
  /-- Whether `runtime->dma_area` is non-NULL. -/
  dma_area : Bool
  /-- Whether `substream->f_flags & O_NONBLOCK` is non-zero. -/
  f_flags_nonblock : Bool
  /-- The kernel tick rate `HZ`. -/
  HZ : Nat
  /-- The state, `runtime->status->state`. -/
  state : snd_pcm_state
  /-- The hardware pointer, `runtime->status->hw_ptr`. -/
  hw_ptr : Nat
  /-- The application pointer, `runtime->control->appl_ptr`. -/
  appl_ptr : Nat
  /-- The wake-up threshold, `runtime->control->avail_min`. -/
  avail_min : Nat
  hw_ptr_base : Nat
  hw_ptr_interrupt : Nat
  hw_ptr_jiffies : Nat
  hw_ptr_buffer_jiffies : Nat
  hw_ptr_wrap : Nat
  buffer_size : Nat
  period_size : Nat
  boundary : Nat
  min_align : Nat
  rate : Nat
  delay : Int
  no_period_wakeup : Bool
  /-- Whether `runtime->hw.info & SNDRV_PCM_INFO_BATCH` is non-zero. -/
  hw_info_batch : Bool
  access : snd_pcm_access
  channels : Nat
  start_threshold : Nat
  stop_threshold : Nat
  silence_threshold : Nat
  silence_size : Nat
  silence_start : Nat
  silence_filled : Nat
  avail_max : Nat
  twake : Nat
  /-- The calls into collaborators made so far, oldest first. -/
  trace : List Event
deriving DecidableEq, Repr

/-- The macro `xrun_debug(substream, mask)`: `substream->pstr->xrun_debug & mask`
(the constant `0` without `CONFIG_SND_PCM_XRUN_DEBUG`, which is the case
`pstr_xrun_debug = 0`). -/
def xrun_debug (s : snd_pcm_substream) (mask : Nat) : Nat :=
  s.pstr_xrun_debug &&& mask

/-- Appends one call to the trace. -/
def record (s : snd_pcm_substream) (e : Event) : snd_pcm_substream :=
  { s with trace := s.trace ++ [e] }

/-! ## Helpers declared outside `pcm_lib.c` -/

/-- Modelled from the spec: `snd_pcm_playback_avail` is declared in
`include/sound/pcm.h`, which is not among the sources.  Section 4.2: playback
availability is `buffer_size - (appl_pointer - hw_pointer mod boundary)`, never
negative by construction, modulo arithmetic being used consistently: the
difference is reduced modulo `boundary`. -/
def snd_pcm_playback_avail (s : snd_pcm_substream) : Nat :=
  (((s.buffer_size : Int) - ((s.appl_ptr : Int) - (s.hw_ptr : Int)) % (s.boundary : Int))
    % (s.boundary : Int)).toNat

/-- Modelled from the spec: `snd_pcm_capture_avail` is declared in
`include/sound/pcm.h`, which is not among the sources.  Section 4.2: capture
availability is `(hw_pointer - appl_pointer) mod boundary`. -/
def snd_pcm_capture_avail (s : snd_pcm_substream) : Nat :=
  (((s.hw_ptr : Int) - (s.appl_ptr : Int)) % (s.boundary : Int)).toNat

/-- Modelled from the spec: `snd_pcm_playback_hw_avail` is declared in
`include/sound/pcm.h`, which is not among the sources.  It is the number of
frames queued for the hardware, `buffer_size` minus the playback availability,
as a signed value. -/
def snd_pcm_playback_hw_avail (s : snd_pcm_substream) : Int :=
  (s.buffer_size : Int) - (snd_pcm_playback_avail s : Int)

/-- Modelled from the spec: `snd_pcm_stop` is defined in
`sound/core/pcm_native.c`, which is not among the sources.  Section 4.2: the
stream is stopped and moves to the given state. -/
def snd_pcm_stop (s : snd_pcm_substream) (state : snd_pcm_state) : snd_pcm_substream :=
  { record s (Event.stop state) with state := state }

/-- Modelled from the spec: `snd_pcm_drain_done` is defined in
`sound/core/pcm_native.c`, which is not among the sources.  Section 4.2: a
draining stream whose ring has run empty has completed normally; the stream is
stopped into `SETUP`. -/
def snd_pcm_drain_done (s : snd_pcm_substream) : snd_pcm_substream :=
  { record s Event.drain_done with state := snd_pcm_state.SETUP }

/-! ## `xrun` and `snd_pcm_update_state` -/

/-- The function `xrun` (pcm_lib.c:172): stop the stream with state `XRUN`. -/
def xrun (s : snd_pcm_substream) : snd_pcm_substream :=
  snd_pcm_stop s snd_pcm_state.XRUN

/-- The available frame count `snd_pcm_update_state` starts from (pcm_lib.c:210-213). -/
def update_state_avail (s : snd_pcm_substream) : Nat :=
  if s.stream = snd_pcm_stream.PLAYBACK then snd_pcm_playback_avail s
  else snd_pcm_capture_avail s

/-- The wake-up at the end of `snd_pcm_update_state` (pcm_lib.c:227-231). -/
def update_state_wake (s : snd_pcm_substream) (avail : Nat) : snd_pcm_substream :=
  if s.twake ≠ 0 then
    if avail ≥ s.twake then record s Event.wake_up_tsleep else s
  else if avail ≥ s.avail_min then record s Event.wake_up_sleep
  else s

/-- The function `snd_pcm_update_state` (pcm_lib.c:205): the return value and the
state it leaves. -/
def snd_pcm_update_state (s : snd_pcm_substream) : Int × snd_pcm_substream :=
  let avail := update_state_avail s
  let s1 := if avail > s.avail_max then { s with avail_max := avail } else s
  if s1.state = snd_pcm_state.DRAINING then
    if avail ≥ s1.buffer_size then (- EPIPE, snd_pcm_drain_done s1)
    else (0, update_state_wake s1 avail)
  else
    if avail ≥ s1.stop_threshold then (- EPIPE, xrun s1)
    else (0, update_state_wake s1 avail)

/-! ## `snd_pcm_playback_silence` -/

/-- One chunk of silence at ring offset `ofs` (pcm_lib.c:109-135): one write for
an interleaved stream, one per channel otherwise, through the `silence`
callback or directly into the DMA area. -/
def silence_chunk (s : snd_pcm_substream) (ofs transfer : Nat) : snd_pcm_substream :=
  if s.access = snd_pcm_access.RW_INTERLEAVED ∨ s.access = snd_pcm_access.MMAP_INTERLEAVED then
    record s (Event.silence (-1) ofs transfer)
  else
    (List.range s.channels).foldl
      (fun (t : snd_pcm_substream) (c : Nat) => record t (Event.silence (Int.ofNat c) ofs transfer)) s

/-- The loop `while (frames > 0)` of `snd_pcm_playback_silence` (pcm_lib.c:107-139);
`fuel` bounds the number of iterations. -/
def silence_loop : Nat → snd_pcm_substream → Nat → Nat → Option snd_pcm_substream
  | fuel, s, frames, ofs =>
    if frames > 0 then
      match fuel with
      | 0 => none
      | fuel + 1 =>
        let transfer := if ofs + frames > s.buffer_size then s.buffer_size - ofs else frames
        let s1 := silence_chunk s ofs transfer
        silence_loop fuel { s1 with silence_filled := s1.silence_filled + transfer }
          (frames - transfer) 0
    else some s

/-- The tail of `snd_pcm_playback_silence` (pcm_lib.c:102-139): write `frames`
frames of silence starting at `silence_start`.  Every iteration of the loop
writes at least one frame, or the loop never ends. -/
def silence_fill (s : snd_pcm_substream) (frames : Nat) : Option snd_pcm_substream :=
  if frames > s.buffer_size then some s
  else if frames = 0 then some s
  else silence_loop frames s frames (s.silence_start % s.buffer_size)

/-- The function `snd_pcm_playback_silence` (pcm_lib.c:53). -/
def snd_pcm_playback_silence (s : snd_pcm_substream) (new_hw_ptr : Nat) :
    Option snd_pcm_substream :=
  if s.silence_size < s.boundary then
    let s1 :=
      if s.silence_start ≠ s.appl_ptr then
        let n0 : Int := (s.appl_ptr : Int) - (s.silence_start : Int)
        let n : Int := if n0 < 0 then n0 + (s.boundary : Int) else n0
        { s with
          silence_filled := if ulong n < s.silence_filled then s.silence_filled - ulong n else 0
          silence_start := s.appl_ptr }
      else s
    if s1.silence_filled ≥ s1.buffer_size then some s1
    else
      let noise_dist : Int := snd_pcm_playback_hw_avail s1 + (s1.silence_filled : Int)
      if noise_dist ≥ slong s1.silence_threshold then some s1
      else
        let frames : Nat := ulong ((s1.silence_threshold : Int) - noise_dist)
        silence_fill s1 (if frames > s1.silence_size then s1.silence_size else frames)
  else if new_hw_ptr = ULONG_MAX then
    let avail0 : Int := snd_pcm_playback_hw_avail s
    let avail : Int := if ulong avail0 > s.buffer_size then (s.buffer_size : Int) else avail0
    let filled : Nat := if avail > 0 then ulong avail else 0
    silence_fill
      { s with silence_filled := filled, silence_start := (s.hw_ptr + filled) % s.boundary }
      (ulong ((s.buffer_size : Int) - (filled : Int)))
  else
    let ofs := s.hw_ptr
    let frames0 : Int := (new_hw_ptr : Int) - (ofs : Int)
    let frames : Int := if frames0 < 0 then frames0 + (s.boundary : Int) else frames0
    let filled : Int := (s.silence_filled : Int) - frames
    let s1 :=
      if filled < 0 then { s with silence_filled := 0, silence_start := new_hw_ptr }
      else { s with silence_filled := ulong filled, silence_start := ofs }
    silence_fill s1 (ulong ((s1.buffer_size : Int) - (s1.silence_filled : Int)))

/-! ## `snd_pcm_update_hw_ptr0` -/

/-- The local variables `hw_base`, `new_hw_ptr` and `crossed_boundary` of
`snd_pcm_update_hw_ptr0`. -/
structure hw_ptr_locals where
  hw_base : Nat
  new_hw_ptr : Nat
  crossed_boundary : Int
deriving DecidableEq, Repr

/-- The raw position after the range check and the alignment (pcm_lib.c:320-331):
an out-of-range position becomes `0`, then `pos -= pos % min_align`. -/
def hw_ptr_pos (s : snd_pcm_substream) (pos : Nat) : Nat :=
  let pos1 := if pos ≥ s.buffer_size then 0 else pos
  pos1 - pos1 % s.min_align

/-- The step `hw_base += buffer_size; if (hw_base >= boundary) { hw_base = 0;
crossed_boundary++; } new_hw_ptr = hw_base + pos;` (pcm_lib.c:343-348, 356-361
and 381-386). -/
def hw_base_advance (s : snd_pcm_substream) (v : hw_ptr_locals) (pos : Nat) : hw_ptr_locals :=
  let hw_base := v.hw_base + s.buffer_size
  if hw_base ≥ s.boundary then
    { hw_base := 0, new_hw_ptr := 0 + pos, crossed_boundary := v.crossed_boundary + 1 }
  else
    { hw_base := hw_base, new_hw_ptr := hw_base + pos, crossed_boundary := v.crossed_boundary }

/-- The locals on reaching the label `__delta` (pcm_lib.c:333-362), `pos` being
the aligned position. -/
def hw_ptr_at_delta (s : snd_pcm_substream) (pos curr_jiffies : Nat) (in_interrupt : Bool) :
    hw_ptr_locals :=
  let v : hw_ptr_locals :=
    { hw_base := s.hw_ptr_base, new_hw_ptr := s.hw_ptr_base + pos, crossed_boundary := 0 }
  if in_interrupt = true ∧ s.hw_ptr_interrupt + s.period_size > v.new_hw_ptr ∧
      jiffies_sub curr_jiffies s.hw_ptr_jiffies > s.hw_ptr_buffer_jiffies / 2 + 1 then
    hw_base_advance s v pos
  else if v.new_hw_ptr < s.hw_ptr then hw_base_advance s v pos
  else v

/-- The distance `delta` computed at the label `__delta` (pcm_lib.c:364-366). -/
def hw_ptr_delta (s : snd_pcm_substream) (v : hw_ptr_locals) : Int :=
  let delta : Int := (v.new_hw_ptr : Int) - (s.hw_ptr : Int)
  if delta < 0 then delta + (s.boundary : Int) else delta

/-- The loop `while (hdelta > xrun_threshold)` of the `no_period_wakeup` branch
(pcm_lib.c:379-388); `fuel` bounds the number of iterations. -/
def no_period_wakeup_loop (s : snd_pcm_substream) (pos : Nat) (xrun_threshold : Int) :
    Nat → Int → hw_ptr_locals → Option hw_ptr_locals
  | fuel, hdelta, v =>
    if hdelta > xrun_threshold then
      match fuel with
      | 0 => none
      | fuel + 1 =>
        no_period_wakeup_loop s pos xrun_threshold fuel
          (hdelta - (s.hw_ptr_buffer_jiffies : Int)) (hw_base_advance s v pos)
    else some v

/-- The loop `while (delta > 0)` of the jiffies check (pcm_lib.c:425-432): the
pair `new_hw_ptr`, `crossed_boundary` after `delta` steps of one period. -/
def jiffies_skip_loop (s : snd_pcm_substream) : Nat → Nat → Int → Nat × Int
  | 0, new_hw_ptr, crossed_boundary => (new_hw_ptr, crossed_boundary)
  | delta + 1, new_hw_ptr, crossed_boundary =>
    let n := new_hw_ptr + s.period_size
    if n ≥ s.boundary then jiffies_skip_loop s delta (n - s.boundary) (crossed_boundary - 1)
    else jiffies_skip_loop s delta n crossed_boundary

/-- The jiffies check (pcm_lib.c:401-444), entered with the locals and `delta` of
the label `__delta`; the result is the locals on reaching `no_jiffies_check`. -/
def hw_ptr_jiffies_check (s : snd_pcm_substream) (curr_jiffies : Nat) (v : hw_ptr_locals)
    (delta : Int) : hw_ptr_locals :=
  if xrun_debug s XRUN_DEBUG_JIFFIESCHECK = 0 then v
  else if s.hw_info_batch = true then v
  else if delta < s.delay then v
  else
    let hdelta : Int := delta - s.delay
    let jdelta : Nat := jiffies_sub curr_jiffies s.hw_ptr_jiffies
    if ulong (Int.tdiv (hdelta * (s.HZ : Int)) (s.rate : Int)) > jdelta + s.HZ / 100 then
      let r := jiffies_skip_loop s (jdelta / ((s.period_size * s.HZ) / s.rate + s.HZ / 100))
        s.hw_ptr v.crossed_boundary
      { hw_base := r.1 - r.1 % s.buffer_size, new_hw_ptr := r.1, crossed_boundary := r.2 }
    else v

/-- The update of `hw_ptr_interrupt` in interrupt context (pcm_lib.c:465-473). -/
def hw_ptr_interrupt_update (s : snd_pcm_substream) (new_hw_ptr : Nat) : snd_pcm_substream :=
  let delta0 : Int := (new_hw_ptr : Int) - (s.hw_ptr_interrupt : Int)
  let delta1 : Int := if delta0 < 0 then delta0 + (s.boundary : Int) else delta0
  let delta : Int := delta1 - ((ulong delta1 % s.period_size : Nat) : Int)
  let p : Nat := ulong ((s.hw_ptr_interrupt : Int) + delta)
  { s with hw_ptr_interrupt := if p ≥ s.boundary then p - s.boundary else p }

/-- The stores of the new position (pcm_lib.c:474-480). -/
def hw_ptr_store (s : snd_pcm_substream) (curr_jiffies : Nat) (v : hw_ptr_locals) :
    snd_pcm_substream :=
  { s with
    hw_ptr_base := v.hw_base
    hw_ptr := v.new_hw_ptr
    hw_ptr_jiffies := curr_jiffies
    hw_ptr_wrap := if v.crossed_boundary ≠ 0 then s.hw_ptr_wrap + s.boundary else s.hw_ptr_wrap }

/-- The code from the label `no_delta_check` on (pcm_lib.c:455-484): nothing is
written when the pointer did not move, otherwise silence is filled, the new
position is stored and `snd_pcm_update_state` decides the result. -/
def hw_ptr_commit (s : snd_pcm_substream) (curr_jiffies : Nat) (in_interrupt : Bool)
    (v : hw_ptr_locals) : Option (Int × snd_pcm_substream) :=
  if s.hw_ptr = v.new_hw_ptr then some (0, s)
  else
    let s1 :=
      if s.stream = snd_pcm_stream.PLAYBACK ∧ s.silence_size > 0 then
        snd_pcm_playback_silence s v.new_hw_ptr
      else some s
    match s1 with
    | none => none
    | some s1 =>
      let s2 := if in_interrupt = true then hw_ptr_interrupt_update s1 v.new_hw_ptr else s1
      some (snd_pcm_update_state (hw_ptr_store s2 curr_jiffies v))

/-- The code from the label `__delta` on (pcm_lib.c:363-484). -/
def hw_ptr_from_delta (s : snd_pcm_substream) (pos curr_jiffies : Nat) (in_interrupt : Bool)
    (v : hw_ptr_locals) : Option (Int × snd_pcm_substream) :=
  let delta := hw_ptr_delta s v
  if s.no_period_wakeup = true then
    let jdelta : Nat := jiffies_sub curr_jiffies s.hw_ptr_jiffies
    if jdelta < s.hw_ptr_buffer_jiffies / 2 then hw_ptr_commit s curr_jiffies in_interrupt v
    else
      let hdelta : Int := (jdelta : Int) - Int.tdiv (delta * (s.HZ : Int)) (s.rate : Int)
      let xrun_threshold : Int := ((s.hw_ptr_buffer_jiffies / 2 + 1 : Nat) : Int)
      match no_period_wakeup_loop s pos xrun_threshold hdelta.toNat hdelta v with
      | none => none
      | some v1 => hw_ptr_commit s curr_jiffies in_interrupt v1
  else if ulong delta ≥ s.buffer_size + s.period_size then some (0, s)
  else hw_ptr_commit s curr_jiffies in_interrupt (hw_ptr_jiffies_check s curr_jiffies v delta)

/-- The function `snd_pcm_update_hw_ptr0` (pcm_lib.c:278).  `pos` is the value
returned by `substream->ops->pointer` and `curr_jiffies` the value of `jiffies`
read at the start of the call. -/
def snd_pcm_update_hw_ptr0 (s : snd_pcm_substream) (pos curr_jiffies : Nat)
    (in_interrupt : Bool) : Option (Int × snd_pcm_substream) :=
  if pos = SNDRV_PCM_POS_XRUN then some (- EPIPE, xrun s)
  else
    let pos1 := hw_ptr_pos s pos
    hw_ptr_from_delta s pos1 curr_jiffies in_interrupt
      (hw_ptr_at_delta s pos1 curr_jiffies in_interrupt)

/-- The function `snd_pcm_update_hw_ptr` (pcm_lib.c:488). -/
def snd_pcm_update_hw_ptr (s : snd_pcm_substream) (pos curr_jiffies : Nat) :
    Option (Int × snd_pcm_substream) :=
  snd_pcm_update_hw_ptr0 s pos curr_jiffies false

/-! ## The transfer loops -/

/-- What the rest of the kernel does on behalf of a transfer: the driver
callbacks and the primitives that drop the stream lock.  A function that runs
with the lock dropped returns the substream as it is found when the lock is
taken again. -/
structure pcm_env where
  /-- The position returned by `substream->ops->pointer(substream)`. -/
  pointer : snd_pcm_substream → Nat
  /-- The value of `jiffies`. -/
  jiffies : snd_pcm_substream → Nat
  /-- The result of `signal_pending(current)`. -/
  signal_pending : snd_pcm_substream → Bool
  /-- The call `schedule_timeout(wait_time)` between unlock and lock: the
  remaining time and the substream found afterwards.  The wait time is in
  seconds, `none` for `MAX_SCHEDULE_TIMEOUT`. -/
  schedule_timeout : snd_pcm_substream → Option Nat → Nat × snd_pcm_substream
  /-- The call `transfer(substream, hwoff, data, off, frames)` between unlock and
  lock: its return value and the substream found afterwards. -/
  transfer : snd_pcm_substream → Nat → Nat → Nat → Int × snd_pcm_substream
  /-- The call `snd_pcm_start(substream)` (`sound/core/pcm_native.c`): its return
  value and the substream it leaves. -/
  snd_pcm_start : snd_pcm_substream → Int × snd_pcm_substream

/-- The wait time of `wait_for_avail` in seconds (pcm_lib.c:935-944), before
`msecs_to_jiffies`; `none` is `MAX_SCHEDULE_TIMEOUT`. -/
def wait_for_avail_time (s : snd_pcm_substream) : Option Nat :=
  if s.no_period_wakeup = true then none
  else if s.rate ≠ 0 then some (max (s.period_size * 2 / s.rate) 10)
  else some 10

/-- The loop `for (;;)` of `wait_for_avail` (pcm_lib.c:946-1000): the error code,
the value stored in `*availp` and the substream; `fuel` bounds the number of
calls of `schedule_timeout`. -/
def wait_for_avail_loop (env : pcm_env) (is_playback : Bool) (wait_time : Option Nat) :
    Nat → snd_pcm_substream → Nat → Option (Int × Nat × snd_pcm_substream)
  | fuel, s, avail0 =>
    if env.signal_pending s = true then some (- ERESTARTSYS, avail0, s)
    else
      let avail := if is_playback = true then snd_pcm_playback_avail s else snd_pcm_capture_avail s
      if avail ≥ s.twake then some (0, avail, s)
      else
        match fuel with
        | 0 => none
        | fuel + 1 =>
          let r := env.schedule_timeout (record s Event.schedule_timeout) wait_time
          let tout := r.1
          let s1 := r.2
          match s1.state with
          | snd_pcm_state.SUSPENDED => some (- ESTRPIPE, avail, s1)
          | snd_pcm_state.XRUN => some (- EPIPE, avail, s1)
          | snd_pcm_state.DRAINING =>
            if is_playback = true then some (- EPIPE, avail, s1) else some (0, 0, s1)
          | snd_pcm_state.OPEN => some (- EBADFD, avail, s1)
          | snd_pcm_state.SETUP => some (- EBADFD, avail, s1)
          | snd_pcm_state.DISCONNECTED => some (- EBADFD, avail, s1)
          | snd_pcm_state.PAUSED => wait_for_avail_loop env is_playback wait_time fuel s1 avail
          | _ =>
            if tout = 0 then some (- EIO, avail, s1)
            else wait_for_avail_loop env is_playback wait_time fuel s1 avail

/-- The function `wait_for_avail` (pcm_lib.c:921). -/
def wait_for_avail (env : pcm_env) (s : snd_pcm_substream) (fuel : Nat) :
    Option (Int × Nat × snd_pcm_substream) :=
  wait_for_avail_loop env (decide (s.stream = snd_pcm_stream.PLAYBACK)) (wait_for_avail_time s)
    fuel s 0

/-- The value `runtime->control->avail_min ? : 1`. -/
def avail_min_or_1 (s : snd_pcm_substream) : Nat :=
  if s.avail_min ≠ 0 then s.avail_min else 1

/-- The label `_end_unlock` of both transfer loops (pcm_lib.c:1120-1125 and
1284-1289). -/
def end_unlock (s : snd_pcm_substream) (xfer : Nat) (err : Int) : Int × snd_pcm_substream :=
  let s1 := { s with twake := 0 }
  let s2 := if xfer > 0 ∧ err ≥ 0 then (snd_pcm_update_state s1).2 else s1
  (if xfer > 0 then (xfer : Int) else err, s2)

/-- The call `snd_pcm_update_hw_ptr(substream)` made on entry of a transfer when
the stream is running (pcm_lib.c:1059-1060 and 1222-1223); its return value is
ignored. -/
def transfer_update_hw_ptr (env : pcm_env) (s : snd_pcm_substream) : Option snd_pcm_substream :=
  if s.state = snd_pcm_state.RUNNING then
    match snd_pcm_update_hw_ptr s (env.pointer s) (env.jiffies s) with
    | none => none
    | some r => some r.2
  else some s

/-- The part of a loop iteration shared by `snd_pcm_lib_write1` and
`snd_pcm_lib_read1` once frames are available (pcm_lib.c:1076-1112 and
1246-1283): either the call ends (`Sum.inl`), or the loop goes on with the new
substream, `size`, `offset`, `xfer`, `avail` and `err` (`Sum.inr`).  The
functions passed for `transfer` take `unsigned int hwoff` and `unsigned int off`
(pcm_lib.c:1008-1009 and 1164-1165, pcm_async.c:29-30 and 88-89), so `appl_ofs`
and `offset` are converted on the call. -/
def transfer_chunk (env : pcm_env) (s : snd_pcm_substream) (size offset xfer avail : Nat) :
    (Int × snd_pcm_substream) ⊕ (snd_pcm_substream × Nat × Nat × Nat × Nat × Int) :=
  let frames0 := if size > avail then avail else size
  let cont := s.buffer_size - s.appl_ptr % s.buffer_size
  let frames := if frames0 > cont then cont else frames0
  if frames = 0 then Sum.inl (- EINVAL, { s with twake := 0 })
  else
    let appl_ptr := s.appl_ptr
    let appl_ofs := appl_ptr % s.buffer_size
    let hwoff := uint appl_ofs
    let off := uint offset
    let r := env.transfer (record s (Event.transfer hwoff off frames)) hwoff off frames
    let err := r.1
    let s1 := r.2
    if err < 0 then Sum.inl (end_unlock s1 xfer err)
    else if s1.state = snd_pcm_state.XRUN then Sum.inl (end_unlock s1 xfer (- EPIPE))
    else if s1.state = snd_pcm_state.SUSPENDED then Sum.inl (end_unlock s1 xfer (- ESTRPIPE))
    else
      let appl_ptr1 := appl_ptr + frames
      let appl_ptr2 := if appl_ptr1 ≥ s1.boundary then appl_ptr1 - s1.boundary else appl_ptr1
      let s2 := { s1 with appl_ptr := appl_ptr2 }
      let s3 := if s2.ops_ack = true then record s2 Event.ack else s2
      Sum.inr (s3, size - frames, offset + frames, xfer + frames, avail - frames, err)

/-- The loop `while (size > 0)` of `snd_pcm_lib_write1` (pcm_lib.c:1062-1119);
`fuel` bounds the iterations of this loop and the wake-ups of each wait. -/
def write1_loop (env : pcm_env) (nonblock : Bool) (wfuel : Nat) :
    Nat → snd_pcm_substream → Nat → Nat → Nat → Nat → Int → Option (Int × snd_pcm_substream)
  | fuel, s, size, offset, xfer, avail, err =>
    if size > 0 then
      match fuel with
      | 0 => none
      | fuel + 1 =>
        let waited : Option ((Int × snd_pcm_substream) ⊕ (snd_pcm_substream × Nat)) :=
          if avail = 0 then
            if nonblock = true then some (Sum.inl (end_unlock s xfer (- EAGAIN)))
            else
              match wait_for_avail env { s with twake := min size (avail_min_or_1 s) } wfuel with
              | none => none
              | some (err1, avail1, s1) =>
                if err1 < 0 then some (Sum.inl (end_unlock s1 xfer err1))
                else some (Sum.inr (s1, avail1))
          else some (Sum.inr (s, avail))
        match waited with
        | none => none
        | some (Sum.inl r) => some r
        | some (Sum.inr (s1, avail1)) =>
          match transfer_chunk env s1 size offset xfer avail1 with
          | Sum.inl r => some r
          | Sum.inr (s2, size2, offset2, xfer2, avail2, err2) =>
            if s2.state = snd_pcm_state.PREPARED ∧
                snd_pcm_playback_hw_avail s2 ≥ slong s2.start_threshold then
              let r := env.snd_pcm_start (record s2 Event.start)
              if r.1 < 0 then some (end_unlock r.2 xfer2 r.1)
              else write1_loop env nonblock wfuel fuel r.2 size2 offset2 xfer2 avail2 r.1
            else write1_loop env nonblock wfuel fuel s2 size2 offset2 xfer2 avail2 err2
    else some (end_unlock s xfer err)

/-- The function `snd_pcm_lib_write1` (pcm_lib.c:1026): the return value and the
substream it leaves.  `fuel` bounds the iterations of the transfer loop and the
wake-ups of each wait. -/
def snd_pcm_lib_write1 (env : pcm_env) (s : snd_pcm_substream) (size : Nat) (nonblock : Bool)
    (fuel : Nat) : Option (Int × snd_pcm_substream) :=
  if size = 0 then some (0, s)
  else
    match s.state with
    | snd_pcm_state.PREPARED | snd_pcm_state.RUNNING | snd_pcm_state.PAUSED =>
      match transfer_update_hw_ptr env { s with twake := avail_min_or_1 s } with
      | none => none
      | some s1 => write1_loop env nonblock fuel fuel s1 size 0 0 (snd_pcm_playback_avail s1) 0
    | snd_pcm_state.XRUN => some (end_unlock s 0 (- EPIPE))
    | snd_pcm_state.SUSPENDED => some (end_unlock s 0 (- ESTRPIPE))
    | _ => some (end_unlock s 0 (- EBADFD))

/-- The loop `while (size > 0)` of `snd_pcm_lib_read1` (pcm_lib.c:1225-1283);
`fuel` bounds the iterations of this loop and the wake-ups of each wait. -/
def read1_loop (env : pcm_env) (nonblock : Bool) (wfuel : Nat) :
    Nat → snd_pcm_substream → Nat → Nat → Nat → Nat → Int → Option (Int × snd_pcm_substream)
  | fuel, s, size, offset, xfer, avail, err =>
    if size > 0 then
      match fuel with
      | 0 => none
      | fuel + 1 =>
        if avail = 0 then
          if s.state = snd_pcm_state.DRAINING then
            some (end_unlock (snd_pcm_stop s snd_pcm_state.SETUP) xfer err)
          else if nonblock = true then some (end_unlock s xfer (- EAGAIN))
          else
            match wait_for_avail env { s with twake := min size (avail_min_or_1 s) } wfuel with
            | none => none
            | some (err1, avail1, s1) =>
              if err1 < 0 then some (end_unlock s1 xfer err1)
              else if avail1 = 0 then read1_loop env nonblock wfuel fuel s1 size offset xfer avail1 err1
              else
                match transfer_chunk env s1 size offset xfer avail1 with
                | Sum.inl r => some r
                | Sum.inr (s2, size2, offset2, xfer2, avail2, err2) =>
                  read1_loop env nonblock wfuel fuel s2 size2 offset2 xfer2 avail2 err2
        else
          match transfer_chunk env s size offset xfer avail with
          | Sum.inl r => some r
          | Sum.inr (s2, size2, offset2, xfer2, avail2, err2) =>
            read1_loop env nonblock wfuel fuel s2 size2 offset2 xfer2 avail2 err2
    else some (end_unlock s xfer err)

/-- The code of `snd_pcm_lib_read1` after the state switch (pcm_lib.c:1221-1290). -/
def read1_body (env : pcm_env) (s : snd_pcm_substream) (size : Nat) (nonblock : Bool)
    (fuel : Nat) (err : Int) : Option (Int × snd_pcm_substream) :=
  match transfer_update_hw_ptr env { s with twake := avail_min_or_1 s } with
  | none => none
  | some s1 => read1_loop env nonblock fuel fuel s1 size 0 0 (snd_pcm_capture_avail s1) err

/-- The function `snd_pcm_lib_read1` (pcm_lib.c:1182): the return value and the
substream it leaves.  `fuel` bounds the iterations of the transfer loop and the
wake-ups of each wait. -/
def snd_pcm_lib_read1 (env : pcm_env) (s : snd_pcm_substream) (size : Nat) (nonblock : Bool)
    (fuel : Nat) : Option (Int × snd_pcm_substream) :=
  if size = 0 then some (0, s)
  else
    match s.state with
    | snd_pcm_state.PREPARED =>
      if size ≥ s.start_threshold then
        let r := env.snd_pcm_start (record s Event.start)
        if r.1 < 0 then some (end_unlock r.2 0 r.1)
        else read1_body env r.2 size nonblock fuel r.1
      else read1_body env s size nonblock fuel 0
    | snd_pcm_state.DRAINING | snd_pcm_state.RUNNING | snd_pcm_state.PAUSED =>
      read1_body env s size nonblock fuel 0
    | snd_pcm_state.XRUN => some (end_unlock s 0 (- EPIPE))
    | snd_pcm_state.SUSPENDED => some (end_unlock s 0 (- ESTRPIPE))
    | _ => some (end_unlock s 0 (- EBADFD))

/-- The function `pcm_sanity_check` (pcm_lib.c:1129).  The check
`PCM_RUNTIME_CHECK` passes: a record always has its runtime. -/
def pcm_sanity_check (s : snd_pcm_substream) : Int :=
  if s.ops_copy = false ∧ s.dma_area = false then - EINVAL
  else if s.state = snd_pcm_state.OPEN then - EBADFD
  else 0

/-- The function `snd_pcm_lib_write` (pcm_lib.c:1142). -/
def snd_pcm_lib_write (env : pcm_env) (s : snd_pcm_substream) (size fuel : Nat) :
    Option (Int × snd_pcm_substream) :=
  if pcm_sanity_check s < 0 then some (pcm_sanity_check s, s)
  else if s.access ≠ snd_pcm_access.RW_INTERLEAVED ∧ s.channels > 1 then some (- EINVAL, s)
  else snd_pcm_lib_write1 env s size s.f_flags_nonblock fuel

/-- The function `snd_pcm_lib_read` (pcm_lib.c:1292). -/
def snd_pcm_lib_read (env : pcm_env) (s : snd_pcm_substream) (size fuel : Nat) :
    Option (Int × snd_pcm_substream) :=
  if pcm_sanity_check s < 0 then some (pcm_sanity_check s, s)
  else if s.access ≠ snd_pcm_access.RW_INTERLEAVED then some (- EINVAL, s)
  else snd_pcm_lib_read1 env s size s.f_flags_nonblock fuel

/-- The function `snd_pcm_lib_readv` (pcm_async.c:64). -/
def snd_pcm_lib_readv (env : pcm_env) (s : snd_pcm_substream) (frames fuel : Nat) :
    Option (Int × snd_pcm_substream) :=
  if pcm_sanity_check s < 0 then some (pcm_sanity_check s, s)
  else if s.state = snd_pcm_state.OPEN then some (- EBADFD, s)
  else if s.access ≠ snd_pcm_access.RW_NONINTERLEAVED then some (- EINVAL, s)
  else snd_pcm_lib_read1 env s frames s.f_flags_nonblock fuel

/-- The function `snd_pcm_lib_writev` (pcm_async.c:127). -/
def snd_pcm_lib_writev (env : pcm_env) (s : snd_pcm_substream) (frames fuel : Nat) :
    Option (Int × snd_pcm_substream) :=
  if pcm_sanity_check s < 0 then some (pcm_sanity_check s, s)
  else if s.access ≠ snd_pcm_access.RW_NONINTERLEAVED then some (- EINVAL, s)
  else snd_pcm_lib_write1 env s frames s.f_flags_nonblock fuel

/-! ## Configuration space: intervals and masks -/

/-- Modelled from the spec: `struct snd_interval` is declared in
include/uapi/sound/asound.h, which is not among the sources.  It is the numeric
interval of section 4.1, with an explicit open/closed flag at both ends; `min`
and `max` are `unsigned int`, `integer` restricts the interval to integers and
`empty` is set by a refinement that left no value. -/
structure snd_interval where
  min : Nat
  max : Nat
  openmin : Bool
  openmax : Bool
  integer : Bool
  empty : Bool
deriving DecidableEq, Repr

/-- Modelled from the spec: `snd_interval_empty` is an inline function of
include/sound/pcm_params.h, which is not among the sources; it reads the flag
`empty` of the interval. -/
def snd_interval_empty (i : snd_interval) : Bool := i.empty

/-- Modelled from the spec: `snd_interval_single` is an inline function of
include/sound/pcm_params.h, which is not among the sources.  An interval is
single-valued when its bounds are equal, or when they are one apart and the
upper bound is open. -/
def snd_interval_single (i : snd_interval) : Bool :=
  decide (i.min = i.max ∨ ((i.min + 1) % UINT_MOD = i.max ∧ i.openmax = true))

/-- Modelled from the spec: `snd_interval_value` is an inline function of
include/sound/pcm_params.h, which is not among the sources; the scalar read back
from a single-valued interval is its lower bound. -/
def snd_interval_value (i : snd_interval) : Nat := i.min

/-- The function `snd_interval_refine_first` (pcm_lib.c:535): the return value and
the interval it leaves.  `snd_BUG_ON` yields its condition; `i->max++` is
`unsigned int` arithmetic. -/
def snd_interval_refine_first (i : snd_interval) : Int × snd_interval :=
  if snd_interval_empty i = true then (- EINVAL, i)
  else if snd_interval_single i = true then (0, i)
  else
    let i1 := { i with max := i.min }
    let i2 := { i1 with openmax := i1.openmin }
    let i3 := if i2.openmax = true then { i2 with max := (i2.max + 1) % UINT_MOD } else i2
    (1, i3)

/-- The function `snd_interval_refine_last` (pcm_lib.c:548): the return value and
the interval it leaves.  `i->min--` is `unsigned int` arithmetic. -/
def snd_interval_refine_last (i : snd_interval) : Int × snd_interval :=
  if snd_interval_empty i = true then (- EINVAL, i)
  else if snd_interval_single i = true then (0, i)
  else
    let i1 := { i with min := i.max }
    let i2 := { i1 with openmin := i1.openmax }
    let i3 :=
      if i2.openmin = true then { i2 with min := (i2.min + UINT_MOD - 1) % UINT_MOD } else i2
    (1, i3)

/-- The number of values a mask ranges over, `SNDRV_MASK_MAX`. -/
def SNDRV_MASK_MAX : Nat := 256

/-- Modelled from the spec: `struct snd_mask` is declared in
include/uapi/sound/asound.h, which is not among the sources.  It is the discrete
set of allowed values of section 3, kept as a bitmap: value `v` is allowed when
bit `v` of `bits` is set. -/
structure snd_mask where
  bits : Nat
deriving DecidableEq, Repr

/-- The allowed values of a mask, in increasing order. -/
def snd_mask_values (m : snd_mask) : List Nat :=
  (List.range SNDRV_MASK_MAX).filter (fun v => m.bits.testBit v)

/-- Modelled from the spec: `snd_mask_single` is an inline function of
include/sound/pcm_params.h, which is not among the sources; a mask is
single-valued when exactly one value is allowed. -/
def snd_mask_single (m : snd_mask) : Bool := decide ((snd_mask_values m).length = 1)

/-- Modelled from the spec: `snd_mask_value` is an inline function of
include/sound/pcm_params.h, which is not among the sources; the scalar read back
from a mask is its smallest allowed value. -/
def snd_mask_value (m : snd_mask) : Nat := (snd_mask_values m).headD 0

/-- The first and the last mask parameter, `SNDRV_PCM_HW_PARAM_FIRST_MASK` and
`SNDRV_PCM_HW_PARAM_LAST_MASK` (access, format, subformat). -/
def SNDRV_PCM_HW_PARAM_FIRST_MASK : Nat := 0

/-- See `SNDRV_PCM_HW_PARAM_FIRST_MASK`. -/
def SNDRV_PCM_HW_PARAM_LAST_MASK : Nat := 2

/-- The first and the last interval parameter, `SNDRV_PCM_HW_PARAM_FIRST_INTERVAL`
and `SNDRV_PCM_HW_PARAM_LAST_INTERVAL` (sample bits up to tick time). -/
def SNDRV_PCM_HW_PARAM_FIRST_INTERVAL : Nat := 8

/-- See `SNDRV_PCM_HW_PARAM_FIRST_INTERVAL`. -/
def SNDRV_PCM_HW_PARAM_LAST_INTERVAL : Nat := 19

/-- The parameter `SNDRV_PCM_HW_PARAM_RATE`. -/
def SNDRV_PCM_HW_PARAM_RATE : Nat := 11

/-- Modelled from the spec: `hw_is_mask` is an inline function of
include/sound/pcm_params.h, which is not among the sources; the parameter is one
of the mask parameters of the configuration space. -/
def hw_is_mask (var : Nat) : Bool :=
  decide (SNDRV_PCM_HW_PARAM_FIRST_MASK ≤ var ∧ var ≤ SNDRV_PCM_HW_PARAM_LAST_MASK)

/-- Modelled from the spec: `hw_is_interval` is an inline function of
include/sound/pcm_params.h, which is not among the sources; the parameter is one
of the interval parameters of the configuration space. -/
def hw_is_interval (var : Nat) : Bool :=
  decide (SNDRV_PCM_HW_PARAM_FIRST_INTERVAL ≤ var ∧ var ≤ SNDRV_PCM_HW_PARAM_LAST_INTERVAL)

/-- Modelled from the spec: `struct snd_pcm_hw_params` is declared in
include/uapi/sound/asound.h, which is not among the sources.  It is the
configuration space of section 3: the masks and the intervals, indexed from the
first parameter of their kind, and the bit sets `rmask` (parameters to refine)
and `cmask` (parameters changed). -/
structure snd_pcm_hw_params where
  masks : Nat → snd_mask
  intervals : Nat → snd_interval
  rmask : Nat
  cmask : Nat

/-- Modelled from the spec: `hw_param_mask_c` is an inline function of
include/sound/pcm_params.h, which is not among the sources; the mask of a mask
parameter. -/
def hw_param_mask_c (params : snd_pcm_hw_params) (var : Nat) : snd_mask :=
  params.masks (var - SNDRV_PCM_HW_PARAM_FIRST_MASK)

/-- Modelled from the spec: `hw_param_interval_c` is an inline function of
include/sound/pcm_params.h, which is not among the sources; the interval of an
interval parameter. -/
def hw_param_interval_c (params : snd_pcm_hw_params) (var : Nat) : snd_interval :=
  params.intervals (var - SNDRV_PCM_HW_PARAM_FIRST_INTERVAL)

/-- The function `snd_pcm_hw_param_value` (pcm_lib.c:601): the return value and
the content of `*dir` after the call.  `dir` is `none` for a `NULL` pointer and
otherwise the content of `*dir` before the call; `params` is `const` and only
read.  The function returns `int`: the `unsigned int` value of the field is
converted. -/
def snd_pcm_hw_param_value (params : snd_pcm_hw_params) (var : Nat) (dir : Option Int) :
    Int × Option Int :=
  if hw_is_mask var = true then
    let mask := hw_param_mask_c params var
    if snd_mask_single mask = false then (- EINVAL, dir)
    else (int_of_uint (snd_mask_value mask), dir.map (fun _ => 0))
  else if hw_is_interval var = true then
    let i := hw_param_interval_c params var
    if snd_interval_single i = false then (- EINVAL, dir)
    else
      (int_of_uint (snd_interval_value i), dir.map (fun _ => if i.openmin = true then 1 else 0))
  else (- EINVAL, dir)

/-- Modelled from the spec: `snd_mask_refine_first` is an inline function of
include/sound/pcm_params.h, which is not among the sources.  Section 4.1:
refine-to-first collapses a multi-valued set to its minimum, reports whether the
set changed and fails when the set is empty. -/
def snd_mask_refine_first (m : snd_mask) : Int × snd_mask :=
  if snd_mask_values m = [] then (- EINVAL, m)
  else if snd_mask_single m = true then (0, m)
  else (1, { bits := 2 ^ snd_mask_value m })

/-- Modelled from the spec: `snd_mask_refine_last` is an inline function of
include/sound/pcm_params.h, which is not among the sources.  Section 4.1:
refine-to-last collapses a multi-valued set to its maximum, reports whether the
set changed and fails when the set is empty. -/
def snd_mask_refine_last (m : snd_mask) : Int × snd_mask :=
  if snd_mask_values m = [] then (- EINVAL, m)
  else if snd_mask_single m = true then (0, m)
  else (1, { bits := 2 ^ (snd_mask_values m).getLastD 0 })

/-- The statement `if (changed) { params->cmask |= 1 << var; params->rmask |= 1 << var; }`
(pcm_lib.c:653-656 and 700-703): a C condition holds for every non-zero value. -/
def hw_param_mark (params : snd_pcm_hw_params) (var : Nat) (changed : Int) : snd_pcm_hw_params :=
  if changed ≠ 0 then
    { params with cmask := params.cmask ||| (1 <<< var), rmask := params.rmask ||| (1 <<< var) }
  else params

/-- The function `_snd_pcm_hw_param_first` (pcm_lib.c:643): the return value and
the parameters it leaves.  The refinement works on the mask or interval of `var`
in place (`hw_param_mask`, `hw_param_interval`). -/
def _snd_pcm_hw_param_first (params : snd_pcm_hw_params) (var : Nat) :
    Int × snd_pcm_hw_params :=
  if hw_is_mask var = true then
    let r := snd_mask_refine_first (hw_param_mask_c params var)
    let params1 :=
      { params with
        masks := Function.update params.masks (var - SNDRV_PCM_HW_PARAM_FIRST_MASK) r.2 }
    (r.1, hw_param_mark params1 var r.1)
  else if hw_is_interval var = true then
    let r := snd_interval_refine_first (hw_param_interval_c params var)
    let params1 :=
      { params with
        intervals :=
          Function.update params.intervals (var - SNDRV_PCM_HW_PARAM_FIRST_INTERVAL) r.2 }
    (r.1, hw_param_mark params1 var r.1)
  else (- EINVAL, params)

/-- The function `_snd_pcm_hw_param_last` (pcm_lib.c:690): the return value and
the parameters it leaves. -/
def _snd_pcm_hw_param_last (params : snd_pcm_hw_params) (var : Nat) :
    Int × snd_pcm_hw_params :=
  if hw_is_mask var = true then
    let r := snd_mask_refine_last (hw_param_mask_c params var)
    let params1 :=
      { params with
        masks := Function.update params.masks (var - SNDRV_PCM_HW_PARAM_FIRST_MASK) r.2 }
    (r.1, hw_param_mark params1 var r.1)
  else if hw_is_interval var = true then
    let r := snd_interval_refine_last (hw_param_interval_c params var)
    let params1 :=
      { params with
        intervals :=
          Function.update params.intervals (var - SNDRV_PCM_HW_PARAM_FIRST_INTERVAL) r.2 }
    (r.1, hw_param_mark params1 var r.1)
  else (- EINVAL, params)

/-! ## `snd_pcm_lib_ioctl` -/

/-- Modelled from the spec: `snd_pcm_running` is an inline function of
`include/sound/pcm.h`, which is not among the sources.  Section 4.2: the
hardware moves its pointer while the stream is `RUNNING` and, for playback,
while it is `DRAINING` (the ring is played out until it runs empty). -/
def snd_pcm_running (s : snd_pcm_substream) : Bool :=
  decide (s.state = snd_pcm_state.RUNNING ∨
    (s.state = snd_pcm_state.DRAINING ∧ s.stream = snd_pcm_stream.PLAYBACK))

/-- The commands `snd_pcm_lib_ioctl` tells apart (`SNDRV_PCM_IOCTL1_*`; their
numbers are in `include/sound/pcm.h`, which is not among the sources); `OTHER`
is any other command. -/
inductive snd_pcm_ioctl1
  | INFO
  | RESET
  | CHANNEL_INFO
  | FIFO_SIZE
  | OTHER
deriving DecidableEq, Repr

/-- The function `snd_pcm_lib_ioctl_reset` (pcm_lib.c:776): the return value and
the substream it leaves. -/
def snd_pcm_lib_ioctl_reset (env : pcm_env) (s : snd_pcm_substream) :
    Option (Int × snd_pcm_substream) :=
  if snd_pcm_running s = true then
    match snd_pcm_update_hw_ptr s (env.pointer s) (env.jiffies s) with
    | none => none
    | some r =>
      if r.1 ≥ 0 then some (0, { r.2 with hw_ptr := r.2.hw_ptr % r.2.buffer_size })
      else some (0, { r.2 with hw_ptr := 0, hw_ptr_wrap := 0 })
  else some (0, { s with hw_ptr := 0, hw_ptr_wrap := 0 })

/-- The return value of `snd_pcm_lib_ioctl_channel_info` (pcm_lib.c:793), which
writes to `*arg` only.  `info_mmap` is `runtime->info & SNDRV_PCM_INFO_MMAP` and
`width` the result of `snd_pcm_format_physical_width(runtime->format)`. -/
def snd_pcm_lib_ioctl_channel_info (info_mmap : Bool) (width : Int) : Int :=
  if info_mmap = false then 0
  else if width < 0 then width
  else 0

/-- The return value of `snd_pcm_lib_ioctl_fifo_size` (pcm_lib.c:825), which
writes to `*arg` only. -/
def snd_pcm_lib_ioctl_fifo_size : Int := 0

/-- The function `snd_pcm_lib_ioctl` (pcm_lib.c:858): the return value and the
substream it leaves; `info_mmap` and `width` are what the channel-info command
reads (see `snd_pcm_lib_ioctl_channel_info`). -/
def snd_pcm_lib_ioctl (env : pcm_env) (s : snd_pcm_substream) (cmd : snd_pcm_ioctl1)
    (info_mmap : Bool) (width : Int) : Option (Int × snd_pcm_substream) :=
  match cmd with
  | snd_pcm_ioctl1.INFO => some (0, s)
  | snd_pcm_ioctl1.RESET => snd_pcm_lib_ioctl_reset env s
  | snd_pcm_ioctl1.CHANNEL_INFO => some (snd_pcm_lib_ioctl_channel_info info_mmap width, s)
  | snd_pcm_ioctl1.FIFO_SIZE => some (snd_pcm_lib_ioctl_fifo_size, s)
  | snd_pcm_ioctl1.OTHER => some (- ENXIO, s)

/-! ## Channel maps -/

/-- The speaker positions used by the tables of pcm_lib.c (`SNDRV_CHMAP_*`, an
enumeration of include/uapi/sound/asound.h, which is not among the sources).
`UNKNOWN` is the position numbered `0`, the value of a slot that an initialiser
leaves out. -/
inductive snd_chmap
  | UNKNOWN
  | MONO
  | FL
  | FR
  | RL
  | RR
  | FC
  | LFE
  | SL
  | SR
deriving DecidableEq, Repr

/-- The number of slots of `snd_pcm_chmap_elem.map`. -/
def SNDRV_CHMAP_SLOTS : Nat := 15

/-- The type `struct snd_pcm_chmap_elem`: a channel count and the positions of
its channels (`unsigned char map[15]`). -/
structure snd_pcm_chmap_elem where
  channels : Nat
  map : List snd_chmap
deriving DecidableEq, Repr

/-- An initialiser `{ .channels = n, .map = { ... } }`: the slots that are not
listed are zero. -/
def chmap_elem (channels : Nat) (listed : List snd_chmap) : snd_pcm_chmap_elem :=
  { channels := channels
    map := listed ++ List.replicate (SNDRV_CHMAP_SLOTS - listed.length) snd_chmap.UNKNOWN }

/-- The table `snd_pcm_std_chmaps` (pcm_lib.c:1317). -/
def snd_pcm_std_chmaps : List snd_pcm_chmap_elem :=
  [ chmap_elem 1 [snd_chmap.MONO],
    chmap_elem 2 [snd_chmap.FL, snd_chmap.FR],
    chmap_elem 4 [snd_chmap.FL, snd_chmap.FR, snd_chmap.RL, snd_chmap.RR],
    chmap_elem 6 [snd_chmap.FL, snd_chmap.FR, snd_chmap.RL, snd_chmap.RR,
                  snd_chmap.FC, snd_chmap.LFE],
    chmap_elem 8 [snd_chmap.FL, snd_chmap.FR, snd_chmap.RL, snd_chmap.RR,
                  snd_chmap.FC, snd_chmap.LFE, snd_chmap.SL, snd_chmap.SR],
    chmap_elem 0 [] ]

/-- The table `snd_pcm_alt_chmaps` (pcm_lib.c:1338). -/
def snd_pcm_alt_chmaps : List snd_pcm_chmap_elem :=
  [ chmap_elem 1 [snd_chmap.MONO],
    chmap_elem 2 [snd_chmap.FL, snd_chmap.FR],
    chmap_elem 4 [snd_chmap.FL, snd_chmap.FR, snd_chmap.RL, snd_chmap.RR],
    chmap_elem 6 [snd_chmap.FL, snd_chmap.FR, snd_chmap.FC, snd_chmap.LFE,
                  snd_chmap.RL, snd_chmap.RR],
    chmap_elem 8 [snd_chmap.FL, snd_chmap.FR, snd_chmap.FC, snd_chmap.LFE,
                  snd_chmap.RL, snd_chmap.RR, snd_chmap.SL, snd_chmap.SR],
    chmap_elem 0 [] ]

/-! ## The firmware log of `drivers/accel/ivpu/ivpu_fw_log.c` -/

/-- The members of `struct vpu_tracing_buffer_header` that ivpu_fw_log.c reads or
writes while it walks a log buffer (the structure is declared in
vpu_boot_api.h, which is not among the sources).  `size` is a `u32`,
`header_size` a `u16`. -/
structure vpu_tracing_buffer_header where
  vpu_canary_start : Nat
  read_index : Nat
  write_index : Nat
  wrap_count : Nat
  size : Nat
  header_size : Nat
deriving DecidableEq, Repr

/-- What ivpu_fw_log.c takes from vpu_boot_api.h, which is not among the
sources: the constant `VPU_TRACING_BUFFER_CANARY` and
`sizeof(struct vpu_tracing_buffer_header)`. -/
structure vpu_boot_api where
  VPU_TRACING_BUFFER_CANARY : Nat
  sizeof_header : Nat
deriving DecidableEq, Repr

/-- The type `struct ivpu_fw_log` (ivpu_fw_log.h:28) without its name: `vaddr`
gives the header that the bytes at each offset of the buffer spell, `size` is
the size of the buffer in bytes. -/
structure ivpu_fw_log where
  vaddr : Nat → vpu_tracing_buffer_header
  size : Nat

/-- The function `fw_log_ptr` (ivpu_fw_log.c:34): `Except.error` carries the
error code, `Except.ok` the header stored in `*log_header` and the new value of
`*offset`.  `*offset` is a `u32`; the two comparisons are made on `size_t` and on
pointers, which do not wrap here. -/
def fw_log_ptr (api : vpu_boot_api) (vaddr : Nat → vpu_tracing_buffer_header) (size : Nat)
    (offset : Nat) : Except Int (vpu_tracing_buffer_header × Nat) :=
  if offset + api.sizeof_header > size then Except.error (- EINVAL)
  else
    let log := vaddr offset
    if log.vpu_canary_start ≠ api.VPU_TRACING_BUFFER_CANARY then Except.error (- EINVAL)
    else if log.header_size < api.sizeof_header ∨ log.header_size > 1024 then
      Except.error (- EINVAL)
    else if offset + log.size > size then Except.error (- EINVAL)
    else Except.ok (log, (offset + log.size) % UINT_MOD)

/-- The loop `while (fw_log_ptr(..., &next, &log_header) == 0)
fw_log_print_buffer(log_header, ...)` of `ivpu_fw_log_print` (ivpu_fw_log.c:142):
the headers handed to `fw_log_print_buffer`, in order; `fuel` bounds the number
of iterations. -/
def fw_log_print_loop (api : vpu_boot_api) (log : ivpu_fw_log) :
    Nat → Nat → List vpu_tracing_buffer_header → Option (List vpu_tracing_buffer_header)
  | fuel, next, printed =>
    match fw_log_ptr api log.vaddr log.size next with
    | Except.error _ => some printed
    | Except.ok r =>
      match fuel with
      | 0 => none
      | fuel + 1 => fw_log_print_loop api log fuel r.2 (printed ++ [r.1])

/-- The function `ivpu_fw_log_print` (ivpu_fw_log.c:132): for each log of the
array, the headers printed; `fuel` bounds the iterations of each walk. -/
def ivpu_fw_log_print (api : vpu_boot_api) (fuel : Nat) :
    List ivpu_fw_log → Option (List (List vpu_tracing_buffer_header))
  | [] => some []
  | log :: logs =>
    match fw_log_print_loop api log fuel 0 [] with
    | none => none
    | some printed =>
      match ivpu_fw_log_print api fuel logs with
      | none => none
      | some rest => some (printed :: rest)

/-- One loop `while (fw_log_ptr_bo(..., &next, &log_header) == 0)
log_header->read_index = log_header->write_index;` of `ivpu_fw_log_clear`
(ivpu_fw_log.c:171 and 175): the buffer it leaves; `fuel` bounds the number of
iterations. -/
def fw_log_clear_loop (api : vpu_boot_api) (size : Nat) :
    Nat → Nat → (Nat → vpu_tracing_buffer_header) → Option (Nat → vpu_tracing_buffer_header)
  | fuel, next, vaddr =>
    match fw_log_ptr api vaddr size next with
    | Except.error _ => some vaddr
    | Except.ok r =>
      match fuel with
      | 0 => none
      | fuel + 1 =>
        fw_log_clear_loop api size fuel r.2
          (Function.update vaddr next { r.1 with read_index := r.1.write_index })

/-- The function `ivpu_fw_log_clear` (ivpu_fw_log.c:165) on the critical and the
verbose log buffer: the two buffers it leaves. -/
def ivpu_fw_log_clear (api : vpu_boot_api) (fuel : Nat) (mem_log_crit mem_log_verb : ivpu_fw_log) :
    Option (ivpu_fw_log × ivpu_fw_log) :=
  match fw_log_clear_loop api mem_log_crit.size fuel 0 mem_log_crit.vaddr with
  | none => none
  | some crit =>
    match fw_log_clear_loop api mem_log_verb.size fuel 0 mem_log_verb.vaddr with
    | none => none
    | some verb =>
      some ({ mem_log_crit with vaddr := crit }, { mem_log_verb with vaddr := verb })

/-! ## Predicates used in the statements -/

/-- The cumulative frame position `hw_ptr_wrap + hw_ptr`, the `audio_frames` of
`update_audio_tstamp` (pcm_lib.c:255). -/
def audio_frames (s : snd_pcm_substream) : Nat := s.hw_ptr_wrap + s.hw_ptr

/-- The locals `v` describe a position that is not behind the old `hw_ptr`: the
new pointer is the new base plus `pos`, and either a boundary crossing has been
counted or the new pointer is at or after the old one. -/
def not_behind (s : snd_pcm_substream) (pos : Nat) (v : hw_ptr_locals) : Prop :=
  v.new_hw_ptr = v.hw_base + pos ∧ 0 ≤ v.crossed_boundary ∧
  (v.crossed_boundary = 0 → s.hw_ptr ≤ v.new_hw_ptr)

/-- The integer `n` is admitted by the interval `i`: the interval is not flagged
empty and `n` lies between its bounds, an open bound being excluded. -/
def snd_interval_admits (i : snd_interval) (n : Nat) : Prop :=
  i.empty = false ∧ (i.min < n ∨ (i.min = n ∧ i.openmin = false)) ∧
    (n < i.max ∨ (n = i.max ∧ i.openmax = false))

instance (i : snd_interval) (n : Nat) : Decidable (snd_interval_admits i n) := by
  unfold snd_interval_admits
  infer_instance

/-- The length of the next chunk, `frames` after the two clamps of the transfer
loops (pcm_lib.c:1076-1079 and 1246-1249): at most `size`, at most the cached
available count and at most the distance to the end of the ring. -/
def chunk_frames (s : snd_pcm_substream) (size avail : Nat) : Nat :=
  let frames0 := if size > avail then avail else size
  let cont := s.buffer_size - s.appl_ptr % s.buffer_size
  if frames0 > cont then cont else frames0

/-- The stores that end a successful chunk (pcm_lib.c:1100-1105 and 1270-1275):
the advanced application pointer, reduced once by `boundary`, and the call of
`ack`. -/
def chunk_commit (t : snd_pcm_substream) (appl_ptr : Nat) : snd_pcm_substream :=
  let t2 := { t with appl_ptr := if appl_ptr ≥ t.boundary then appl_ptr - t.boundary
                                  else appl_ptr }
  if t2.ops_ack = true then record t2 Event.ack else t2

/-- The substream `t'` has the ring geometry, the application pointer, the
direction and `twake` of `t`: what the transfer loop owns while it runs. -/
def keeps_ring (t t' : snd_pcm_substream) : Prop :=
  t'.appl_ptr = t.appl_ptr ∧ t'.boundary = t.boundary ∧ t'.buffer_size = t.buffer_size ∧
    t'.twake = t.twake ∧ t'.stream = t.stream

/-- The callbacks of the environment (the wait, the copy and `snd_pcm_start`)
leave to the transfer loop what it owns; the hardware pointer and the state may
change under them. -/
def callbacks_keep_ring (env : pcm_env) : Prop :=
  (∀ t w, keeps_ring t (env.schedule_timeout t w).2) ∧
  (∀ t hwoff off frames, keeps_ring t (env.transfer t hwoff off frames).2) ∧
  (∀ t, keeps_ring t (env.snd_pcm_start t).2)

/-- The rest of an iteration of the loop of `snd_pcm_lib_write1` once an
available count is at hand (pcm_lib.c:1076-1116): the chunk, the start of a
prepared stream at its threshold, and the next iteration. -/
def write1_chunk (env : pcm_env) (nonblock : Bool) (wfuel fuel : Nat) (s : snd_pcm_substream)
    (size offset xfer avail : Nat) : Option (Int × snd_pcm_substream) :=
  match transfer_chunk env s size offset xfer avail with
  | Sum.inl r => some r
  | Sum.inr (s2, size2, offset2, xfer2, avail2, err2) =>
    if s2.state = snd_pcm_state.PREPARED ∧
        snd_pcm_playback_hw_avail s2 ≥ slong s2.start_threshold then
      let r := env.snd_pcm_start (record s2 Event.start)
      if r.1 < 0 then some (end_unlock r.2 xfer2 r.1)
      else write1_loop env nonblock wfuel fuel r.2 size2 offset2 xfer2 avail2 r.1
    else write1_loop env nonblock wfuel fuel s2 size2 offset2 xfer2 avail2 err2

/-- The rest of an iteration of the loop of `snd_pcm_lib_read1` once an available
count is at hand (pcm_lib.c:1246-1282): the chunk and the next iteration. -/
def read1_chunk (env : pcm_env) (nonblock : Bool) (wfuel fuel : Nat) (s : snd_pcm_substream)
    (size offset xfer avail : Nat) : Option (Int × snd_pcm_substream) :=
  match transfer_chunk env s size offset xfer avail with
  | Sum.inl r => some r
  | Sum.inr (s2, size2, offset2, xfer2, avail2, err2) =>
    read1_loop env nonblock wfuel fuel s2 size2 offset2 xfer2 avail2 err2

/-- The result `r`, `s'` of a transfer loop entered on the substream `s` with
`xfer` frames counted and `size` frames to go counts `n` frames in all: at most
`size` more than on entry, by which the application pointer has advanced modulo
`boundary`; `r` is `n` when `n > 0` and is not positive when `n = 0`. -/
def transfer_counts (s : snd_pcm_substream) (xfer size : Nat) (r : Int) (s' : snd_pcm_substream)
    (n : Nat) : Prop :=
  xfer ≤ n ∧ n ≤ xfer + size ∧ s'.appl_ptr = (s.appl_ptr + (n - xfer)) % s.boundary ∧
    s'.boundary = s.boundary ∧ (0 < n → r = (n : Int)) ∧ (n = 0 → r ≤ 0)

/-- The pointer invariant of the position update: `boundary` and `hw_ptr_base`
are multiples of `buffer_size`, the base is below `boundary` and the pointer
lies in the buffer that starts at the base. -/
def hw_ptr_invariant (s : snd_pcm_substream) : Prop :=
  s.boundary % s.buffer_size = 0 ∧ s.hw_ptr_base % s.buffer_size = 0 ∧
  s.hw_ptr_base < s.boundary ∧ s.hw_ptr_base ≤ s.hw_ptr ∧
  s.hw_ptr < s.hw_ptr_base + s.buffer_size

instance (s : snd_pcm_substream) : Decidable (hw_ptr_invariant s) := by
  unfold hw_ptr_invariant
  infer_instance

/-- The number of frames of silence that the calls recorded in a trace wrote for
`channel` (`-1`: all channels of an interleaved stream). -/
def silence_written (tr : List Event) (channel : Int) : Nat :=
  (tr.map (fun e =>
    match e with
    | Event.silence c _ frames => if c = channel then frames else 0
    | _ => 0)).sum

/-- The ring offsets that the calls recorded in a trace filled with silence for
`channel`, in the order they were written. -/
def silence_offsets (tr : List Event) (channel : Int) : List Nat :=
  tr.flatMap (fun e =>
    match e with
    | Event.silence c ofs frames =>
      if c = channel then (List.range frames).map (fun k => ofs + k) else []
    | _ => [])

/-- The ring offsets of the frames `[first, last)`. -/
def frame_offsets (s : snd_pcm_substream) (first last : Nat) : List Nat :=
  (List.range (last - first)).map (fun k => (first + k) % s.buffer_size)

/-- The locals `v` of the position update describe a pointer that keeps the
pointer invariant: the base is a multiple of `buffer_size` below `boundary` and
the new pointer lies in the buffer that starts at the base. -/
def locals_in_buffer (s : snd_pcm_substream) (v : hw_ptr_locals) : Prop :=
  v.hw_base % s.buffer_size = 0 ∧ v.hw_base < s.boundary ∧ v.hw_base ≤ v.new_hw_ptr ∧
  v.new_hw_ptr < v.hw_base + s.buffer_size

/-- Whether a chunk of silence is written for `channel`: the pseudo-channel `-1`
of an interleaved stream, each channel of the stream otherwise. -/
def silence_channel (s : snd_pcm_substream) (channel : Int) : Bool :=
  if s.access = snd_pcm_access.RW_INTERLEAVED ∨ s.access = snd_pcm_access.MMAP_INTERLEAVED then
    decide (channel = -1)
  else decide (0 ≤ channel ∧ channel < (s.channels : Int))

/-! ## Concrete streams -/

/-- A running playback stream with a full ring: `buffer_size = 1024`,
`period_size = 256`, `boundary = 4096`, 1024 frames written, none played. -/
def full_ring : snd_pcm_substream :=
  { stream := snd_pcm_stream.PLAYBACK, pstr_xrun_debug := 0, ops_ack := false,
    ops_silence := false, ops_copy := true, dma_area := true, f_flags_nonblock := true,
    HZ := 1000, state := snd_pcm_state.RUNNING, hw_ptr := 0, appl_ptr := 1024,
    avail_min := 256, hw_ptr_base := 0, hw_ptr_interrupt := 0, hw_ptr_jiffies := 0,
    hw_ptr_buffer_jiffies := 21, hw_ptr_wrap := 0, buffer_size := 1024, period_size := 256,
    boundary := 4096, min_align := 1, rate := 48000, delay := 0, no_period_wakeup := false,
    hw_info_batch := false, access := snd_pcm_access.RW_INTERLEAVED, channels := 2,
    start_threshold := 256, stop_threshold := 1024, silence_threshold := 0, silence_size := 0,
    silence_start := 0, silence_filled := 0, avail_max := 0, twake := 0, trace := [] }

/-- A stream with the debug jiffies check enabled, 100 frames before the end of
the boundary: `hw_ptr_base = 3072`, `hw_ptr = 3996`, `rate = 8000`. -/
def ring_near_boundary : snd_pcm_substream :=
  { full_ring with pstr_xrun_debug := 4, rate := 8000, hw_ptr_base := 3072, hw_ptr := 3996,
                   appl_ptr := 4000, stop_threshold := 4096 }

/-- A draining playback stream with 1000 frames still queued and
`stop_threshold = 0`. -/
def draining_ring : snd_pcm_substream :=
  { full_ring with state := snd_pcm_state.DRAINING, hw_ptr := 24, stop_threshold := 0 }

/-- An environment in which nothing happens: the position stays at `0`, no
signal is pending, a wait times out, a copy succeeds and the start succeeds by
moving the stream to `RUNNING`. -/
def idle_env : pcm_env :=
  { pointer := fun _ => 0
    jiffies := fun s => s.hw_ptr_jiffies
    signal_pending := fun _ => false
    schedule_timeout := fun s _ => (0, s)
    transfer := fun s _ _ _ => (0, s)
    snd_pcm_start := fun s => (0, { s with state := snd_pcm_state.RUNNING }) }

/-- The ring of Scenario 1 before the write: state `PREPARED`, nothing written,
nothing played. -/
def prepared_ring : snd_pcm_substream :=
  { full_ring with state := snd_pcm_state.PREPARED, appl_ptr := 0 }

/-- The ring of Scenario 1 after the write of 1024 frames: one chunk, then the
start at the threshold. -/
def prepared_ring_written : snd_pcm_substream :=
  { full_ring with trace := [Event.transfer 0 0 1024, Event.start] }

/-- The ring of Scenario 1 after a blocking write of 2000 frames whose wait for
more room timed out. -/
def prepared_ring_timed_out : snd_pcm_substream :=
  { full_ring with
    trace := [Event.transfer 0 0 1024, Event.start, Event.schedule_timeout] }

/-- A paused playback stream whose pointers are 96 frames before `boundary`, with
an empty ring. -/
def ring_before_boundary : snd_pcm_substream :=
  { full_ring with state := snd_pcm_state.PAUSED, hw_ptr_base := 3072, hw_ptr := 4000,
                   appl_ptr := 4000 }

/-- The stream `ring_before_boundary` after a write of 96 frames: one chunk up
to the end of the ring, the application pointer wrapped to `0` at `boundary`. -/
def ring_after_boundary : snd_pcm_substream :=
  { ring_before_boundary with
    appl_ptr := 0
    avail_max := 928
    trace := [Event.transfer 928 0 96, Event.wake_up_sleep] }

/-- A playback stream in threshold mode: `silence_threshold = silence_size = 8`
on a ring of 1024 frames, the application 2 frames before the end of the ring
(`appl_ptr = silence_start = 1022`), 4 frames queued for the hardware and nothing
silenced yet. -/
def silence_ring : snd_pcm_substream :=
  { full_ring with hw_ptr := 1018, appl_ptr := 1022, silence_threshold := 8,
                   silence_size := 8, silence_start := 1022, silence_filled := 0 }

/-- The stream `silence_ring` after a first call of `snd_pcm_playback_silence`:
4 frames silenced, at the ring offsets 1022, 1023, 0 and 1. -/
def silence_ring_filled : snd_pcm_substream :=
  { silence_ring with
    silence_filled := 4
    trace := [Event.silence (-1) 1022 2, Event.silence (-1) 0 2] }

/-- A configuration space whose intervals have been left empty by a refinement
that failed, with no parameter marked yet. -/
def empty_params : snd_pcm_hw_params :=
  { masks := fun _ => { bits := 4 }
    intervals := fun _ =>
      { min := 48000, max := 8000, openmin := false, openmax := false, integer := true,
        empty := true }
    rmask := 0
    cmask := 0 }

/-- Sample values for what vpu_boot_api.h declares: the canary `0xCAFECAFE` and a
header of 128 bytes. -/
def sample_boot_api : vpu_boot_api :=
  { VPU_TRACING_BUFFER_CANARY := 0xCAFECAFE, sizeof_header := 128 }

/-- A log buffer of 4096 bytes that starts with a header whose canary and
`header_size` are valid and whose `size` is `0`; the rest of the buffer is zero. -/
def stuck_log : ivpu_fw_log :=
  { size := 4096
    vaddr := fun offset =>
      if offset = 0 then
        { vpu_canary_start := 0xCAFECAFE, read_index := 0, write_index := 0, wrap_count := 0,
          size := 0, header_size := 128 }
      else
        { vpu_canary_start := 0, read_index := 0, write_index := 0, wrap_count := 0,
          size := 0, header_size := 0 } }

/-! ## Properties -/

/-- An integer in `[-m, 2m)` reduced modulo `m`. -/
theorem emod_cases (x m : Int) (h1 : -m ≤ x) (h2 : x < 2 * m) :
    x % m = if x < 0 then x + m else if m ≤ x then x - m else x := by
  split
  · rw [← Int.add_emod_self, Int.emod_eq_of_lt (by omega) (by omega)]
  · split
    · have h : x % m = (x - m) % m := by
        conv_rhs => rw [← Int.add_emod_self, Int.sub_add_cancel]
      rw [h, Int.emod_eq_of_lt (by omega) (by omega)]
    · exact Int.emod_eq_of_lt (by omega) (by omega)

/-- The capture availability of in-range pointers, without the modulo. -/
theorem capture_avail_eq (s : snd_pcm_substream) (hh : s.hw_ptr < s.boundary)
    (ha : s.appl_ptr < s.boundary) :
    (snd_pcm_capture_avail s : Int) =
      if (s.hw_ptr : Int) - s.appl_ptr < 0 then (s.hw_ptr : Int) - s.appl_ptr + s.boundary
      else (s.hw_ptr : Int) - s.appl_ptr := by
  unfold snd_pcm_capture_avail
  rw [emod_cases _ _ (by omega) (by omega)]
  have h3 : ¬ ((s.boundary : Int) ≤ (s.hw_ptr : Int) - s.appl_ptr) := by omega
  rw [if_neg h3]
  split <;> omega

/-- The playback availability of in-range pointers, without the modulo. -/
theorem playback_avail_eq (s : snd_pcm_substream) (hh : s.hw_ptr < s.boundary)
    (ha : s.appl_ptr < s.boundary) (hb : s.buffer_size ≤ s.boundary) :
    (snd_pcm_playback_avail s : Int) =
      if (s.hw_ptr : Int) + s.buffer_size - s.appl_ptr < 0 then
        (s.hw_ptr : Int) + s.buffer_size - s.appl_ptr + s.boundary
      else if (s.hw_ptr : Int) + s.buffer_size - s.appl_ptr ≥ s.boundary then
        (s.hw_ptr : Int) + s.buffer_size - s.appl_ptr - s.boundary
      else (s.hw_ptr : Int) + s.buffer_size - s.appl_ptr := by
  unfold snd_pcm_playback_avail
  rw [emod_cases ((s.appl_ptr : Int) - s.hw_ptr) _ (by omega) (by omega)]
  split
  · rw [emod_cases _ _ (by omega) (by omega)]
    split <;> split <;> omega
  · have h3 : ¬ ((s.boundary : Int) ≤ (s.appl_ptr : Int) - s.hw_ptr) := by omega
    rw [if_neg h3, emod_cases _ _ (by omega) (by omega)]
    split <;> split <;> omega

/-! ### What the position update leaves alone -/

/-- Recording calls only extends the trace. -/
theorem foldl_record_frame (e : Nat → Event) (l : List Nat) (s : snd_pcm_substream) :
    ∃ tr, l.foldl (fun t c => record t (e c)) s = { s with trace := tr } := by
  induction l generalizing s with
  | nil => exact ⟨s.trace, rfl⟩
  | cons c l ih =>
    obtain ⟨tr, h⟩ := ih (record s (e c))
    exact ⟨tr, by rw [List.foldl_cons, h]; rfl⟩

/-- One chunk of silence only extends the trace. -/
theorem silence_chunk_frame (s : snd_pcm_substream) (ofs transfer : Nat) :
    ∃ tr, silence_chunk s ofs transfer = { s with trace := tr } := by
  unfold silence_chunk
  split
  · exact ⟨_, rfl⟩
  · exact foldl_record_frame (fun c => Event.silence (Int.ofNat c) ofs transfer) _ s

/-- The silence loop changes `silence_filled` and the trace only. -/
theorem silence_loop_frame (fuel : Nat) (s : snd_pcm_substream) (frames ofs : Nat)
    (s' : snd_pcm_substream) (h : silence_loop fuel s frames ofs = some s') :
    ∃ b tr, s' = { s with silence_filled := b, trace := tr } := by
  induction fuel generalizing s frames ofs with
  | zero =>
    unfold silence_loop at h
    split at h
    · simp at h
    · exact ⟨s.silence_filled, s.trace, by simpa using h.symm⟩
  | succ n ih =>
    unfold silence_loop at h
    split at h
    · dsimp only at h
      obtain ⟨tr, hc⟩ := silence_chunk_frame s ofs
        (if ofs + frames > s.buffer_size then s.buffer_size - ofs else frames)
      rw [hc] at h
      obtain ⟨b, tr', h'⟩ := ih _ _ _ h
      exact ⟨b, tr', by rw [h']⟩
    · exact ⟨s.silence_filled, s.trace, by simpa using h.symm⟩

/-- The silence loop ends when every iteration can write a frame. -/
theorem silence_loop_total (fuel : Nat) (s : snd_pcm_substream) (frames ofs : Nat)
    (hf : frames ≤ fuel) (ho : ofs < s.buffer_size) :
    ∃ s', silence_loop fuel s frames ofs = some s' := by
  induction fuel generalizing s frames ofs with
  | zero =>
    unfold silence_loop
    rw [if_neg (by omega)]
    exact ⟨s, rfl⟩
  | succ n ih =>
    unfold silence_loop
    split
    · dsimp only
      obtain ⟨tr, hc⟩ := silence_chunk_frame s ofs
        (if ofs + frames > s.buffer_size then s.buffer_size - ofs else frames)
      rw [hc]
      apply ih
      · split <;> omega
      · show 0 < s.buffer_size
        omega
    · exact ⟨s, rfl⟩

/-- The tail of `snd_pcm_playback_silence` always returns, and changes
`silence_filled` and the trace only. -/
theorem silence_fill_frame (s : snd_pcm_substream) (frames : Nat) :
    ∃ b tr, silence_fill s frames = some { s with silence_filled := b, trace := tr } := by
  unfold silence_fill
  split
  · exact ⟨s.silence_filled, s.trace, rfl⟩
  · split
    · exact ⟨s.silence_filled, s.trace, rfl⟩
    · have hb : 0 < s.buffer_size := by omega
      obtain ⟨s', h⟩ := silence_loop_total frames s frames (s.silence_start % s.buffer_size)
        (Nat.le_refl _) (Nat.mod_lt _ hb)
      obtain ⟨b, tr, h'⟩ := silence_loop_frame _ _ _ _ _ h
      exact ⟨b, tr, by rw [h, h']⟩

/-- The function `snd_pcm_playback_silence` always returns, and changes
`silence_start`, `silence_filled` and the trace only. -/
theorem snd_pcm_playback_silence_frame (s : snd_pcm_substream) (new_hw_ptr : Nat) :
    ∃ a b tr, snd_pcm_playback_silence s new_hw_ptr
      = some { s with silence_start := a, silence_filled := b, trace := tr } := by
  unfold snd_pcm_playback_silence
  split
  · dsimp only
    generalize hs1 : (if s.silence_start ≠ s.appl_ptr then _ else s) = s1
    have h1 : ∃ a b, s1 = { s with silence_start := a, silence_filled := b } := by
      rw [← hs1]
      split
      · exact ⟨_, _, rfl⟩
      · exact ⟨s.silence_start, s.silence_filled, rfl⟩
    obtain ⟨a, b, h1⟩ := h1
    split
    · exact ⟨a, b, s.trace, by rw [h1]⟩
    · split
      · exact ⟨a, b, s.trace, by rw [h1]⟩
      · obtain ⟨b', tr, h⟩ := silence_fill_frame s1
          (if ulong ((s1.silence_threshold : Int)
              - (snd_pcm_playback_hw_avail s1 + (s1.silence_filled : Int))) > s1.silence_size
            then s1.silence_size
            else ulong ((s1.silence_threshold : Int)
              - (snd_pcm_playback_hw_avail s1 + (s1.silence_filled : Int))))
        exact ⟨a, b', tr, by rw [h, h1]⟩
  · split
    · dsimp only
      obtain ⟨b', tr, h⟩ := silence_fill_frame
        { s with
          silence_filled :=
            if (if ulong (snd_pcm_playback_hw_avail s) > s.buffer_size then (s.buffer_size : Int)
                else snd_pcm_playback_hw_avail s) > 0
            then ulong (if ulong (snd_pcm_playback_hw_avail s) > s.buffer_size
                then (s.buffer_size : Int) else snd_pcm_playback_hw_avail s)
            else 0
          silence_start :=
            (s.hw_ptr + (if (if ulong (snd_pcm_playback_hw_avail s) > s.buffer_size
                then (s.buffer_size : Int) else snd_pcm_playback_hw_avail s) > 0
              then ulong (if ulong (snd_pcm_playback_hw_avail s) > s.buffer_size
                then (s.buffer_size : Int) else snd_pcm_playback_hw_avail s)
              else 0)) % s.boundary }
        (ulong ((s.buffer_size : Int) - ((if (if ulong (snd_pcm_playback_hw_avail s) > s.buffer_size
                then (s.buffer_size : Int) else snd_pcm_playback_hw_avail s) > 0
              then ulong (if ulong (snd_pcm_playback_hw_avail s) > s.buffer_size
                then (s.buffer_size : Int) else snd_pcm_playback_hw_avail s)
              else 0 : Nat) : Int)))
      exact ⟨_, b', tr, by rw [h]⟩
    · dsimp only
      generalize hs1 : (if (s.silence_filled : Int) - _ < 0 then _ else _) = s1
      have h1 : ∃ a b, s1 = { s with silence_start := a, silence_filled := b } := by
        rw [← hs1]
        repeat' split
        all_goals exact ⟨_, _, rfl⟩
      obtain ⟨a, b, h1⟩ := h1
      obtain ⟨b', tr, h⟩ := silence_fill_frame s1
        (ulong ((s1.buffer_size : Int) - (s1.silence_filled : Int)))
      exact ⟨a, b', tr, by rw [h, h1]⟩

/-- The function `snd_pcm_update_state` changes `avail_max`, the state and the
trace only. -/
theorem snd_pcm_update_state_frame (s : snd_pcm_substream) :
    ∃ m st tr, (snd_pcm_update_state s).2 = { s with avail_max := m, state := st, trace := tr } := by
  unfold snd_pcm_update_state
  dsimp only
  generalize ht : (if update_state_avail s > s.avail_max then
    { s with avail_max := update_state_avail s } else s) = t
  have h1 : ∃ m, t = { s with avail_max := m } := by
    rw [← ht]
    split
    · exact ⟨_, rfl⟩
    · exact ⟨s.avail_max, rfl⟩
  obtain ⟨m, h1⟩ := h1
  have hw : ∃ tr, update_state_wake t (update_state_avail s) = { t with trace := tr } := by
    unfold update_state_wake
    repeat' split
    all_goals exact ⟨_, rfl⟩
  obtain ⟨tr, hw⟩ := hw
  repeat' split
  · exact ⟨m, _, _, by rw [h1]; rfl⟩
  · exact ⟨m, s.state, tr, by rw [hw, h1]⟩
  · exact ⟨m, _, _, by rw [h1]; rfl⟩
  · exact ⟨m, s.state, tr, by rw [hw, h1]⟩

/-- The code from `no_delta_check` on: it always returns; when the pointer did not
move nothing is written, otherwise the new position, base, jiffies and wrap count
are stored and only the state, `hw_ptr_interrupt` (in interrupt context), the
silence fields, `avail_max` and the trace may change besides. -/
theorem hw_ptr_commit_spec (s : snd_pcm_substream) (curr_jiffies : Nat) (in_interrupt : Bool)
    (v : hw_ptr_locals) :
    (s.hw_ptr = v.new_hw_ptr → hw_ptr_commit s curr_jiffies in_interrupt v = some (0, s)) ∧
    (s.hw_ptr ≠ v.new_hw_ptr → ∃ r st hi a b m tr,
      hw_ptr_commit s curr_jiffies in_interrupt v = some (r,
        { s with
          state := st
          hw_ptr := v.new_hw_ptr
          hw_ptr_base := v.hw_base
          hw_ptr_interrupt := hi
          hw_ptr_jiffies := curr_jiffies
          hw_ptr_wrap := if v.crossed_boundary ≠ 0 then s.hw_ptr_wrap + s.boundary
            else s.hw_ptr_wrap
          silence_start := a
          silence_filled := b
          avail_max := m
          trace := tr }) ∧
      (in_interrupt = false → hi = s.hw_ptr_interrupt)) := by
  constructor
  · intro h
    unfold hw_ptr_commit
    rw [if_pos h]
  · intro h
    unfold hw_ptr_commit
    rw [if_neg h]
    dsimp only
    have h1 : ∃ a b tr, (if s.stream = snd_pcm_stream.PLAYBACK ∧ s.silence_size > 0 then
        snd_pcm_playback_silence s v.new_hw_ptr else some s)
        = some { s with silence_start := a, silence_filled := b, trace := tr } := by
      split
      · exact snd_pcm_playback_silence_frame s v.new_hw_ptr
      · exact ⟨s.silence_start, s.silence_filled, s.trace, rfl⟩
    obtain ⟨a, b, tr, h1⟩ := h1
    rw [h1]
    dsimp only
    cases in_interrupt with
    | false =>
      simp only [Bool.false_eq_true, if_false]
      obtain ⟨m, st, tr', h3⟩ := snd_pcm_update_state_frame
        (hw_ptr_store { s with silence_start := a, silence_filled := b, trace := tr }
          curr_jiffies v)
      refine ⟨(snd_pcm_update_state (hw_ptr_store
          { s with silence_start := a, silence_filled := b, trace := tr } curr_jiffies v)).1,
        st, s.hw_ptr_interrupt, a, b, m, tr', ?_, fun _ => rfl⟩
      exact congrArg some (Prod.ext rfl (by rw [h3]; rfl))
    | true =>
      simp only [if_true]
      obtain ⟨m, st, tr', h3⟩ := snd_pcm_update_state_frame
        (hw_ptr_store (hw_ptr_interrupt_update
          { s with silence_start := a, silence_filled := b, trace := tr } v.new_hw_ptr)
          curr_jiffies v)
      refine ⟨(snd_pcm_update_state (hw_ptr_store (hw_ptr_interrupt_update
          { s with silence_start := a, silence_filled := b, trace := tr } v.new_hw_ptr)
          curr_jiffies v)).1,
        st, (hw_ptr_interrupt_update
            { s with silence_start := a, silence_filled := b, trace := tr }
            v.new_hw_ptr).hw_ptr_interrupt, a, b, m, tr', ?_, fun h => by simp at h⟩
      exact congrArg some (Prod.ext rfl (by rw [h3]; rfl))

/-- When the pointer moves, the commit returns a substream holding the new
position; the sizes and the configuration are those it found. -/
theorem hw_ptr_commit_moves (s : snd_pcm_substream) (curr_jiffies : Nat) (in_interrupt : Bool)
    (v : hw_ptr_locals) (h : s.hw_ptr ≠ v.new_hw_ptr) :
    ∃ r s', hw_ptr_commit s curr_jiffies in_interrupt v = some (r, s') ∧
      s'.hw_ptr = v.new_hw_ptr ∧ s'.hw_ptr_base = v.hw_base ∧
      s'.hw_ptr_wrap = (if v.crossed_boundary ≠ 0 then s.hw_ptr_wrap + s.boundary
        else s.hw_ptr_wrap) ∧
      s'.hw_ptr_jiffies = curr_jiffies ∧
      (in_interrupt = false → s'.hw_ptr_interrupt = s.hw_ptr_interrupt) ∧
      s'.buffer_size = s.buffer_size ∧ s'.boundary = s.boundary ∧
      s'.period_size = s.period_size ∧ s'.min_align = s.min_align ∧
      s'.no_period_wakeup = s.no_period_wakeup ∧ s'.pstr_xrun_debug = s.pstr_xrun_debug := by
  obtain ⟨r, st, hi, a, b, m, tr, hc, hh⟩ := (hw_ptr_commit_spec s curr_jiffies in_interrupt v).2 h
  exact ⟨r, _, hc, rfl, rfl, rfl, rfl, hh, rfl, rfl, rfl, rfl, rfl, rfl⟩

/-! ### C2: playback and capture availability of one pointer pair -/

/-- C2 (counterexample): on the full ring (`buffer_size = 1024`, `boundary = 4096`,
`hw_ptr = 0`, `appl_ptr = 1024`), which satisfies every hypothesis of the claim,
the playback availability is `0` and the capture availability is `3072`: they
do not add up to `buffer_size`. -/
theorem C2_counterexample :
    0 < full_ring.buffer_size ∧ full_ring.boundary % full_ring.buffer_size = 0 ∧
    full_ring.boundary ≥ 2 * full_ring.buffer_size ∧
    full_ring.hw_ptr < full_ring.boundary ∧ full_ring.appl_ptr < full_ring.boundary ∧
    snd_pcm_playback_avail full_ring = 0 ∧ snd_pcm_capture_avail full_ring = 3072 ∧
    snd_pcm_playback_avail full_ring + snd_pcm_capture_avail full_ring
      ≠ full_ring.buffer_size := by
  decide

/-- C2 (amended): for `buffer_size > 0`, `boundary` a multiple of `buffer_size`,
`boundary >= 2 * buffer_size` and both pointers below `boundary`, the playback
availability is the capture availability plus `buffer_size`, modulo `boundary`;
the two add up to `buffer_size` exactly when `appl_ptr = hw_ptr`, or when
`boundary = 2 * buffer_size` and the capture availability is `buffer_size`. -/
theorem C2_avail_complement (s : snd_pcm_substream) (h0 : 0 < s.buffer_size)
    (_hm : s.boundary % s.buffer_size = 0) (h2 : s.boundary ≥ 2 * s.buffer_size)
    (hh : s.hw_ptr < s.boundary) (ha : s.appl_ptr < s.boundary) :
    snd_pcm_playback_avail s = (snd_pcm_capture_avail s + s.buffer_size) % s.boundary ∧
    (snd_pcm_playback_avail s + snd_pcm_capture_avail s = s.buffer_size ↔
      (s.appl_ptr = s.hw_ptr ∨
        (s.boundary = 2 * s.buffer_size ∧ snd_pcm_capture_avail s = s.buffer_size))) := by
  have hp := playback_avail_eq s hh ha (by omega)
  have hc := capture_avail_eq s hh ha
  generalize snd_pcm_playback_avail s = p at hp ⊢
  generalize snd_pcm_capture_avail s = c at hc ⊢
  constructor
  · by_cases h : c + s.buffer_size < s.boundary
    · rw [Nat.mod_eq_of_lt h]
      split at hp <;> split at hc <;> (try split at hp) <;> omega
    · rw [Nat.mod_eq_sub_mod (by omega), Nat.mod_eq_of_lt]
      · split at hp <;> split at hc <;> (try split at hp) <;> omega
      · split at hc <;> omega
  · split at hp <;> split at hc <;> (try split at hp) <;> omega

/-- C2 (witness): the amended statement on the full ring. -/
theorem C2_avail_complement_witness :
    snd_pcm_playback_avail full_ring
        = (snd_pcm_capture_avail full_ring + full_ring.buffer_size) % full_ring.boundary ∧
    (snd_pcm_playback_avail full_ring + snd_pcm_capture_avail full_ring = full_ring.buffer_size ↔
      (full_ring.appl_ptr = full_ring.hw_ptr ∨
        (full_ring.boundary = 2 * full_ring.buffer_size ∧
          snd_pcm_capture_avail full_ring = full_ring.buffer_size))) :=
  C2_avail_complement full_ring (by decide) (by decide) (by decide) (by decide) (by decide)

/-! ### C1, C3, C4: calls of `snd_pcm_update_hw_ptr0` that change nothing -/

/-- The new pointer at the label `__delta` is the new base plus the position. -/
theorem hw_ptr_at_delta_new (s : snd_pcm_substream) (pos curr_jiffies : Nat)
    (in_interrupt : Bool) :
    (hw_ptr_at_delta s pos curr_jiffies in_interrupt).new_hw_ptr
      = (hw_ptr_at_delta s pos curr_jiffies in_interrupt).hw_base + pos := by
  unfold hw_ptr_at_delta hw_base_advance
  dsimp only
  repeat' split
  all_goals simp

/-- Outside interrupt context the locals at `__delta` do not depend on `jiffies`. -/
theorem hw_ptr_at_delta_no_interrupt (s : snd_pcm_substream) (pos j j' : Nat) :
    hw_ptr_at_delta s pos j false = hw_ptr_at_delta s pos j' false := by
  unfold hw_ptr_at_delta
  simp

/-- Outside interrupt context, with period wake-ups on and the jiffies check off,
the update is the distance check followed by the commit. -/
theorem update_hw_ptr0_no_interrupt (s : snd_pcm_substream) (pos j : Nat)
    (hnpw : s.no_period_wakeup = false) (hdbg : xrun_debug s XRUN_DEBUG_JIFFIESCHECK = 0)
    (hpos : pos ≠ SNDRV_PCM_POS_XRUN) :
    snd_pcm_update_hw_ptr0 s pos j false =
      if ulong (hw_ptr_delta s (hw_ptr_at_delta s (hw_ptr_pos s pos) 0 false))
          ≥ s.buffer_size + s.period_size then some (0, s)
      else hw_ptr_commit s j false (hw_ptr_at_delta s (hw_ptr_pos s pos) 0 false) := by
  unfold snd_pcm_update_hw_ptr0 hw_ptr_from_delta
  rw [if_neg hpos]
  dsimp only
  rw [hw_ptr_at_delta_no_interrupt s _ j 0]
  simp [hnpw, hw_ptr_jiffies_check, hdbg]

/-- When the pointer already is the base plus the reported position, the update
outside interrupt context changes nothing. -/
theorem update_hw_ptr0_same_pos (t : snd_pcm_substream) (pos j : Nat)
    (hnpw : t.no_period_wakeup = false) (hdbg : xrun_debug t XRUN_DEBUG_JIFFIESCHECK = 0)
    (hpos : pos ≠ SNDRV_PCM_POS_XRUN) (hp : t.hw_ptr = t.hw_ptr_base + hw_ptr_pos t pos) :
    snd_pcm_update_hw_ptr0 t pos j false = some (0, t) := by
  rw [update_hw_ptr0_no_interrupt t pos j hnpw hdbg hpos]
  have hv : hw_ptr_at_delta t (hw_ptr_pos t pos) 0 false
      = { hw_base := t.hw_ptr_base, new_hw_ptr := t.hw_ptr_base + hw_ptr_pos t pos,
          crossed_boundary := 0 } := by
    unfold hw_ptr_at_delta
    simp [hp]
  rw [hv]
  split
  · rfl
  · exact (hw_ptr_commit_spec t j false _).1 hp

/-- C1 (counterexample): with `no_period_wakeup` set, a first update at position
100 puts `hw_ptr` at 100; a second update that reads the same position 100, but
100 jiffies later, moves `hw_ptr` to 2148 and `hw_ptr_base` to 2048. -/
theorem C1_counterexample :
    let s : snd_pcm_substream :=
      { full_ring with no_period_wakeup := true, hw_ptr_buffer_jiffies := 10,
                       stop_threshold := 4096 }
    let s1 : snd_pcm_substream := { s with hw_ptr := 100, avail_max := 100 }
    snd_pcm_update_hw_ptr s 100 0 = some (0, s1) ∧
    (snd_pcm_update_hw_ptr s1 100 100).map (fun r => (r.2.hw_ptr, r.2.hw_ptr_base))
      = some (2148, 2048) := by
  decide

/-- C1 (amended): with `no_period_wakeup` off and the debug jiffies check off,
two calls of `snd_pcm_update_hw_ptr` in a row both return, whatever `jiffies`
reads, and if the pointer callback reports the same raw offset both times the
second call changes neither `hw_ptr` nor `hw_ptr_base`. -/
theorem C1_update_idempotent (s : snd_pcm_substream) (pos j1 j2 : Nat)
    (hnpw : s.no_period_wakeup = false) (hdbg : xrun_debug s XRUN_DEBUG_JIFFIESCHECK = 0) :
    ∃ r1 s1 r2 s2, snd_pcm_update_hw_ptr s pos j1 = some (r1, s1) ∧
      snd_pcm_update_hw_ptr s1 pos j2 = some (r2, s2) ∧
      s2.hw_ptr = s1.hw_ptr ∧ s2.hw_ptr_base = s1.hw_ptr_base := by
  unfold snd_pcm_update_hw_ptr
  by_cases hpos : pos = SNDRV_PCM_POS_XRUN
  · refine ⟨- EPIPE, xrun s, - EPIPE, xrun (xrun s), ?_, ?_, rfl, rfl⟩
    · unfold snd_pcm_update_hw_ptr0
      rw [if_pos hpos]
    · unfold snd_pcm_update_hw_ptr0
      rw [if_pos hpos]
  · by_cases hd : ulong (hw_ptr_delta s (hw_ptr_at_delta s (hw_ptr_pos s pos) 0 false))
        ≥ s.buffer_size + s.period_size
    · have h : ∀ j, snd_pcm_update_hw_ptr0 s pos j false = some (0, s) := by
        intro j
        rw [update_hw_ptr0_no_interrupt s pos j hnpw hdbg hpos, if_pos hd]
      exact ⟨0, s, 0, s, h j1, h j2, rfl, rfl⟩
    · by_cases hq : s.hw_ptr = (hw_ptr_at_delta s (hw_ptr_pos s pos) 0 false).new_hw_ptr
      · have h : ∀ j, snd_pcm_update_hw_ptr0 s pos j false = some (0, s) := by
          intro j
          rw [update_hw_ptr0_no_interrupt s pos j hnpw hdbg hpos, if_neg hd]
          exact (hw_ptr_commit_spec s j false _).1 hq
        exact ⟨0, s, 0, s, h j1, h j2, rfl, rfl⟩
      · obtain ⟨r, s1, hc, hp, hb, _, _, _, hB, _, _, hma, hn, hx⟩ := hw_ptr_commit_moves s j1 false
          (hw_ptr_at_delta s (hw_ptr_pos s pos) 0 false) hq
        refine ⟨r, s1, 0, s1, ?_, ?_, rfl, rfl⟩
        · rw [update_hw_ptr0_no_interrupt s pos j1 hnpw hdbg hpos, if_neg hd]
          exact hc
        · apply update_hw_ptr0_same_pos s1 pos j2 (by rw [hn]; exact hnpw)
            (by unfold xrun_debug; rw [hx]; exact hdbg) hpos
          have h : hw_ptr_pos s1 pos = hw_ptr_pos s pos := by
            unfold hw_ptr_pos
            rw [hB, hma]
          rw [hp, hb, h]
          exact hw_ptr_at_delta_new s (hw_ptr_pos s pos) 0 false

/-- C1 (witness): two updates of the full ring that both read the raw offset 300,
the second one 4 jiffies after the first. -/
theorem C1_update_idempotent_witness :
    ∃ r1 s1 r2 s2, snd_pcm_update_hw_ptr full_ring 300 5 = some (r1, s1) ∧
      snd_pcm_update_hw_ptr s1 300 9 = some (r2, s2) ∧
      s2.hw_ptr = s1.hw_ptr ∧ s2.hw_ptr_base = s1.hw_ptr_base :=
  C1_update_idempotent full_ring 300 5 9 rfl (by decide)

/-- C3 (counterexample): with `no_period_wakeup` set, an update in interrupt
context that finds `hw_ptr = 100`, `hw_ptr_interrupt = 3840` and reads position
400, 20 jiffies after the last update, computes the distance 1324, which exceeds
`buffer_size + period_size = 1280`; the call nevertheless stores `hw_ptr = 1424`
and `hw_ptr_base = 1024`, stops the stream with an xrun and returns `-EPIPE`. -/
theorem C3_counterexample :
    let s : snd_pcm_substream :=
      { full_ring with no_period_wakeup := true, hw_ptr := 100, appl_ptr := 1124,
                       hw_ptr_interrupt := 3840 }
    ulong (hw_ptr_delta s (hw_ptr_at_delta s (hw_ptr_pos s 400) 20 true)) = 1324 ∧
    s.buffer_size + s.period_size = 1280 ∧
    (snd_pcm_update_hw_ptr0 s 400 20 true).map
        (fun r => (r.1, r.2.hw_ptr, r.2.hw_ptr_base, r.2.state))
      = some (- EPIPE, 1424, 1024, snd_pcm_state.XRUN) := by
  decide

/-- C3 (amended): with `no_period_wakeup` off, in either context, a call that
reaches the distance check (the reported position is not `SNDRV_PCM_POS_XRUN`)
with a distance `delta`, from the old `hw_ptr` to the new pointer computed at the
label `__delta`, of at least `buffer_size + period_size` returns `0` and leaves
the whole substream unchanged. -/
theorem C3_unexpected_hw_ptr (s : snd_pcm_substream) (pos curr_jiffies : Nat)
    (in_interrupt : Bool) (hnpw : s.no_period_wakeup = false)
    (hpos : pos ≠ SNDRV_PCM_POS_XRUN)
    (hd : ulong (hw_ptr_delta s (hw_ptr_at_delta s (hw_ptr_pos s pos) curr_jiffies in_interrupt))
      ≥ s.buffer_size + s.period_size) :
    snd_pcm_update_hw_ptr0 s pos curr_jiffies in_interrupt = some (0, s) := by
  unfold snd_pcm_update_hw_ptr0 hw_ptr_from_delta
  rw [if_neg hpos]
  simp [hnpw, hd]

/-- C3 (witness): the stream of the counterexample with `no_period_wakeup` off. -/
theorem C3_unexpected_hw_ptr_witness :
    snd_pcm_update_hw_ptr0
      { full_ring with hw_ptr := 100, appl_ptr := 1124, hw_ptr_interrupt := 3840 } 400 20 true
      = some (0, { full_ring with hw_ptr := 100, appl_ptr := 1124, hw_ptr_interrupt := 3840 }) :=
  C3_unexpected_hw_ptr
    { full_ring with hw_ptr := 100, appl_ptr := 1124, hw_ptr_interrupt := 3840 } 400 20 true
    rfl (by decide) (by decide)

/-- C4 (counterexample): the position `SNDRV_PCM_POS_XRUN` lies outside
`[0, buffer_size)`, and the update does not treat it as position `0`: it stops
the stream with an xrun and returns `-EPIPE`, where position `0` returns `0` and
changes nothing. -/
theorem C4_counterexample :
    SNDRV_PCM_POS_XRUN ≥ full_ring.buffer_size ∧
    snd_pcm_update_hw_ptr0 full_ring SNDRV_PCM_POS_XRUN 0 false
      = some (- EPIPE,
          { full_ring with state := snd_pcm_state.XRUN, trace := [Event.stop snd_pcm_state.XRUN] }) ∧
    snd_pcm_update_hw_ptr0 full_ring 0 0 false = some (0, full_ring) := by
  decide

/-- C4 (amended): for every raw position `pos >= buffer_size` other than
`SNDRV_PCM_POS_XRUN`, `snd_pcm_update_hw_ptr0` behaves exactly as for `pos = 0`:
same return value and same resulting substream, in either context. -/
theorem C4_bad_pos_is_zero (s : snd_pcm_substream) (pos curr_jiffies : Nat)
    (in_interrupt : Bool) (hr : pos ≥ s.buffer_size) (hx : pos ≠ SNDRV_PCM_POS_XRUN) :
    snd_pcm_update_hw_ptr0 s pos curr_jiffies in_interrupt
      = snd_pcm_update_hw_ptr0 s 0 curr_jiffies in_interrupt := by
  have h0 : (0 : Nat) ≠ SNDRV_PCM_POS_XRUN := by decide
  have hp : hw_ptr_pos s pos = hw_ptr_pos s 0 := by
    unfold hw_ptr_pos
    simp [hr]
  unfold snd_pcm_update_hw_ptr0
  rw [if_neg hx, if_neg h0, hp]

/-- C4 (witness): position 5000 on the full ring. -/
theorem C4_bad_pos_is_zero_witness :
    5000 ≥ full_ring.buffer_size ∧ 5000 ≠ SNDRV_PCM_POS_XRUN ∧
    snd_pcm_update_hw_ptr0 full_ring 5000 7 true = snd_pcm_update_hw_ptr0 full_ring 0 7 true :=
  ⟨by decide, by decide, C4_bad_pos_is_zero full_ring 5000 7 true (by decide) (by decide)⟩

/-! ### C5, C6: wrap-around of the raw position -/

/-- A signed value in the range of `unsigned long` converts to itself. -/
theorem ulong_of_nonneg (x : Int) (h0 : 0 ≤ x) (h1 : x ≤ (ULONG_MAX : Int)) :
    ulong x = x.toNat := by
  unfold ulong ULONG_MOD
  unfold ULONG_MAX at h1
  omega

/-- A base below `boundary`, both multiples of `buffer_size`, is at least one
buffer below `boundary`. -/
theorem base_add_buffer_le (base buffer boundary : Nat) (h1 : base % buffer = 0)
    (h2 : boundary % buffer = 0) (h3 : base < boundary) : base + buffer ≤ boundary := by
  obtain ⟨k, hk⟩ := Nat.dvd_of_mod_eq_zero h1
  obtain ⟨m, hm⟩ := Nat.dvd_of_mod_eq_zero h2
  subst hk hm
  have hkm : k < m := Nat.lt_of_mul_lt_mul_left h3
  calc buffer * k + buffer = buffer * (k + 1) := by rw [Nat.mul_succ]
    _ ≤ buffer * m := Nat.mul_le_mul_left _ hkm

/-- One advance of the base keeps the position not behind the old pointer. -/
theorem hw_base_advance_not_behind (s : snd_pcm_substream) (pos : Nat) (v : hw_ptr_locals)
    (h : not_behind s pos v) : not_behind s pos (hw_base_advance s v pos) := by
  obtain ⟨h1, h2, h3⟩ := h
  unfold hw_base_advance not_behind
  dsimp only
  split
  · dsimp only
    exact ⟨rfl, by omega, fun h => by omega⟩
  · dsimp only
    exact ⟨rfl, h2, fun h => by have := h3 h; omega⟩

/-- The position at `__delta` is not behind the old pointer. -/
theorem hw_ptr_at_delta_not_behind (s : snd_pcm_substream) (pos j : Nat) (in_interrupt : Bool)
    (h4 : s.hw_ptr < s.hw_ptr_base + s.buffer_size) :
    not_behind s pos (hw_ptr_at_delta s pos j in_interrupt) := by
  unfold hw_ptr_at_delta hw_base_advance not_behind
  dsimp only
  repeat' split
  all_goals dsimp only
  all_goals refine ⟨by simp, by simp, fun h => ?_⟩
  all_goals omega

/-- The `no_period_wakeup` loop keeps the position not behind the old pointer. -/
theorem no_period_wakeup_loop_not_behind (s : snd_pcm_substream) (pos : Nat) (thr : Int)
    (fuel : Nat) (hdelta : Int) (v v' : hw_ptr_locals) (h : not_behind s pos v)
    (hl : no_period_wakeup_loop s pos thr fuel hdelta v = some v') : not_behind s pos v' := by
  induction fuel generalizing hdelta v with
  | zero =>
    unfold no_period_wakeup_loop at hl
    split at hl
    · simp at hl
    · simp only [Option.some.injEq] at hl
      exact hl ▸ h
  | succ n ih =>
    unfold no_period_wakeup_loop at hl
    split at hl
    · exact ih _ _ (hw_base_advance_not_behind s pos v h) hl
    · simp only [Option.some.injEq] at hl
      exact hl ▸ h

/-- A commit of a position that is not behind the old pointer does not decrease
the cumulative frame position. -/
theorem hw_ptr_commit_monotone (s : snd_pcm_substream) (pos j : Nat) (in_interrupt : Bool)
    (v : hw_ptr_locals) (hb : s.hw_ptr < s.boundary) (h : not_behind s pos v) (r : Int)
    (s' : snd_pcm_substream) (hc : hw_ptr_commit s j in_interrupt v = some (r, s')) :
    audio_frames s ≤ audio_frames s' := by
  by_cases hq : s.hw_ptr = v.new_hw_ptr
  · rw [(hw_ptr_commit_spec s j in_interrupt v).1 hq] at hc
    simp only [Option.some.injEq, Prod.mk.injEq] at hc
    rw [← hc.2]
  · obtain ⟨r1, s1, hc1, hp, _, hw, _⟩ := hw_ptr_commit_moves s j in_interrupt v hq
    rw [hc1] at hc
    simp only [Option.some.injEq, Prod.mk.injEq] at hc
    rw [← hc.2]
    unfold audio_frames
    rw [hp, hw]
    obtain ⟨_, h2, h3⟩ := h
    split
    · omega
    · have := h3 (by omega)
      omega

/-- With the debug jiffies check off, an update never moves the cumulative frame
position `hw_ptr_wrap + hw_ptr` backwards, in either context and with or without
`no_period_wakeup`, from any state with
`hw_ptr_base <= hw_ptr < hw_ptr_base + buffer_size <= boundary`. -/
theorem update_hw_ptr0_monotone (s : snd_pcm_substream) (pos j : Nat) (in_interrupt : Bool)
    (hdbg : xrun_debug s XRUN_DEBUG_JIFFIESCHECK = 0)
    (h4 : s.hw_ptr < s.hw_ptr_base + s.buffer_size)
    (h5 : s.hw_ptr_base + s.buffer_size ≤ s.boundary) (r : Int) (s' : snd_pcm_substream)
    (hu : snd_pcm_update_hw_ptr0 s pos j in_interrupt = some (r, s')) :
    audio_frames s ≤ audio_frames s' := by
  have hb : s.hw_ptr < s.boundary := by omega
  unfold snd_pcm_update_hw_ptr0 at hu
  split at hu
  · simp only [Option.some.injEq, Prod.mk.injEq] at hu
    rw [← hu.2]
    exact Nat.le_refl _
  · have hv := hw_ptr_at_delta_not_behind s (hw_ptr_pos s pos) j in_interrupt h4
    unfold hw_ptr_from_delta at hu
    dsimp only at hu
    split at hu
    · split at hu
      · exact hw_ptr_commit_monotone s _ j in_interrupt _ hb hv r s' hu
      · split at hu
        · simp at hu
        · rename_i v1 hl
          exact hw_ptr_commit_monotone s _ j in_interrupt v1 hb
            (no_period_wakeup_loop_not_behind s _ _ _ _ _ v1 hv hl) r s' hu
    · split at hu
      · simp only [Option.some.injEq, Prod.mk.injEq] at hu
        rw [← hu.2]
      · have hj : hw_ptr_jiffies_check s j (hw_ptr_at_delta s (hw_ptr_pos s pos) j in_interrupt)
            (hw_ptr_delta s (hw_ptr_at_delta s (hw_ptr_pos s pos) j in_interrupt))
            = hw_ptr_at_delta s (hw_ptr_pos s pos) j in_interrupt := by
          unfold hw_ptr_jiffies_check
          rw [if_pos hdbg]
        rw [hj] at hu
        exact hw_ptr_commit_monotone s _ j in_interrupt _ hb hv r s' hu

/-- C6 (failing input): with the debug jiffies check enabled, `hw_ptr_base = 3072`,
`hw_ptr = 3996`, `boundary = 4096`, `rate = 8000`, the raw offset 400 read 42
jiffies after the last update in non-interrupt context.  The state satisfies
the pointer invariant; the call first wraps the base to `0` (counting one
boundary crossing), then replaces the new pointer by the old one advanced by one
period, which crosses the boundary again and takes the count back to `0`.  It
stores `hw_ptr = 156` and leaves `hw_ptr_wrap = 0`: the cumulative frame
position falls from 3996 to 156. -/
theorem C6_failing_input :
    ring_near_boundary.hw_ptr_base % ring_near_boundary.buffer_size = 0 ∧
    ring_near_boundary.hw_ptr_base ≤ ring_near_boundary.hw_ptr ∧
    ring_near_boundary.hw_ptr < ring_near_boundary.hw_ptr_base + ring_near_boundary.buffer_size ∧
    ring_near_boundary.hw_ptr_base + ring_near_boundary.buffer_size
      ≤ ring_near_boundary.boundary ∧
    audio_frames ring_near_boundary = 3996 ∧
    (snd_pcm_update_hw_ptr0 ring_near_boundary 400 42 false).map
        (fun r => (r.1, r.2.hw_ptr, r.2.hw_ptr_base, r.2.hw_ptr_wrap, audio_frames r.2))
      = some (0, 156, 0, 0, 156) := by
  decide

/-! ### C7, C8: `snd_pcm_update_state` -/

/-- The wake-up of `snd_pcm_update_state` keeps the state and makes at most one call. -/
theorem update_state_wake_frame (s : snd_pcm_substream) (avail : Nat) :
    (update_state_wake s avail).state = s.state ∧
    ((update_state_wake s avail).trace = s.trace ∨
      (update_state_wake s avail).trace = s.trace ++ [Event.wake_up_tsleep] ∨
      (update_state_wake s avail).trace = s.trace ++ [Event.wake_up_sleep]) := by
  unfold update_state_wake
  split_ifs <;> simp [record]

/-- C7 (counterexample): a running playback stream with `stop_threshold = boundary`
(4096) whose availability is `buffer_size` (1024 frames, nothing queued) is
left running by `snd_pcm_update_state`, which returns `0`. -/
theorem C7_counterexample :
    let s := { full_ring with appl_ptr := 0, stop_threshold := 4096 }
    s.state = snd_pcm_state.RUNNING ∧ update_state_avail s ≥ s.buffer_size ∧
    (snd_pcm_update_state s).1 = 0 ∧
    (snd_pcm_update_state s).2.state = snd_pcm_state.RUNNING := by
  decide

/-- C7 (amended): for a running playback or capture stream, `snd_pcm_update_state`
calls `xrun` (the stream is stopped with state `XRUN`) and returns `-EPIPE`
whenever the available frame count reaches `stop_threshold`; below
`stop_threshold` it returns `0` and leaves the stream running. -/
theorem C7_xrun_at_stop_threshold (s : snd_pcm_substream)
    (hs : s.state = snd_pcm_state.RUNNING) :
    (update_state_avail s ≥ s.stop_threshold →
      (snd_pcm_update_state s).1 = - EPIPE ∧
      (snd_pcm_update_state s).2.state = snd_pcm_state.XRUN ∧
      (snd_pcm_update_state s).2.trace = s.trace ++ [Event.stop snd_pcm_state.XRUN]) ∧
    (update_state_avail s < s.stop_threshold →
      (snd_pcm_update_state s).1 = 0 ∧
      (snd_pcm_update_state s).2.state = snd_pcm_state.RUNNING) := by
  constructor
  · intro h
    unfold snd_pcm_update_state
    by_cases hm : update_state_avail s > s.avail_max <;>
      simp [hm, hs, h, xrun, snd_pcm_stop, record]
  · intro h
    have h1 : ¬ (update_state_avail s ≥ s.stop_threshold) := by omega
    unfold snd_pcm_update_state update_state_wake
    by_cases hm : update_state_avail s > s.avail_max <;>
      simp only [hm, hs, h1, if_true, if_false, reduceCtorEq] <;>
      (repeat' split) <;> simp [record, hs]

/-- C7 (witness): the full ring after the hardware has played all of it. -/
theorem C7_xrun_at_stop_threshold_witness :
    (update_state_avail { full_ring with hw_ptr := 1024 }
        ≥ ({ full_ring with hw_ptr := 1024 } : snd_pcm_substream).stop_threshold →
      (snd_pcm_update_state { full_ring with hw_ptr := 1024 }).1 = - EPIPE ∧
      (snd_pcm_update_state { full_ring with hw_ptr := 1024 }).2.state = snd_pcm_state.XRUN ∧
      (snd_pcm_update_state { full_ring with hw_ptr := 1024 }).2.trace
        = ({ full_ring with hw_ptr := 1024 } : snd_pcm_substream).trace
          ++ [Event.stop snd_pcm_state.XRUN]) ∧
    (update_state_avail { full_ring with hw_ptr := 1024 }
        < ({ full_ring with hw_ptr := 1024 } : snd_pcm_substream).stop_threshold →
      (snd_pcm_update_state { full_ring with hw_ptr := 1024 }).1 = 0 ∧
      (snd_pcm_update_state { full_ring with hw_ptr := 1024 }).2.state
        = snd_pcm_state.RUNNING) :=
  C7_xrun_at_stop_threshold { full_ring with hw_ptr := 1024 } (by decide)

/-- C8: for a stream in `DRAINING` state and any `stop_threshold`,
`snd_pcm_update_state` never calls `xrun` and never leaves the stream in `XRUN`:
when the availability has reached `buffer_size` the only call is
`snd_pcm_drain_done`; below `buffer_size` it returns `0`, the state stays
`DRAINING` and the only possible call is one wake-up. -/
theorem C8_drain_is_not_xrun (s : snd_pcm_substream)
    (hs : s.state = snd_pcm_state.DRAINING) :
    (snd_pcm_update_state s).2.state ≠ snd_pcm_state.XRUN ∧
    (update_state_avail s ≥ s.buffer_size →
      (snd_pcm_update_state s).2.trace = s.trace ++ [Event.drain_done]) ∧
    (update_state_avail s < s.buffer_size →
      (snd_pcm_update_state s).1 = 0 ∧
      (snd_pcm_update_state s).2.state = snd_pcm_state.DRAINING ∧
      ((snd_pcm_update_state s).2.trace = s.trace ∨
        (snd_pcm_update_state s).2.trace = s.trace ++ [Event.wake_up_tsleep] ∨
        (snd_pcm_update_state s).2.trace = s.trace ++ [Event.wake_up_sleep])) := by
  unfold snd_pcm_update_state
  dsimp only
  generalize ht : (if update_state_avail s > s.avail_max then
    { s with avail_max := update_state_avail s } else s) = t
  have h1 : t.state = snd_pcm_state.DRAINING := by rw [← ht, ← hs]; split <;> rfl
  have h2 : t.trace = s.trace := by rw [← ht]; split <;> rfl
  have h3 : t.buffer_size = s.buffer_size := by rw [← ht]; split <;> rfl
  have hw := update_state_wake_frame t (update_state_avail s)
  rw [h1, h2] at hw
  rw [if_pos h1, h3]
  by_cases hb : update_state_avail s ≥ s.buffer_size
  · have hb' : ¬ (update_state_avail s < s.buffer_size) := by omega
    simp [hb, hb', snd_pcm_drain_done, record, h2]
  · have hb' : update_state_avail s < s.buffer_size := by omega
    simp only [hb, hb', if_false]
    simp [hw.1]
    simpa using hw.2

/-- C8 (witness): a draining playback stream with 1000 frames still queued and
`stop_threshold = 0`. -/
theorem C8_drain_is_not_xrun_witness :
    draining_ring.state = snd_pcm_state.DRAINING ∧
    update_state_avail draining_ring ≥ draining_ring.stop_threshold ∧
    (snd_pcm_update_state draining_ring).1 = 0 ∧
    (snd_pcm_update_state draining_ring).2.state = snd_pcm_state.DRAINING :=
  ⟨rfl, by decide,
    ((C8_drain_is_not_xrun draining_ring rfl).2.2 (by decide)).1,
    ((C8_drain_is_not_xrun draining_ring rfl).2.2 (by decide)).2.1⟩

/-! ### C9, C10: the state check on entry of a transfer -/

/-- C9 (counterexample): in state `XRUN` a write of `0` frames returns `0`, not
`-EPIPE`; and `snd_pcm_lib_read` on a stream whose access mode is not
`RW_INTERLEAVED` returns `-EINVAL`, not `-EPIPE`. -/
theorem C9_counterexample :
    snd_pcm_lib_write1 idle_env { full_ring with state := snd_pcm_state.XRUN } 0 true 1
      = some (0, { full_ring with state := snd_pcm_state.XRUN }) ∧
    snd_pcm_lib_read idle_env
      { full_ring with state := snd_pcm_state.XRUN, access := snd_pcm_access.RW_NONINTERLEAVED }
      16 1
      = some (- EINVAL,
          { full_ring with state := snd_pcm_state.XRUN,
                           access := snd_pcm_access.RW_NONINTERLEAVED }) := by
  constructor <;> rfl

/-- C9 (amended): while the stream state is `XRUN`, every call of
`snd_pcm_lib_write1` or `snd_pcm_lib_read1` with `size > 0` returns `-EPIPE` and
transfers nothing (no callback is invoked, no pointer moves, `twake` is cleared);
the wrappers `snd_pcm_lib_write`, `snd_pcm_lib_read`, `snd_pcm_lib_writev` and
`snd_pcm_lib_readv` do the same whenever `pcm_sanity_check` and their access-mode
check pass. -/
theorem C9_xrun_is_sticky (env : pcm_env) (s : snd_pcm_substream) (size : Nat)
    (nonblock : Bool) (fuel : Nat) (hs : s.state = snd_pcm_state.XRUN) (hsize : 0 < size) :
    snd_pcm_lib_write1 env s size nonblock fuel = some (- EPIPE, { s with twake := 0 }) ∧
    snd_pcm_lib_read1 env s size nonblock fuel = some (- EPIPE, { s with twake := 0 }) ∧
    (pcm_sanity_check s = 0 →
      (s.access = snd_pcm_access.RW_INTERLEAVED ∨ s.channels ≤ 1 →
        snd_pcm_lib_write env s size fuel = some (- EPIPE, { s with twake := 0 })) ∧
      (s.access = snd_pcm_access.RW_INTERLEAVED →
        snd_pcm_lib_read env s size fuel = some (- EPIPE, { s with twake := 0 })) ∧
      (s.access = snd_pcm_access.RW_NONINTERLEAVED →
        snd_pcm_lib_writev env s size fuel = some (- EPIPE, { s with twake := 0 }) ∧
        snd_pcm_lib_readv env s size fuel = some (- EPIPE, { s with twake := 0 }))) := by
  have hne : size ≠ 0 := by omega
  have hw : snd_pcm_lib_write1 env s size nonblock fuel = some (- EPIPE, { s with twake := 0 }) := by
    simp [snd_pcm_lib_write1, hne, hs, end_unlock]
  have hr : snd_pcm_lib_read1 env s size nonblock fuel = some (- EPIPE, { s with twake := 0 }) := by
    simp [snd_pcm_lib_read1, hne, hs, end_unlock]
  have hw' : snd_pcm_lib_write1 env s size s.f_flags_nonblock fuel
      = some (- EPIPE, { s with twake := 0 }) := by
    simp [snd_pcm_lib_write1, hne, hs, end_unlock]
  have hr' : snd_pcm_lib_read1 env s size s.f_flags_nonblock fuel
      = some (- EPIPE, { s with twake := 0 }) := by
    simp [snd_pcm_lib_read1, hne, hs, end_unlock]
  refine ⟨hw, hr, fun hc => ⟨fun ha => ?_, fun ha => ?_, fun ha => ⟨?_, ?_⟩⟩⟩
  · unfold snd_pcm_lib_write
    rw [if_neg (by omega), if_neg (by rcases ha with ha | ha <;> simp [ha]), hw']
  · unfold snd_pcm_lib_read
    rw [if_neg (by omega), if_neg (by simp [ha]), hr']
  · unfold snd_pcm_lib_writev
    rw [if_neg (by omega), if_neg (by simp [ha]), hw']
  · unfold snd_pcm_lib_readv
    rw [if_neg (by omega), if_neg (by simp [hs]), if_neg (by simp [ha]), hr']

/-- C9 (witness): a non-blocking write of 16 frames into the full ring once it is
in state `XRUN`. -/
theorem C9_xrun_is_sticky_witness :
    ({ full_ring with state := snd_pcm_state.XRUN } : snd_pcm_substream).state
      = snd_pcm_state.XRUN ∧ 0 < 16 ∧
    snd_pcm_lib_write1 idle_env { full_ring with state := snd_pcm_state.XRUN } 16 true 8
      = some (- EPIPE, { full_ring with state := snd_pcm_state.XRUN, twake := 0 }) :=
  ⟨rfl, by decide,
    (C9_xrun_is_sticky idle_env { full_ring with state := snd_pcm_state.XRUN } 16 true 8 rfl
      (by decide)).1⟩

/-- C10: a call with `size > 0` gets past the state check of `snd_pcm_lib_write1`
only from `PREPARED`, `RUNNING` or `PAUSED`, and past that of `snd_pcm_lib_read1`
only from `PREPARED`, `DRAINING`, `RUNNING` or `PAUSED`.  From every other state
the call returns `-ESTRPIPE` for `SUSPENDED`, `-EPIPE` for `XRUN` and `-EBADFD`
otherwise, and the substream it leaves is the one it found with `twake = 0`: no
callback or wait was invoked, and `appl_ptr`, `hw_ptr` and the state are unchanged. -/
theorem C10_invalid_state_gate (env : pcm_env) (s : snd_pcm_substream) (size : Nat)
    (nonblock : Bool) (fuel : Nat) (hsize : 0 < size) :
    (s.state ≠ snd_pcm_state.PREPARED → s.state ≠ snd_pcm_state.RUNNING →
      s.state ≠ snd_pcm_state.PAUSED →
      snd_pcm_lib_write1 env s size nonblock fuel =
        some (if s.state = snd_pcm_state.SUSPENDED then - ESTRPIPE
              else if s.state = snd_pcm_state.XRUN then - EPIPE else - EBADFD,
              { s with twake := 0 })) ∧
    (s.state ≠ snd_pcm_state.PREPARED → s.state ≠ snd_pcm_state.DRAINING →
      s.state ≠ snd_pcm_state.RUNNING → s.state ≠ snd_pcm_state.PAUSED →
      snd_pcm_lib_read1 env s size nonblock fuel =
        some (if s.state = snd_pcm_state.SUSPENDED then - ESTRPIPE
              else if s.state = snd_pcm_state.XRUN then - EPIPE else - EBADFD,
              { s with twake := 0 })) := by
  have hne : size ≠ 0 := by omega
  constructor
  · intro h1 h2 h3
    unfold snd_pcm_lib_write1
    rw [if_neg hne]
    cases hst : s.state <;> simp_all [end_unlock]
  · intro h1 h2 h3 h4
    unfold snd_pcm_lib_read1
    rw [if_neg hne]
    cases hst : s.state <;> simp_all [end_unlock]

/-- C10 (witness): a blocking write of 16 frames into a stream that is still in
state `SETUP` returns `-EBADFD` and only clears `twake`. -/
theorem C10_invalid_state_gate_witness :
    0 < 16 ∧
    snd_pcm_lib_write1 idle_env { full_ring with state := snd_pcm_state.SETUP, twake := 3 }
        16 false 8
      = some (- EBADFD, { full_ring with state := snd_pcm_state.SETUP, twake := 0 }) :=
  ⟨by decide,
    (C10_invalid_state_gate idle_env { full_ring with state := snd_pcm_state.SETUP, twake := 3 }
      16 false 8 (by decide)).1 (by decide) (by decide) (by decide)⟩

/-- The value and the substream of the common exit `_end_unlock` when the error
code is negative: the count if frames were transferred, the error otherwise, and
only `twake` is cleared. -/
theorem end_unlock_neg (s : snd_pcm_substream) (xfer : Nat) (err : Int) (h : err < 0) :
    end_unlock s xfer err = (if xfer > 0 then (xfer : Int) else err, { s with twake := 0 }) := by
  unfold end_unlock
  dsimp only
  have h1 : ¬ (xfer > 0 ∧ err ≥ 0) := by omega
  rw [if_neg h1]

/-- Past the state check, `snd_pcm_lib_write1` sets `twake`, refreshes the
position of a running stream and enters the loop with the playback availability. -/
theorem write1_enter (env : pcm_env) (s : snd_pcm_substream) (size : Nat) (nonblock : Bool)
    (fuel : Nat) (hne : size ≠ 0)
    (hst : s.state = snd_pcm_state.PREPARED ∨ s.state = snd_pcm_state.RUNNING ∨
      s.state = snd_pcm_state.PAUSED) :
    snd_pcm_lib_write1 env s size nonblock fuel =
      (transfer_update_hw_ptr env { s with twake := avail_min_or_1 s }).bind
        (fun s1 => write1_loop env nonblock fuel fuel s1 size 0 0 (snd_pcm_playback_avail s1) 0) := by
  unfold snd_pcm_lib_write1
  rw [if_neg hne]
  generalize transfer_update_hw_ptr env { s with twake := avail_min_or_1 s } = u
  split
  · cases u <;> rfl
  · cases u <;> rfl
  · cases u <;> rfl
  · exfalso; simp_all
  · exfalso; simp_all
  · exfalso; rcases hst with h | h | h <;> simp_all

/-- The body of `snd_pcm_lib_read1` as a bind over the position refresh. -/
theorem read1_body_eq (env : pcm_env) (s : snd_pcm_substream) (size : Nat) (nonblock : Bool)
    (fuel : Nat) (err : Int) :
    read1_body env s size nonblock fuel err =
      (transfer_update_hw_ptr env { s with twake := avail_min_or_1 s }).bind
        (fun s1 => read1_loop env nonblock fuel fuel s1 size 0 0 (snd_pcm_capture_avail s1) err) := by
  unfold read1_body
  cases transfer_update_hw_ptr env { s with twake := avail_min_or_1 s } <;> rfl

/-- Past the state check, `snd_pcm_lib_read1` of a stream that is `DRAINING`,
`RUNNING` or `PAUSED` runs its body with `err = 0`. -/
theorem read1_enter (env : pcm_env) (s : snd_pcm_substream) (size : Nat) (nonblock : Bool)
    (fuel : Nat) (hne : size ≠ 0)
    (hst : s.state = snd_pcm_state.DRAINING ∨ s.state = snd_pcm_state.RUNNING ∨
      s.state = snd_pcm_state.PAUSED) :
    snd_pcm_lib_read1 env s size nonblock fuel = read1_body env s size nonblock fuel 0 := by
  unfold snd_pcm_lib_read1
  rw [if_neg hne]
  split
  · exfalso; rcases hst with h | h | h <;> simp_all
  · rfl
  · rfl
  · rfl
  · exfalso; simp_all
  · exfalso; simp_all
  · exfalso; rcases hst with h | h | h <;> simp_all

/-- A stream that is not `RUNNING` enters the loop without a position refresh. -/
theorem transfer_update_hw_ptr_idle (env : pcm_env) (s : snd_pcm_substream)
    (h : s.state ≠ snd_pcm_state.RUNNING) : transfer_update_hw_ptr env s = some s := by
  unfold transfer_update_hw_ptr
  rw [if_neg h]

/-- C12: in a non-blocking call, an iteration of the transfer loop that starts
with `size > 0` and a cached available count of zero ends the call at once: with
`xfer` frames transferred so far the result is `xfer` if `xfer > 0` and `-EAGAIN`
otherwise, and the substream is the one of the iteration with `twake` cleared,
whatever the wait callbacks would do: no wait is made.  This holds for
`snd_pcm_lib_write1`, and for `snd_pcm_lib_read1` when the stream is not
`DRAINING`; in particular a call that finds no available frame on entry (a stream
that is not `RUNNING`, so that the position is not refreshed) returns `-EAGAIN`. -/
theorem C12_nonblock_would_block (env : pcm_env) (wfuel fuel : Nat) (s : snd_pcm_substream)
    (size offset xfer : Nat) (err : Int) (hsize : 0 < size) :
    write1_loop env true wfuel (fuel + 1) s size offset xfer 0 err
      = some (if xfer > 0 then (xfer : Int) else - EAGAIN, { s with twake := 0 }) ∧
    (s.state ≠ snd_pcm_state.DRAINING →
      read1_loop env true wfuel (fuel + 1) s size offset xfer 0 err
        = some (if xfer > 0 then (xfer : Int) else - EAGAIN, { s with twake := 0 })) ∧
    ((s.state = snd_pcm_state.PREPARED ∨ s.state = snd_pcm_state.PAUSED) →
      snd_pcm_playback_avail s = 0 →
      snd_pcm_lib_write1 env s size true (fuel + 1) = some (- EAGAIN, { s with twake := 0 })) ∧
    (s.state = snd_pcm_state.PAUSED → snd_pcm_capture_avail s = 0 →
      snd_pcm_lib_read1 env s size true (fuel + 1) = some (- EAGAIN, { s with twake := 0 })) := by
  have hneg : - EAGAIN < 0 := by decide
  have hw : ∀ (w : Nat) (t : snd_pcm_substream) (o x : Nat) (e : Int),
      write1_loop env true w (fuel + 1) t size o x 0 e
        = some (if x > 0 then (x : Int) else - EAGAIN, { t with twake := 0 }) := by
    intro w t o x e
    unfold write1_loop
    rw [if_pos hsize]
    dsimp only
    rw [if_pos rfl, if_pos rfl, end_unlock_neg _ _ _ hneg]
  have hr : ∀ (w : Nat) (t : snd_pcm_substream) (o x : Nat) (e : Int),
      t.state ≠ snd_pcm_state.DRAINING →
      read1_loop env true w (fuel + 1) t size o x 0 e
        = some (if x > 0 then (x : Int) else - EAGAIN, { t with twake := 0 }) := by
    intro w t o x e ht
    unfold read1_loop
    rw [if_pos hsize]
    dsimp only
    rw [if_pos rfl, if_neg ht, if_pos rfl, end_unlock_neg _ _ _ hneg]
  refine ⟨hw wfuel s offset xfer err, hr wfuel s offset xfer err, ?_, ?_⟩
  · intro hst ha
    have hnr : s.state ≠ snd_pcm_state.RUNNING := by
      rcases hst with h | h <;> rw [h] <;> decide
    rw [write1_enter env s size true (fuel + 1) (by omega) (by tauto),
      transfer_update_hw_ptr_idle env { s with twake := avail_min_or_1 s } hnr]
    show write1_loop env true (fuel + 1) (fuel + 1) _ size 0 0
      (snd_pcm_playback_avail s) 0 = _
    rw [ha, hw]
    rfl
  · intro hst ha
    have hnr : s.state ≠ snd_pcm_state.RUNNING := by rw [hst]; decide
    have hnd : s.state ≠ snd_pcm_state.DRAINING := by rw [hst]; decide
    rw [read1_enter env s size true (fuel + 1) (by omega) (by tauto), read1_body_eq,
      transfer_update_hw_ptr_idle env { s with twake := avail_min_or_1 s } hnr]
    show read1_loop env true (fuel + 1) (fuel + 1) _ size 0 0
      (snd_pcm_capture_avail s) 0 = _
    rw [ha, hr _ { s with twake := avail_min_or_1 s } _ _ _ hnd]
    rfl

/-- C12 (witness): the full ring, paused, in a non-blocking call of 16 frames of
which 5 are already transferred. -/
theorem C12_nonblock_would_block_witness :
    0 < 16 ∧
    (write1_loop idle_env true 8 (7 + 1) { full_ring with state := snd_pcm_state.PAUSED } 16 5 5 0 0
      = some (if 5 > 0 then ((5 : Nat) : Int) else - EAGAIN,
          { full_ring with state := snd_pcm_state.PAUSED, twake := 0 }) ∧
    (({ full_ring with state := snd_pcm_state.PAUSED } : snd_pcm_substream).state
        ≠ snd_pcm_state.DRAINING →
      read1_loop idle_env true 8 (7 + 1) { full_ring with state := snd_pcm_state.PAUSED } 16 5 5 0 0
        = some (if 5 > 0 then ((5 : Nat) : Int) else - EAGAIN,
            { full_ring with state := snd_pcm_state.PAUSED, twake := 0 })) ∧
    ((({ full_ring with state := snd_pcm_state.PAUSED } : snd_pcm_substream).state
          = snd_pcm_state.PREPARED ∨
        ({ full_ring with state := snd_pcm_state.PAUSED } : snd_pcm_substream).state
          = snd_pcm_state.PAUSED) →
      snd_pcm_playback_avail { full_ring with state := snd_pcm_state.PAUSED } = 0 →
      snd_pcm_lib_write1 idle_env { full_ring with state := snd_pcm_state.PAUSED } 16 true (7 + 1)
        = some (- EAGAIN, { full_ring with state := snd_pcm_state.PAUSED, twake := 0 })) ∧
    (({ full_ring with state := snd_pcm_state.PAUSED } : snd_pcm_substream).state
        = snd_pcm_state.PAUSED →
      snd_pcm_capture_avail { full_ring with state := snd_pcm_state.PAUSED } = 0 →
      snd_pcm_lib_read1 idle_env { full_ring with state := snd_pcm_state.PAUSED } 16 true (7 + 1)
        = some (- EAGAIN, { full_ring with state := snd_pcm_state.PAUSED, twake := 0 }))) :=
  ⟨by decide,
    C12_nonblock_would_block idle_env 8 7 { full_ring with state := snd_pcm_state.PAUSED }
      16 5 5 0 (by decide)⟩

/-- C17: a read of `size > 0` frames, blocking or not, from a capture stream that
is `DRAINING` and has no frame available returns `0`; the substream it leaves
differs from the one it found only by `twake = 0`, the state `SETUP` and the stop
logged in the trace: no wait and no transfer took place and `appl_ptr` is the
same. -/
theorem C17_draining_capture_end (env : pcm_env) (s : snd_pcm_substream) (size : Nat)
    (nonblock : Bool) (fuel : Nat) (_hc : s.stream = snd_pcm_stream.CAPTURE)
    (hs : s.state = snd_pcm_state.DRAINING) (ha : snd_pcm_capture_avail s = 0)
    (hsize : 0 < size) :
    snd_pcm_lib_read1 env s size nonblock (fuel + 1)
      = some (0, { s with twake := 0, state := snd_pcm_state.SETUP,
                          trace := s.trace ++ [Event.stop snd_pcm_state.SETUP] }) := by
  have hnr : s.state ≠ snd_pcm_state.RUNNING := by rw [hs]; decide
  rw [read1_enter env s size nonblock (fuel + 1) (by omega) (by tauto), read1_body_eq,
    transfer_update_hw_ptr_idle env { s with twake := avail_min_or_1 s } hnr]
  show read1_loop env nonblock (fuel + 1) (fuel + 1) { s with twake := avail_min_or_1 s } size 0 0
    (snd_pcm_capture_avail s) 0 = _
  rw [ha]
  unfold read1_loop
  rw [if_pos hsize]
  dsimp only
  rw [if_pos rfl, if_pos hs]
  rfl

/-- C17 (witness): a blocking read of 10 frames from a draining capture stream
whose two pointers are equal. -/
theorem C17_draining_capture_end_witness :
    snd_pcm_lib_read1 idle_env
        { full_ring with stream := snd_pcm_stream.CAPTURE, state := snd_pcm_state.DRAINING,
                         appl_ptr := 0 } 10 false (0 + 1)
      = some (0, { full_ring with stream := snd_pcm_stream.CAPTURE, appl_ptr := 0, twake := 0,
                                  state := snd_pcm_state.SETUP,
                                  trace := [Event.stop snd_pcm_state.SETUP] }) :=
  C17_draining_capture_end idle_env
    { full_ring with stream := snd_pcm_stream.CAPTURE, state := snd_pcm_state.DRAINING,
                     appl_ptr := 0 } 10 false 0 rfl rfl (by decide) (by decide)

/-! ### C16: the double wrap-around detected in interrupt context -/

/-- The result of `snd_interval_refine_first` on an interval that is neither
flagged empty nor single-valued. -/
theorem snd_interval_refine_first_multi (i : snd_interval) (he : i.empty = false)
    (hs : snd_interval_single i = false) :
    snd_interval_refine_first i =
      (1, { i with max := if i.openmin = true then (i.min + 1) % UINT_MOD else i.min,
                   openmax := i.openmin }) := by
  unfold snd_interval_refine_first snd_interval_empty
  rw [if_neg (by simp [he]), if_neg (by simp [hs])]
  cases h : i.openmin <;> simp

/-- The result of `snd_interval_refine_last` on an interval that is neither
flagged empty nor single-valued. -/
theorem snd_interval_refine_last_multi (i : snd_interval) (he : i.empty = false)
    (hs : snd_interval_single i = false) :
    snd_interval_refine_last i =
      (1, { i with min := if i.openmax = true then (i.max + UINT_MOD - 1) % UINT_MOD else i.max,
                   openmin := i.openmax }) := by
  unfold snd_interval_refine_last snd_interval_empty
  rw [if_neg (by simp [he]), if_neg (by simp [hs])]
  cases h : i.openmax <;> simp

/-- An interval that is not single-valued has different bounds, and they are not
one apart with an open upper bound. -/
theorem snd_interval_not_single (i : snd_interval) (hs : snd_interval_single i = false) :
    i.min ≠ i.max ∧ ((i.min + 1) % UINT_MOD = i.max → i.openmax = false) := by
  unfold snd_interval_single at hs
  simp only [decide_eq_false_iff_not, not_or, not_and] at hs
  exact ⟨hs.1, fun h => by simpa using hs.2 h⟩

/-- An `unsigned int` below `2 ^ 31` converts to itself. -/
theorem int_of_uint_small (n : Nat) (h : n < 2147483648) : int_of_uint n = (n : Int) := by
  unfold int_of_uint UINT_MOD
  have h1 : n % 4294967296 = n := Nat.mod_eq_of_lt (by omega)
  rw [h1, if_pos h]

/-- The `unsigned int` values that convert to `-EINVAL` are those equal to
`4294967274` modulo `2 ^ 32`. -/
theorem int_of_uint_einval (n : Nat) :
    int_of_uint n = - EINVAL ↔ n % UINT_MOD = 4294967274 := by
  unfold int_of_uint UINT_MOD EINVAL
  split <;> omega

/-- C18 (counterexample): the interval `(8000, 48000]`, open at its lower bound,
is neither empty nor single-valued; `snd_interval_refine_first` returns `1` and
leaves `(8000, 8001)`, which `snd_interval_single` accepts, and
`snd_pcm_hw_param_value` reads back `8000` with `*dir = 1`.  The smallest integer
contained in the original interval is `8001`; `8000` is not contained in it.
The interval `[0, 4294967295]` refines-last to the single value `4294967295`,
its largest integer, which `snd_pcm_hw_param_value`, returning `int`, reads back
as `-1`. -/
theorem C18_counterexample :
    let i : snd_interval :=
      { min := 8000, max := 48000, openmin := true, openmax := false, integer := false,
        empty := false }
    let params : snd_pcm_hw_params :=
      { masks := fun _ => { bits := 0 }, intervals := fun _ => (snd_interval_refine_first i).2,
        rmask := 0, cmask := 0 }
    snd_interval_empty i = false ∧ snd_interval_single i = false ∧
    snd_interval_refine_first i
      = (1, { min := 8000, max := 8001, openmin := true, openmax := true, integer := false,
              empty := false }) ∧
    snd_interval_single (snd_interval_refine_first i).2 = true ∧
    snd_pcm_hw_param_value params SNDRV_PCM_HW_PARAM_RATE (some 0) = (8000, some 1) ∧
    ¬ snd_interval_admits i 8000 ∧ snd_interval_admits i 8001 ∧
    (let j : snd_interval :=
      { min := 0, max := 4294967295, openmin := false, openmax := false, integer := false,
        empty := false }
    let params_j : snd_pcm_hw_params :=
      { masks := fun _ => { bits := 0 }, intervals := fun _ => (snd_interval_refine_last j).2,
        rmask := 0, cmask := 0 }
    snd_interval_empty j = false ∧ snd_interval_single j = false ∧
    snd_interval_refine_last j
      = (1, { min := 4294967295, max := 4294967295, openmin := false, openmax := false,
              integer := false, empty := false }) ∧
    snd_pcm_hw_param_value params_j SNDRV_PCM_HW_PARAM_RATE (some 0) = (-1, some 0) ∧
    snd_interval_admits j 4294967295) := by
  decide

/-- C18 (amended): for every interval whose flag `empty` is clear: if it is
single-valued, `snd_interval_refine_first` and `snd_interval_refine_last` return
`0` and change nothing.  If it is not single-valued and its bounds are in order
(`min <= max < 2^32`), both return `1` and leave a single-valued interval
(`snd_interval_single` holds).  After refine-first `snd_pcm_hw_param_value` reads
back the lower bound `min` converted to `int`, which is `min` itself when
`min < 2^31`, with `*dir = openmin`: with a closed lower bound `min` is the
smallest integer contained in the original interval; with an open lower bound
`min` is not contained in it and the smallest integer contained is `min + 1`.
After refine-last it reads back, converted to `int` (and unchanged when below
`2^31`), `max` for a closed upper bound and `max - 1` for an open one, with
`*dir = openmax`, and this is the largest integer contained in the original
interval. -/
theorem C18_refine_first_last (i : snd_interval) (params : snd_pcm_hw_params) (var : Nat)
    (dir : Option Int) (he : i.empty = false) (hvar : hw_is_interval var = true) :
    (snd_interval_single i = true →
      snd_interval_refine_first i = (0, i) ∧ snd_interval_refine_last i = (0, i)) ∧
    (snd_interval_single i = false → i.min ≤ i.max → i.max < UINT_MOD →
      ((snd_interval_refine_first i).1 = 1 ∧
        snd_interval_single (snd_interval_refine_first i).2 = true ∧
        (hw_param_interval_c params var = (snd_interval_refine_first i).2 →
          snd_pcm_hw_param_value params var dir
            = (int_of_uint i.min, dir.map (fun _ => if i.openmin = true then 1 else 0)) ∧
          (i.min < 2147483648 →
            snd_pcm_hw_param_value params var dir
              = ((i.min : Int), dir.map (fun _ => if i.openmin = true then 1 else 0)))) ∧
        (i.openmin = false →
          snd_interval_admits i i.min ∧ ∀ n, snd_interval_admits i n → i.min ≤ n) ∧
        (i.openmin = true →
          ¬ snd_interval_admits i i.min ∧ snd_interval_admits i (i.min + 1) ∧
          ∀ n, snd_interval_admits i n → i.min + 1 ≤ n)) ∧
      ((snd_interval_refine_last i).1 = 1 ∧
        snd_interval_single (snd_interval_refine_last i).2 = true ∧
        (hw_param_interval_c params var = (snd_interval_refine_last i).2 →
          snd_pcm_hw_param_value params var dir
            = (int_of_uint (if i.openmax = true then i.max - 1 else i.max),
               dir.map (fun _ => if i.openmax = true then 1 else 0)) ∧
          ((if i.openmax = true then i.max - 1 else i.max) < 2147483648 →
            snd_pcm_hw_param_value params var dir
              = (((if i.openmax = true then i.max - 1 else i.max : Nat) : Int),
                 dir.map (fun _ => if i.openmax = true then 1 else 0)))) ∧
        snd_interval_admits i (if i.openmax = true then i.max - 1 else i.max) ∧
        ∀ n, snd_interval_admits i n → n ≤ (if i.openmax = true then i.max - 1 else i.max))) := by
  have hm : hw_is_mask var = false := by
    unfold hw_is_interval SNDRV_PCM_HW_PARAM_FIRST_INTERVAL at hvar
    unfold hw_is_mask SNDRV_PCM_HW_PARAM_LAST_MASK
    simp only [decide_eq_true_eq] at hvar
    simp only [decide_eq_false_iff_not]
    omega
  constructor
  · intro hs
    constructor
    · unfold snd_interval_refine_first snd_interval_empty
      rw [if_neg (by simp [he]), if_pos hs]
    · unfold snd_interval_refine_last snd_interval_empty
      rw [if_neg (by simp [he]), if_pos hs]
  · intro hs hle hmax
    obtain ⟨hne, hop⟩ := snd_interval_not_single i hs
    have hlt : i.min < i.max := by omega
    unfold UINT_MOD at hmax hop
    rw [snd_interval_refine_first_multi i he hs, snd_interval_refine_last_multi i he hs]
    refine ⟨⟨rfl, ?_, ?_, ?_, ?_⟩, ⟨rfl, ?_, ?_, ?_, ?_⟩⟩
    · unfold snd_interval_single UINT_MOD
      cases h : i.openmin <;> simp
    · intro hp
      unfold snd_pcm_hw_param_value
      rw [if_neg (by simp [hm]), if_pos hvar]
      dsimp only
      rw [hp]
      have h1 : snd_interval_single
          { i with max := if i.openmin = true then (i.min + 1) % UINT_MOD else i.min,
                   openmax := i.openmin } = true := by
        unfold snd_interval_single UINT_MOD
        cases h : i.openmin <;> simp
      rw [if_neg (by simp [h1])]
      have hv : snd_interval_value
          { i with max := if i.openmin = true then (i.min + 1) % UINT_MOD else i.min,
                   openmax := i.openmin } = i.min := rfl
      rw [hv]
      exact ⟨rfl, fun hsmall => by rw [int_of_uint_small _ hsmall]⟩
    · intro ho
      unfold snd_interval_admits
      refine ⟨⟨he, Or.inr ⟨rfl, ho⟩, Or.inl hlt⟩, fun n hn => ?_⟩
      rcases hn.2.1 with h | h <;> omega
    · intro ho
      unfold snd_interval_admits
      refine ⟨?_, ⟨he, Or.inl (by omega), ?_⟩, fun n hn => ?_⟩
      · intro hn
        rcases hn.2.1 with h | h
        · omega
        · rw [ho] at h
          exact absurd h.2 (by decide)
      · by_cases h : i.min + 1 < i.max
        · exact Or.inl h
        · exact Or.inr ⟨by omega, hop (by omega)⟩
      · rcases hn.2.1 with h | h
        · omega
        · rw [ho] at h
          exact absurd h.2 (by decide)
    · unfold snd_interval_single UINT_MOD
      rw [decide_eq_true_eq]
      dsimp only
      cases h : i.openmax
      · left
        rfl
      · right
        refine ⟨?_, rfl⟩
        rw [if_pos rfl]
        omega
    · intro hp
      unfold snd_pcm_hw_param_value
      rw [if_neg (by simp [hm]), if_pos hvar]
      dsimp only
      rw [hp]
      have h1 : snd_interval_single
          { i with min := if i.openmax = true then (i.max + UINT_MOD - 1) % UINT_MOD else i.max,
                   openmin := i.openmax } = true := by
        unfold snd_interval_single UINT_MOD
        rw [decide_eq_true_eq]
        dsimp only
        cases h : i.openmax
        · left
          rfl
        · right
          refine ⟨?_, rfl⟩
          rw [if_pos rfl]
          omega
      rw [if_neg (by simp [h1])]
      have hv : snd_interval_value
          { i with min := if i.openmax = true then (i.max + UINT_MOD - 1) % UINT_MOD else i.max,
                   openmin := i.openmax }
          = (if i.openmax = true then i.max - 1 else i.max) := by
        unfold snd_interval_value UINT_MOD
        dsimp only
        cases h : i.openmax
        · simp only [Bool.false_eq_true, if_false]
        · rw [if_pos rfl, if_pos rfl]
          omega
      rw [hv]
      exact ⟨rfl, fun hsmall => by rw [int_of_uint_small _ hsmall]⟩
    · unfold snd_interval_admits
      cases h : i.openmax
      · exact ⟨he, Or.inl hlt, Or.inr ⟨rfl, rfl⟩⟩
      · refine ⟨he, ?_, Or.inl (by simp only [if_true]; omega)⟩
        simp only [if_true]
        by_cases h2 : i.min < i.max - 1
        · exact Or.inl h2
        · exact absurd (hop (by omega)) (by rw [h]; decide)
    · intro n hn
      unfold snd_interval_admits at hn
      cases h : i.openmax
      · rcases hn.2.2 with h2 | h2
        · simp only [Bool.false_eq_true, if_false]; omega
        · simp only [Bool.false_eq_true, if_false]; omega
      · rcases hn.2.2 with h2 | h2
        · simp only [if_true]; omega
        · rw [h] at h2
          exact absurd h2.2 (by decide)

/-- C18 (witness, Scenario 3): the rate interval `[44100, 48000]` refines-first to
the scalar `44100`, and refines-last to `48000`. -/
theorem C18_refine_first_last_witness :
    let i : snd_interval :=
      { min := 44100, max := 48000, openmin := false, openmax := false, integer := true,
        empty := false }
    let params : snd_pcm_hw_params :=
      { masks := fun _ => { bits := 0 }, intervals := fun _ => (snd_interval_refine_first i).2,
        rmask := 0, cmask := 0 }
    (snd_interval_refine_first i).1 = 1 ∧
    snd_interval_single (snd_interval_refine_first i).2 = true ∧
    snd_pcm_hw_param_value params SNDRV_PCM_HW_PARAM_RATE (some 0) = (44100, some 0) ∧
    snd_interval_admits i 44100 ∧ ∀ n, snd_interval_admits i n → 44100 ≤ n := by
  intro i params
  have h := (C18_refine_first_last i params SNDRV_PCM_HW_PARAM_RATE (some 0) rfl
    (by decide)).2 (by decide) (by decide) (by decide)
  exact ⟨h.1.1, h.1.2.1, (h.1.2.2.1 rfl).2 (by decide), (h.1.2.2.2.1 rfl).1,
    (h.1.2.2.2.1 rfl).2⟩

/-- C19 (counterexample): the interval `(5, 10]` admits the integers `6..10`;
`snd_interval_refine_first` returns `1` and leaves `(5, 6)`, open at both ends,
which admits no integer: the set of integers admitted by the result is empty.
The interval `(5, 6)` itself, whose flag `empty` is clear, admits no integer,
and the operation returns `0` on it, not `-EINVAL`. -/
theorem C19_counterexample :
    let i : snd_interval :=
      { min := 5, max := 10, openmin := true, openmax := false, integer := false,
        empty := false }
    let j : snd_interval :=
      { min := 5, max := 6, openmin := true, openmax := true, integer := false,
        empty := false }
    snd_interval_admits i 6 ∧ snd_interval_refine_first i = (1, j) ∧
    (∀ n, ¬ snd_interval_admits j n) ∧ snd_interval_refine_first j = (0, j) := by
  refine ⟨by decide, by decide, ?_, by decide⟩
  intro n hn
  unfold snd_interval_admits at hn
  rcases hn.2.1 with h | h
  · rcases hn.2.2 with h2 | h2
    · change 5 < n at h
      change n < 6 at h2
      omega
    · exact absurd h2.2 (by decide)
  · exact absurd h.2 (by decide)

/-- C19 (amended): `snd_interval_refine_first` and `snd_interval_refine_last`
return `-EINVAL`, leaving the interval as it is, exactly when its flag `empty`
is set; otherwise they return a non-negative value.  For an interval whose flag
is clear and whose bounds are in order (`min <= max`) the integers admitted by
the result are admitted by the input (`max` being an `unsigned int`, below
`2^32`).  When the return value is `1`, the result of refine-first admits an
integer if and only if the lower bound was closed, and the result of refine-last
if and only if the upper bound was closed: an open bound leaves an interval `(min, min + 1)` or `(max - 1, max)`,
open at both ends, that contains no integer. -/
theorem C19_refine_narrows (i : snd_interval) :
    (i.empty = true →
      snd_interval_refine_first i = (- EINVAL, i) ∧ snd_interval_refine_last i = (- EINVAL, i)) ∧
    (i.empty = false →
      0 ≤ (snd_interval_refine_first i).1 ∧ 0 ≤ (snd_interval_refine_last i).1 ∧
      (i.min ≤ i.max → i.max < UINT_MOD →
        (∀ n, snd_interval_admits (snd_interval_refine_first i).2 n → snd_interval_admits i n) ∧
        (∀ n, snd_interval_admits (snd_interval_refine_last i).2 n → snd_interval_admits i n)) ∧
      ((snd_interval_refine_first i).1 = 1 →
        ((∃ n, snd_interval_admits (snd_interval_refine_first i).2 n) ↔ i.openmin = false)) ∧
      ((snd_interval_refine_last i).1 = 1 → i.max < UINT_MOD →
        ((∃ n, snd_interval_admits (snd_interval_refine_last i).2 n) ↔ i.openmax = false))) := by
  constructor
  · intro he
    constructor
    · unfold snd_interval_refine_first snd_interval_empty
      rw [if_pos he]
    · unfold snd_interval_refine_last snd_interval_empty
      rw [if_pos he]
  · intro he
    cases hs : snd_interval_single i
    · obtain ⟨hne, hop⟩ := snd_interval_not_single i hs
      unfold UINT_MOD at hop
      rw [snd_interval_refine_first_multi i he hs, snd_interval_refine_last_multi i he hs]
      unfold UINT_MOD
      refine ⟨by show (0 : Int) ≤ 1; decide, by show (0 : Int) ≤ 1; decide,
        fun hle hmax => ⟨fun n hn => ?_, fun n hn => ?_⟩,
        fun _ => ⟨fun hn => ?_, fun ho => ?_⟩, fun _ hmax => ⟨fun hn => ?_, fun ho => ?_⟩⟩
      · unfold snd_interval_admits at hn ⊢
        dsimp only at hn
        obtain ⟨_, hlo, hhi⟩ := hn
        refine ⟨he, hlo, ?_⟩
        cases ho : i.openmin
        · rw [ho] at hhi
          rw [if_neg (by decide)] at hhi
          rcases hhi with h | h
          · exact Or.inl (by omega)
          · exact Or.inl (by omega)
        · rw [ho] at hhi hlo
          rw [if_pos rfl] at hhi
          rcases hhi with h | h
          · rcases hlo with h2 | h2
            · exfalso
              omega
            · exact absurd h2.2 (by decide)
          · exact absurd h.2 (by decide)
      · unfold snd_interval_admits at hn ⊢
        dsimp only at hn
        obtain ⟨_, hlo, hhi⟩ := hn
        refine ⟨he, ?_, hhi⟩
        cases ho : i.openmax
        · rw [ho] at hlo
          rw [if_neg (by decide)] at hlo
          rcases hlo with h | h
          · exact Or.inl (by omega)
          · exact Or.inl (by omega)
        · rw [ho] at hhi hlo
          rw [if_pos rfl] at hlo
          rcases hhi with h | h
          · rcases hlo with h2 | h2
            · exfalso
              omega
            · exact absurd h2.2 (by decide)
          · exact absurd h.2 (by decide)
      · obtain ⟨n, hn⟩ := hn
        unfold snd_interval_admits at hn
        dsimp only at hn
        obtain ⟨_, hlo, hhi⟩ := hn
        cases ho : i.openmin
        · rfl
        · exfalso
          rw [ho] at hhi hlo
          rw [if_pos rfl] at hhi
          rcases hhi with h | h
          · rcases hlo with h2 | h2
            · omega
            · exact absurd h2.2 (by decide)
          · exact absurd h.2 (by decide)
      · refine ⟨i.min, ?_⟩
        unfold snd_interval_admits
        dsimp only
        rw [ho]
        exact ⟨he, Or.inr ⟨rfl, rfl⟩, Or.inr ⟨by rw [if_neg (by decide)], rfl⟩⟩
      · obtain ⟨n, hn⟩ := hn
        unfold snd_interval_admits at hn
        dsimp only at hn
        obtain ⟨_, hlo, hhi⟩ := hn
        unfold UINT_MOD at hmax
        cases ho : i.openmax
        · rfl
        · exfalso
          rw [ho] at hhi hlo
          rw [if_pos rfl] at hlo
          rcases hhi with h | h
          · rcases hlo with h2 | h2
            · omega
            · exact absurd h2.2 (by decide)
          · exact absurd h.2 (by decide)
      · refine ⟨i.max, ?_⟩
        unfold snd_interval_admits
        dsimp only
        rw [ho]
        exact ⟨he, Or.inr ⟨by rw [if_neg (by decide)], rfl⟩, Or.inr ⟨rfl, rfl⟩⟩
    · have h1 : snd_interval_refine_first i = (0, i) := by
        unfold snd_interval_refine_first snd_interval_empty
        rw [if_neg (by simp [he]), if_pos hs]
      have h2 : snd_interval_refine_last i = (0, i) := by
        unfold snd_interval_refine_last snd_interval_empty
        rw [if_neg (by simp [he]), if_pos hs]
      rw [h1, h2]
      refine ⟨by show (0 : Int) ≤ 0; decide, by show (0 : Int) ≤ 0; decide,
        fun _ _ => ⟨fun n hn => hn, fun n hn => hn⟩,
        fun h => absurd h (by show ¬ ((0 : Int) = 1); decide),
        fun h => absurd h (by show ¬ ((0 : Int) = 1); decide)⟩

/-- C19 (witness): the closed interval `[5, 10]` refines-first to a non-empty
set of integers contained in it. -/
theorem C19_refine_narrows_witness :
    let i : snd_interval :=
      { min := 5, max := 10, openmin := false, openmax := false, integer := true,
        empty := false }
    0 ≤ (snd_interval_refine_first i).1 ∧
    (∀ n, snd_interval_admits (snd_interval_refine_first i).2 n → snd_interval_admits i n) ∧
    (∃ n, snd_interval_admits (snd_interval_refine_first i).2 n) := by
  intro i
  have h := (C19_refine_narrows i).2 rfl
  exact ⟨h.1, (h.2.2.1 (by decide) (by decide)).1, (h.2.2.2.1 (by decide)).2 rfl⟩

/-- The value read from a mask is one of the values a mask ranges over. -/
theorem snd_mask_value_lt (m : snd_mask) : snd_mask_value m < SNDRV_MASK_MAX := by
  unfold snd_mask_value
  have hall : ∀ x ∈ snd_mask_values m, x < SNDRV_MASK_MAX := by
    intro x hx
    unfold snd_mask_values at hx
    exact List.mem_range.mp (List.mem_filter.mp hx).1
  generalize snd_mask_values m = l at hall
  cases l with
  | nil => decide
  | cons x l => exact hall x (List.mem_cons_self x l)

/-- A mask parameter is not an interval parameter. -/
theorem hw_is_interval_not_mask (var : Nat) (h : hw_is_interval var = true) :
    hw_is_mask var = false := by
  unfold hw_is_interval SNDRV_PCM_HW_PARAM_FIRST_INTERVAL at h
  unfold hw_is_mask SNDRV_PCM_HW_PARAM_LAST_MASK
  simp only [decide_eq_true_eq] at h
  simp only [decide_eq_false_iff_not]
  omega

/-- C20 (counterexample): the rate interval `[4294967274, 4294967274]` is
single-valued and its value is `4294967274`; `snd_pcm_hw_param_value`, which
returns `int`, returns `(int)4294967274 = -22 = -EINVAL` for it, after storing
`0` in `*dir`. -/
theorem C20_counterexample :
    let i : snd_interval :=
      { min := 4294967274, max := 4294967274, openmin := false, openmax := false,
        integer := true, empty := false }
    let params : snd_pcm_hw_params :=
      { masks := fun _ => { bits := 0 }, intervals := fun _ => i, rmask := 0, cmask := 0 }
    hw_is_interval SNDRV_PCM_HW_PARAM_RATE = true ∧
    snd_interval_single (hw_param_interval_c params SNDRV_PCM_HW_PARAM_RATE) = true ∧
    snd_interval_value (hw_param_interval_c params SNDRV_PCM_HW_PARAM_RATE) = 4294967274 ∧
    snd_pcm_hw_param_value params SNDRV_PCM_HW_PARAM_RATE (some 5) = (- EINVAL, some 0) := by
  decide

/-- C20 (amended): `snd_pcm_hw_param_value` returns `-EINVAL` and leaves `*dir` as
it was when `var` is neither a mask parameter whose mask is single-valued nor an
interval parameter whose interval is single-valued.  For a mask parameter with a
single-valued mask it returns the value of the mask, which is not `-EINVAL`, and
stores `0` in `*dir` when `dir` is not `NULL`.  For an interval parameter with a
single-valued interval it returns the value of the interval converted to `int`
and stores the flag `openmin` in `*dir` when `dir` is not `NULL`; the value
returned is the value of the interval itself when that is below `2^31`, and it is
`-EINVAL` exactly for the value `4294967274`.  Hence the function returns
`-EINVAL` if and only if `var` has no single value or is an interval parameter
fixed to `4294967274`.  The function only reads `params`: it is an argument of
the call and no part of its result. -/
theorem C20_hw_param_value (params : snd_pcm_hw_params) (var : Nat) (dir : Option Int) :
    (¬ (hw_is_mask var = true ∧ snd_mask_single (hw_param_mask_c params var) = true) →
      ¬ (hw_is_interval var = true ∧
          snd_interval_single (hw_param_interval_c params var) = true) →
      snd_pcm_hw_param_value params var dir = (- EINVAL, dir)) ∧
    (hw_is_mask var = true → snd_mask_single (hw_param_mask_c params var) = true →
      snd_pcm_hw_param_value params var dir
        = ((snd_mask_value (hw_param_mask_c params var) : Int), dir.map (fun _ => 0)) ∧
      (snd_pcm_hw_param_value params var dir).1 ≠ - EINVAL) ∧
    (hw_is_interval var = true → snd_interval_single (hw_param_interval_c params var) = true →
      snd_pcm_hw_param_value params var dir
        = (int_of_uint (snd_interval_value (hw_param_interval_c params var)),
           dir.map (fun _ => if (hw_param_interval_c params var).openmin = true then 1 else 0)) ∧
      (snd_interval_value (hw_param_interval_c params var) < 2147483648 →
        (snd_pcm_hw_param_value params var dir).1
          = (snd_interval_value (hw_param_interval_c params var) : Int)) ∧
      ((snd_pcm_hw_param_value params var dir).1 = - EINVAL ↔
        snd_interval_value (hw_param_interval_c params var) % UINT_MOD = 4294967274)) ∧
    ((snd_pcm_hw_param_value params var dir).1 = - EINVAL ↔
      (¬ (hw_is_mask var = true ∧ snd_mask_single (hw_param_mask_c params var) = true) ∧
        ¬ (hw_is_interval var = true ∧
          snd_interval_single (hw_param_interval_c params var) = true)) ∨
      (hw_is_interval var = true ∧
        snd_interval_single (hw_param_interval_c params var) = true ∧
        snd_interval_value (hw_param_interval_c params var) % UINT_MOD = 4294967274)) := by
  have hnone : ¬ (hw_is_mask var = true ∧ snd_mask_single (hw_param_mask_c params var) = true) →
      ¬ (hw_is_interval var = true ∧
          snd_interval_single (hw_param_interval_c params var) = true) →
      snd_pcm_hw_param_value params var dir = (- EINVAL, dir) := by
    intro h1 h2
    unfold snd_pcm_hw_param_value
    by_cases hm : hw_is_mask var = true
    · rw [if_pos hm]
      dsimp only
      have hs : snd_mask_single (hw_param_mask_c params var) = false := by
        cases h : snd_mask_single (hw_param_mask_c params var)
        · rfl
        · exact absurd ⟨hm, h⟩ h1
      rw [if_pos hs]
    · rw [if_neg hm]
      by_cases hi : hw_is_interval var = true
      · rw [if_pos hi]
        dsimp only
        have hs : snd_interval_single (hw_param_interval_c params var) = false := by
          cases h : snd_interval_single (hw_param_interval_c params var)
          · rfl
          · exact absurd ⟨hi, h⟩ h2
        rw [if_pos hs]
      · rw [if_neg hi]
  have hmask : hw_is_mask var = true → snd_mask_single (hw_param_mask_c params var) = true →
      snd_pcm_hw_param_value params var dir
        = ((snd_mask_value (hw_param_mask_c params var) : Int), dir.map (fun _ => 0)) ∧
      (snd_pcm_hw_param_value params var dir).1 ≠ - EINVAL := by
    intro hm hs
    have hv : snd_pcm_hw_param_value params var dir
        = ((snd_mask_value (hw_param_mask_c params var) : Int), dir.map (fun _ => 0)) := by
      unfold snd_pcm_hw_param_value
      rw [if_pos hm]
      dsimp only
      rw [if_neg (by rw [hs]; decide)]
      have hlt := snd_mask_value_lt (hw_param_mask_c params var)
      unfold SNDRV_MASK_MAX at hlt
      rw [int_of_uint_small _ (by omega)]
    rw [hv]
    refine ⟨rfl, ?_⟩
    show ((snd_mask_value (hw_param_mask_c params var) : Nat) : Int) ≠ - EINVAL
    unfold EINVAL
    omega
  have hint : hw_is_interval var = true →
      snd_interval_single (hw_param_interval_c params var) = true →
      snd_pcm_hw_param_value params var dir
        = (int_of_uint (snd_interval_value (hw_param_interval_c params var)),
           dir.map (fun _ => if (hw_param_interval_c params var).openmin = true then 1
             else 0)) := by
    intro hi hs
    unfold snd_pcm_hw_param_value
    rw [if_neg (by rw [hw_is_interval_not_mask var hi]; decide), if_pos hi]
    dsimp only
    rw [if_neg (by rw [hs]; decide)]
  refine ⟨hnone, hmask, fun hi hs => ?_, ?_⟩
  · rw [hint hi hs]
    exact ⟨rfl, fun hsmall => int_of_uint_small _ hsmall, int_of_uint_einval _⟩
  · by_cases h1 : hw_is_mask var = true ∧ snd_mask_single (hw_param_mask_c params var) = true
    · have hi : hw_is_interval var = false := by
        cases h : hw_is_interval var
        · rfl
        · rw [hw_is_interval_not_mask var h] at h1
          exact absurd h1.1 (by decide)
      constructor
      · intro h
        exact absurd h (hmask h1.1 h1.2).2
      · intro h
        rcases h with h | h
        · exact absurd h1 h.1
        · rw [hi] at h
          exact absurd h.1 (by decide)
    · by_cases h2 : hw_is_interval var = true ∧
          snd_interval_single (hw_param_interval_c params var) = true
      · rw [hint h2.1 h2.2]
        constructor
        · intro h
          exact Or.inr ⟨h2.1, h2.2, (int_of_uint_einval _).mp h⟩
        · intro h
          rcases h with h | h
          · exact absurd h2 h.2
          · exact (int_of_uint_einval _).mpr h.2.2
      · rw [hnone h1 h2]
        exact ⟨fun _ => Or.inl ⟨h1, h2⟩, fun _ => rfl⟩

/-- C20 (witness): a rate fixed to 48000 is read back as 48000, with `*dir = 0`. -/
theorem C20_hw_param_value_witness :
    let i : snd_interval :=
      { min := 48000, max := 48000, openmin := false, openmax := false, integer := true,
        empty := false }
    let params : snd_pcm_hw_params :=
      { masks := fun _ => { bits := 0 }, intervals := fun _ => i, rmask := 0, cmask := 0 }
    snd_pcm_hw_param_value params SNDRV_PCM_HW_PARAM_RATE (some 5) = (48000, some 0) ∧
    (snd_pcm_hw_param_value params SNDRV_PCM_HW_PARAM_RATE (some 5)).1 ≠ - EINVAL := by
  intro i params
  have h := (C20_hw_param_value params SNDRV_PCM_HW_PARAM_RATE (some 5)).2.2.1 (by decide)
    (by decide)
  exact ⟨h.1, fun he => absurd (h.2.2.mp he) (by decide)⟩

/-! ### The transfer loops: chunks, exits and what the callbacks leave alone -/

/-- The chunk length is at most the request, at most the cached available count,
and the chunk ends at or before the end of the ring once it is not empty. -/
theorem chunk_frames_le (s : snd_pcm_substream) (size avail : Nat) :
    chunk_frames s size avail ≤ size ∧ chunk_frames s size avail ≤ avail ∧
    (chunk_frames s size avail ≠ 0 →
      s.appl_ptr % s.buffer_size + chunk_frames s size avail ≤ s.buffer_size) := by
  unfold chunk_frames
  dsimp only
  split <;> split <;> omega

/-- The chunk is not empty when frames are requested and available and the ring
has a size. -/
theorem chunk_frames_pos (s : snd_pcm_substream) (size avail : Nat) (h1 : 0 < size)
    (h2 : 0 < avail) (h3 : 0 < s.buffer_size) : 0 < chunk_frames s size avail := by
  have h := Nat.mod_lt s.appl_ptr h3
  unfold chunk_frames
  dsimp only
  split <;> split <;> omega

/-- One chunk of the transfer loops: the empty chunk takes the `snd_BUG_ON`
branch; otherwise the copy callback is invoked once, at the ring offset of
`appl_ptr`, with the current `offset` and the chunk length, and either the call
ends through `_end_unlock` with the frames counted so far (the copy failed, or
the stream was found in `XRUN` or `SUSPENDED` after it), or the chunk is
committed and counted. -/
theorem transfer_chunk_cases (env : pcm_env) (s : snd_pcm_substream)
    (size offset xfer avail : Nat) :
    (chunk_frames s size avail = 0 ∧
      transfer_chunk env s size offset xfer avail = Sum.inl (- EINVAL, { s with twake := 0 })) ∨
    (chunk_frames s size avail ≠ 0 ∧ ∃ e : Int, e < 0 ∧
      transfer_chunk env s size offset xfer avail = Sum.inl (end_unlock
        (env.transfer (record s (Event.transfer (uint (s.appl_ptr % s.buffer_size)) (uint offset)
          (chunk_frames s size avail))) (uint (s.appl_ptr % s.buffer_size)) (uint offset)
          (chunk_frames s size avail)).2 xfer e) ∧
      (e = (env.transfer (record s (Event.transfer (uint (s.appl_ptr % s.buffer_size)) (uint offset)
          (chunk_frames s size avail))) (uint (s.appl_ptr % s.buffer_size)) (uint offset)
          (chunk_frames s size avail)).1 ∨ e = - EPIPE ∨ e = - ESTRPIPE)) ∨
    (chunk_frames s size avail ≠ 0 ∧
      0 ≤ (env.transfer (record s (Event.transfer (uint (s.appl_ptr % s.buffer_size)) (uint offset)
          (chunk_frames s size avail))) (uint (s.appl_ptr % s.buffer_size)) (uint offset)
          (chunk_frames s size avail)).1 ∧
      transfer_chunk env s size offset xfer avail = Sum.inr
        (chunk_commit (env.transfer (record s (Event.transfer (uint (s.appl_ptr % s.buffer_size)) (uint offset)
          (chunk_frames s size avail))) (uint (s.appl_ptr % s.buffer_size)) (uint offset)
          (chunk_frames s size avail)).2 (s.appl_ptr + chunk_frames s size avail),
         size - chunk_frames s size avail, offset + chunk_frames s size avail,
         xfer + chunk_frames s size avail, avail - chunk_frames s size avail,
         (env.transfer (record s (Event.transfer (uint (s.appl_ptr % s.buffer_size)) (uint offset)
          (chunk_frames s size avail))) (uint (s.appl_ptr % s.buffer_size)) (uint offset)
          (chunk_frames s size avail)).1)) := by
  have hf : (if (if size > avail then avail else size) >
      s.buffer_size - s.appl_ptr % s.buffer_size then s.buffer_size - s.appl_ptr % s.buffer_size
      else (if size > avail then avail else size)) = chunk_frames s size avail := rfl
  unfold transfer_chunk
  dsimp only
  rw [hf]
  generalize chunk_frames s size avail = f
  by_cases h0 : f = 0
  · left
    rw [if_pos h0]
    exact ⟨h0, rfl⟩
  · right
    rw [if_neg h0]
    generalize env.transfer (record s (Event.transfer (uint (s.appl_ptr % s.buffer_size)) (uint offset) f))
      (uint (s.appl_ptr % s.buffer_size)) (uint offset) f = r
    by_cases h1 : r.1 < 0
    · left
      rw [if_pos h1]
      exact ⟨h0, r.1, h1, rfl, Or.inl rfl⟩
    · rw [if_neg h1]
      by_cases h2 : r.2.state = snd_pcm_state.XRUN
      · left
        rw [if_pos h2]
        exact ⟨h0, - EPIPE, by decide, rfl, Or.inr (Or.inl rfl)⟩
      · rw [if_neg h2]
        by_cases h3 : r.2.state = snd_pcm_state.SUSPENDED
        · left
          rw [if_pos h3]
          exact ⟨h0, - ESTRPIPE, by decide, rfl, Or.inr (Or.inr rfl)⟩
        · right
          rw [if_neg h3]
          exact ⟨h0, by omega, rfl⟩

/-- The value returned through `_end_unlock`. -/
theorem end_unlock_val (s : snd_pcm_substream) (xfer : Nat) (err : Int) :
    (end_unlock s xfer err).1 = if xfer > 0 then (xfer : Int) else err := rfl

/-- The exit `_end_unlock` touches neither the application pointer nor the ring
geometry. -/
theorem end_unlock_keeps (s : snd_pcm_substream) (xfer : Nat) (err : Int) :
    (end_unlock s xfer err).2.appl_ptr = s.appl_ptr ∧
    (end_unlock s xfer err).2.boundary = s.boundary ∧
    (end_unlock s xfer err).2.buffer_size = s.buffer_size := by
  unfold end_unlock
  dsimp only
  split
  · obtain ⟨m, st, tr, h⟩ := snd_pcm_update_state_frame { s with twake := 0 }
    rw [h]
    exact ⟨rfl, rfl, rfl⟩
  · exact ⟨rfl, rfl, rfl⟩

/-- The relation `keeps_ring` is reflexive and transitive. -/
theorem keeps_ring_refl (t : snd_pcm_substream) : keeps_ring t t := ⟨rfl, rfl, rfl, rfl, rfl⟩

/-- See `keeps_ring_refl`. -/
theorem keeps_ring_trans (a b c : snd_pcm_substream) (h1 : keeps_ring a b)
    (h2 : keeps_ring b c) : keeps_ring a c := by
  unfold keeps_ring at *
  obtain ⟨a1, a2, a3, a4, a5⟩ := h1
  obtain ⟨b1, b2, b3, b4, b5⟩ := h2
  exact ⟨b1.trans a1, b2.trans a2, b3.trans a3, b4.trans a4, b5.trans a5⟩

/-- The wait: its callbacks keeping the ring, so does the wait; and when it
reports no error the available count it hands back is at least `twake`, unless a
capture stream was found draining, in which case it is `0`; its return value is
never positive and never `-EINVAL`. -/
theorem wait_for_avail_loop_spec (env : pcm_env) (henv : callbacks_keep_ring env)
    (is_playback : Bool) (wait_time : Option Nat) :
    ∀ (fuel : Nat) (s : snd_pcm_substream) (avail0 : Nat) (err : Int) (avail : Nat)
      (s1 : snd_pcm_substream),
      wait_for_avail_loop env is_playback wait_time fuel s avail0 = some (err, avail, s1) →
      keeps_ring s s1 ∧
      (0 ≤ err → avail ≥ s.twake ∨ (is_playback = false ∧ avail = 0)) ∧ err ≠ - EINVAL ∧
      err ≤ 0 := by
  intro fuel
  induction fuel with
  | zero =>
    intro s avail0 err avail s1 h
    unfold wait_for_avail_loop at h
    dsimp only at h
    generalize (if is_playback = true then snd_pcm_playback_avail s
      else snd_pcm_capture_avail s) = av at h
    by_cases hsig : env.signal_pending s = true
    · rw [if_pos hsig] at h
      cases h
      exact ⟨keeps_ring_refl _, fun h => absurd h (by decide), by decide, by decide⟩
    · rw [if_neg hsig] at h
      by_cases hav : av ≥ s.twake
      · rw [if_pos hav] at h
        cases h
        exact ⟨keeps_ring_refl _, fun _ => Or.inl hav, by decide, by decide⟩
      · rw [if_neg hav] at h
        cases h
  | succ k ih =>
    intro s avail0 err avail s1 h
    unfold wait_for_avail_loop at h
    dsimp only at h
    generalize (if is_playback = true then snd_pcm_playback_avail s
      else snd_pcm_capture_avail s) = av at h
    by_cases hsig : env.signal_pending s = true
    · rw [if_pos hsig] at h
      cases h
      exact ⟨keeps_ring_refl _, fun h => absurd h (by decide), by decide, by decide⟩
    · rw [if_neg hsig] at h
      by_cases hav : av ≥ s.twake
      · rw [if_pos hav] at h
        cases h
        exact ⟨keeps_ring_refl _, fun _ => Or.inl hav, by decide, by decide⟩
      · rw [if_neg hav] at h
        have hk : keeps_ring s (env.schedule_timeout (record s Event.schedule_timeout)
            wait_time).2 := henv.1 (record s Event.schedule_timeout) wait_time
        generalize env.schedule_timeout (record s Event.schedule_timeout) wait_time = r at h hk
        have hrec : ∀ a, wait_for_avail_loop env is_playback wait_time k r.2 a
            = some (err, avail, s1) →
            keeps_ring s s1 ∧
            (0 ≤ err → avail ≥ s.twake ∨ (is_playback = false ∧ avail = 0)) ∧
            err ≠ - EINVAL ∧ err ≤ 0 := by
          intro a ha
          obtain ⟨h5, h6, h7⟩ := ih _ _ _ _ _ ha
          refine ⟨keeps_ring_trans _ _ _ hk h5, fun he => ?_, h7⟩
          rw [← hk.2.2.2.1]
          exact h6 he
        split at h
        · cases h
          exact ⟨hk, fun h => absurd h (by decide), by decide, by decide⟩
        · cases h
          exact ⟨hk, fun h => absurd h (by decide), by decide, by decide⟩
        · by_cases hp : is_playback = true
          · rw [if_pos hp] at h
            cases h
            exact ⟨hk, fun h => absurd h (by decide), by decide, by decide⟩
          · rw [if_neg hp] at h
            cases h
            exact ⟨hk, fun _ => Or.inr ⟨by simpa using hp, rfl⟩, by decide, by decide⟩
        · cases h
          exact ⟨hk, fun h => absurd h (by decide), by decide, by decide⟩
        · cases h
          exact ⟨hk, fun h => absurd h (by decide), by decide, by decide⟩
        · cases h
          exact ⟨hk, fun h => absurd h (by decide), by decide, by decide⟩
        · exact hrec _ h
        · by_cases ht : r.1 = 0
          · rw [if_pos ht] at h
            cases h
            exact ⟨hk, fun h => absurd h (by decide), by decide, by decide⟩
          · rw [if_neg ht] at h
            exact hrec _ h

/-- The commit of a new position keeps what the transfer loop owns. -/
theorem hw_ptr_commit_keeps (s : snd_pcm_substream) (j : Nat) (in_interrupt : Bool)
    (v : hw_ptr_locals) (r : Int) (s' : snd_pcm_substream)
    (h : hw_ptr_commit s j in_interrupt v = some (r, s')) : keeps_ring s s' := by
  by_cases hm : s.hw_ptr = v.new_hw_ptr
  · rw [(hw_ptr_commit_spec s j in_interrupt v).1 hm] at h
    cases h
    exact keeps_ring_refl _
  · obtain ⟨r', st, hi, a, b, m, tr, hc, _⟩ := (hw_ptr_commit_spec s j in_interrupt v).2 hm
    rw [hc] at h
    cases h
    exact ⟨rfl, rfl, rfl, rfl, rfl⟩

/-- The position update keeps what the transfer loop owns. -/
theorem update_hw_ptr0_keeps (s : snd_pcm_substream) (pos j : Nat) (in_interrupt : Bool)
    (r : Int) (s' : snd_pcm_substream)
    (h : snd_pcm_update_hw_ptr0 s pos j in_interrupt = some (r, s')) : keeps_ring s s' := by
  unfold snd_pcm_update_hw_ptr0 at h
  split at h
  · cases h
    exact ⟨rfl, rfl, rfl, rfl, rfl⟩
  · dsimp only at h
    unfold hw_ptr_from_delta at h
    dsimp only at h
    split at h
    · split at h
      · exact hw_ptr_commit_keeps _ _ _ _ _ _ h
      · split at h
        · cases h
        · exact hw_ptr_commit_keeps _ _ _ _ _ _ h
    · split at h
      · cases h
        exact keeps_ring_refl _
      · exact hw_ptr_commit_keeps _ _ _ _ _ _ h

/-- The refresh of the position on entry to a transfer keeps what the loop owns. -/
theorem transfer_update_hw_ptr_keeps (env : pcm_env) (s s1 : snd_pcm_substream)
    (h : transfer_update_hw_ptr env s = some s1) : keeps_ring s s1 := by
  unfold transfer_update_hw_ptr at h
  split at h
  · unfold snd_pcm_update_hw_ptr at h
    split at h
    · cases h
    · rename_i r hr
      cases h
      exact update_hw_ptr0_keeps _ _ _ _ r.1 r.2 hr
  · cases h
    exact keeps_ring_refl _

/-- A committed chunk: the application pointer advances by the chunk length
modulo `boundary`; the geometry, the direction and `twake` stay. -/
theorem chunk_commit_spec (t : snd_pcm_substream) (a f : Nat) (ha : a < t.boundary)
    (hf : f ≤ t.boundary) :
    (chunk_commit t (a + f)).appl_ptr = (a + f) % t.boundary ∧
    (chunk_commit t (a + f)).boundary = t.boundary ∧
    (chunk_commit t (a + f)).buffer_size = t.buffer_size ∧
    (chunk_commit t (a + f)).twake = t.twake ∧
    (chunk_commit t (a + f)).stream = t.stream ∧
    (chunk_commit t (a + f)).state = t.state := by
  have hmod : (if a + f ≥ t.boundary then a + f - t.boundary else a + f) = (a + f) % t.boundary := by
    split
    · rw [Nat.mod_eq_sub_mod (by omega), Nat.mod_eq_of_lt (by omega)]
    · rw [Nat.mod_eq_of_lt (by omega)]
  unfold chunk_commit
  dsimp only
  rw [hmod]
  split <;> exact ⟨rfl, rfl, rfl, rfl, rfl, rfl⟩

/-- One iteration of the loop of `snd_pcm_lib_write1` with frames still to
transfer: the would-block exit, the wait and its error exit, then the chunk. -/
theorem write1_loop_succ (env : pcm_env) (nonblock : Bool) (wfuel fuel : Nat)
    (s : snd_pcm_substream) (size offset xfer avail : Nat) (err : Int) (hsize : 0 < size) :
    write1_loop env nonblock wfuel (fuel + 1) s size offset xfer avail err =
      if avail = 0 then
        if nonblock = true then some (end_unlock s xfer (- EAGAIN))
        else
          (wait_for_avail env { s with twake := min size (avail_min_or_1 s) } wfuel).bind
            (fun w => if w.1 < 0 then some (end_unlock w.2.2 xfer w.1)
              else write1_chunk env nonblock wfuel fuel w.2.2 size offset xfer w.2.1)
      else write1_chunk env nonblock wfuel fuel s size offset xfer avail := by
  unfold write1_loop write1_chunk
  rw [if_pos hsize]
  dsimp only
  by_cases ha : avail = 0
  · rw [if_pos ha, if_pos ha]
    by_cases hn : nonblock = true
    · rw [if_pos hn, if_pos hn]
    · rw [if_neg hn, if_neg hn]
      cases hw : wait_for_avail env { s with twake := min size (avail_min_or_1 s) } wfuel with
      | none => rfl
      | some w =>
        obtain ⟨e, a, t⟩ := w
        dsimp only [Option.bind]
        by_cases he : e < 0
        · rw [if_pos he, if_pos he]
        · rw [if_neg he, if_neg he]
  · rw [if_neg ha, if_neg ha]

/-- One iteration of the loop of `snd_pcm_lib_read1` with frames still to
transfer: the end of a draining stream, the would-block exit, the wait and its
error exit, the retry when the wait found the stream draining, then the chunk. -/
theorem read1_loop_succ (env : pcm_env) (nonblock : Bool) (wfuel fuel : Nat)
    (s : snd_pcm_substream) (size offset xfer avail : Nat) (err : Int) (hsize : 0 < size) :
    read1_loop env nonblock wfuel (fuel + 1) s size offset xfer avail err =
      if avail = 0 then
        if s.state = snd_pcm_state.DRAINING then
          some (end_unlock (snd_pcm_stop s snd_pcm_state.SETUP) xfer err)
        else if nonblock = true then some (end_unlock s xfer (- EAGAIN))
        else
          (wait_for_avail env { s with twake := min size (avail_min_or_1 s) } wfuel).bind
            (fun w => if w.1 < 0 then some (end_unlock w.2.2 xfer w.1)
              else if w.2.1 = 0 then
                read1_loop env nonblock wfuel fuel w.2.2 size offset xfer w.2.1 w.1
              else read1_chunk env nonblock wfuel fuel w.2.2 size offset xfer w.2.1)
      else read1_chunk env nonblock wfuel fuel s size offset xfer avail := by
  unfold read1_chunk
  conv_lhs => unfold read1_loop
  rw [if_pos hsize]
  dsimp only
  by_cases ha : avail = 0
  · rw [if_pos ha, if_pos ha]
    by_cases hd : s.state = snd_pcm_state.DRAINING
    · rw [if_pos hd, if_pos hd]
    · rw [if_neg hd, if_neg hd]
      by_cases hn : nonblock = true
      · rw [if_pos hn, if_pos hn]
      · rw [if_neg hn, if_neg hn]
        cases hw : wait_for_avail env { s with twake := min size (avail_min_or_1 s) } wfuel with
        | none => rfl
        | some w =>
          obtain ⟨e, a, t⟩ := w
          dsimp only [Option.bind]
  · rw [if_neg ha, if_neg ha]

/-- Zero frames to transfer: the loops end through `_end_unlock`. -/
theorem write1_loop_done (env : pcm_env) (nonblock : Bool) (wfuel fuel : Nat)
    (s : snd_pcm_substream) (offset xfer avail : Nat) (err : Int) :
    write1_loop env nonblock wfuel fuel s 0 offset xfer avail err
      = some (end_unlock s xfer err) := by
  unfold write1_loop
  rw [if_neg (by omega)]

/-- See `write1_loop_done`. -/
theorem read1_loop_done (env : pcm_env) (nonblock : Bool) (wfuel fuel : Nat)
    (s : snd_pcm_substream) (offset xfer avail : Nat) (err : Int) :
    read1_loop env nonblock wfuel fuel s 0 offset xfer avail err
      = some (end_unlock s xfer err) := by
  unfold read1_loop
  rw [if_neg (by omega)]

/-- Out of fuel with frames still to transfer, the loops give no result. -/
theorem write1_loop_zero (env : pcm_env) (nonblock : Bool) (wfuel : Nat)
    (s : snd_pcm_substream) (size offset xfer avail : Nat) (err : Int) (hsize : 0 < size) :
    write1_loop env nonblock wfuel 0 s size offset xfer avail err = none := by
  unfold write1_loop
  rw [if_pos hsize]

/-- See `write1_loop_zero`. -/
theorem read1_loop_zero (env : pcm_env) (nonblock : Bool) (wfuel : Nat)
    (s : snd_pcm_substream) (size offset xfer avail : Nat) (err : Int) (hsize : 0 < size) :
    read1_loop env nonblock wfuel 0 s size offset xfer avail err = none := by
  unfold read1_loop
  rw [if_pos hsize]

/-- An exit through `_end_unlock`, on a substream whose application pointer is
where the loop was entered, counts the frames counted on entry. -/
theorem end_unlock_counts (s t : snd_pcm_substream) (xfer size : Nat) (e : Int)
    (ha : t.appl_ptr = s.appl_ptr) (hb : t.boundary = s.boundary)
    (hlt : s.appl_ptr < s.boundary) (he : xfer = 0 → e ≤ 0) :
    transfer_counts s xfer size (end_unlock t xfer e).1 (end_unlock t xfer e).2 xfer ∧
    (e ≠ - EINVAL → (end_unlock t xfer e).1 ≠ - EINVAL) := by
  obtain ⟨k1, k2, _⟩ := end_unlock_keeps t xfer e
  rw [end_unlock_val]
  refine ⟨⟨le_refl _, by omega, ?_, by rw [k2, hb], ?_, ?_⟩, ?_⟩
  · rw [k1, ha, Nat.sub_self, Nat.add_zero, Nat.mod_eq_of_lt hlt]
  · intro h
    rw [if_pos h]
  · intro h
    rw [if_neg (by omega)]
    exact he h
  · intro hne
    split
    · unfold EINVAL
      omega
    · exact hne

/-- The frames counted from the state after a chunk of `f` frames are counted
from the state before it. -/
theorem transfer_counts_shift (s t : snd_pcm_substream) (xfer size f : Nat) (r : Int)
    (s' : snd_pcm_substream) (n : Nat) (hf : f ≤ size)
    (ha : t.appl_ptr = (s.appl_ptr + f) % s.boundary) (hb : t.boundary = s.boundary)
    (h : transfer_counts t (xfer + f) (size - f) r s' n) : transfer_counts s xfer size r s' n := by
  unfold transfer_counts at *
  obtain ⟨h1, h2, h3, h4, h5, h6⟩ := h
  refine ⟨by omega, by omega, ?_, by rw [h4, hb], h5, h6⟩
  rw [h3, ha, hb, Nat.mod_add_mod]
  congr 1
  omega

/-- The loop of `snd_pcm_lib_write1` on a playback stream, the callbacks keeping
the ring: a result counts the frames by which the application pointer has
advanced, and it is `-EINVAL` only if a callback returned that code. -/
theorem write1_loop_spec (env : pcm_env) (henv : callbacks_keep_ring env) (nonblock : Bool)
    (wfuel : Nat) :
    ∀ (fuel : Nat) (s : snd_pcm_substream) (size offset xfer avail : Nat) (err r : Int)
      (s' : snd_pcm_substream),
      s.stream = snd_pcm_stream.PLAYBACK → 0 < s.buffer_size → s.buffer_size ≤ s.boundary →
      s.appl_ptr < s.boundary → (xfer = 0 → err ≤ 0) →
      write1_loop env nonblock wfuel fuel s size offset xfer avail err = some (r, s') →
      (∃ n, transfer_counts s xfer size r s' n) ∧
      ((∀ t hwoff off frames, (env.transfer t hwoff off frames).1 ≠ - EINVAL) →
        (∀ t, (env.snd_pcm_start t).1 ≠ - EINVAL) → err ≠ - EINVAL → r ≠ - EINVAL) := by
  intro fuel
  induction fuel with
  | zero =>
    intro s size offset xfer avail err r s' _ _ _ hlt herr h
    by_cases hsz : 0 < size
    · rw [write1_loop_zero _ _ _ _ _ _ _ _ _ hsz] at h
      cases h
    · have h0 : size = 0 := by omega
      subst h0
      rw [write1_loop_done] at h
      obtain ⟨rfl, rfl⟩ : r = (end_unlock s xfer err).1 ∧ s' = (end_unlock s xfer err).2 := by
        rw [Option.some.inj h]
        exact ⟨rfl, rfl⟩
      obtain ⟨h1, h2⟩ := end_unlock_counts s s xfer 0 err rfl rfl hlt herr
      exact ⟨⟨xfer, h1⟩, fun _ _ => h2⟩
  | succ k ih =>
    intro s size offset xfer avail err r s' hst hB hle hlt herr h
    by_cases hsz : 0 < size
    · -- an exit through `_end_unlock` before the chunk
      have hexit : ∀ (t : snd_pcm_substream) (e : Int), t.appl_ptr = s.appl_ptr →
          t.boundary = s.boundary → e < 0 → e ≠ - EINVAL →
          some (end_unlock t xfer e) = some (r, s') →
          (∃ n, transfer_counts s xfer size r s' n) ∧
          ((∀ t hwoff off frames, (env.transfer t hwoff off frames).1 ≠ - EINVAL) →
            (∀ t, (env.snd_pcm_start t).1 ≠ - EINVAL) → err ≠ - EINVAL → r ≠ - EINVAL) := by
        intro t e ha hb he hne h
        obtain ⟨rfl, rfl⟩ : r = (end_unlock t xfer e).1 ∧ s' = (end_unlock t xfer e).2 := by
          rw [Option.some.inj h]
          exact ⟨rfl, rfl⟩
        obtain ⟨h1, h2⟩ := end_unlock_counts s t xfer size e ha hb hlt (fun _ => by omega)
        exact ⟨⟨xfer, h1⟩, fun _ _ _ => h2 hne⟩
      -- the chunk and what follows it
      have hchunk : ∀ (t : snd_pcm_substream) (a : Nat), t.appl_ptr = s.appl_ptr →
          t.boundary = s.boundary → t.buffer_size = s.buffer_size → t.stream = s.stream → 0 < a →
          write1_chunk env nonblock wfuel k t size offset xfer a = some (r, s') →
          (∃ n, transfer_counts s xfer size r s' n) ∧
          ((∀ t hwoff off frames, (env.transfer t hwoff off frames).1 ≠ - EINVAL) →
            (∀ t, (env.snd_pcm_start t).1 ≠ - EINVAL) → err ≠ - EINVAL → r ≠ - EINVAL) := by
        intro t a k1 k2 k3 k5 ha h
        have hBt : 0 < t.buffer_size := by rw [k3]; exact hB
        have hfp := chunk_frames_pos t size a hsz ha hBt
        obtain ⟨hfs, _, hfr⟩ := chunk_frames_le t size a
        have hfB : chunk_frames t size a ≤ s.boundary := by
          have := hfr (by omega)
          omega
        have hkt := henv.2.1 (record t (Event.transfer (uint (t.appl_ptr % t.buffer_size)) (uint offset)
          (chunk_frames t size a))) (uint (t.appl_ptr % t.buffer_size)) (uint offset) (chunk_frames t size a)
        unfold write1_chunk at h
        rcases transfer_chunk_cases env t size offset xfer a with
          ⟨hf0, _⟩ | ⟨_, e, he, hc, hor⟩ | ⟨_, hr1, hc⟩
        · omega
        · rw [hc] at h
          dsimp only at h
          obtain ⟨rfl, rfl⟩ : r = (end_unlock _ xfer e).1 ∧ s' = (end_unlock _ xfer e).2 := by
            rw [Option.some.inj h]
            exact ⟨rfl, rfl⟩
          obtain ⟨h1, h2⟩ := end_unlock_counts s _ xfer size e
            (hkt.1.trans k1) (hkt.2.1.trans k2) hlt (fun _ => by omega)
          refine ⟨⟨xfer, h1⟩, fun hT _ _ => h2 ?_⟩
          rcases hor with h3 | h3 | h3
          · rw [h3]
            exact hT _ _ _ _
          · rw [h3]
            decide
          · rw [h3]
            decide
        · rw [hc] at h
          dsimp only at h
          generalize hqdef : env.transfer (record t (Event.transfer (uint (t.appl_ptr % t.buffer_size))
            (uint offset) (chunk_frames t size a))) (uint (t.appl_ptr % t.buffer_size)) (uint offset)
            (chunk_frames t size a) = q at h hkt hr1
          generalize hfdef : chunk_frames t size a = f at *
          have hq1 : q.2.appl_ptr = s.appl_ptr := hkt.1.trans k1
          have hq2 : q.2.boundary = s.boundary := hkt.2.1.trans k2
          have hq3 : q.2.buffer_size = s.buffer_size := hkt.2.2.1.trans k3
          have hq5 : q.2.stream = s.stream := hkt.2.2.2.2.trans k5
          obtain ⟨c1, c2, c3, _, c5, _⟩ := chunk_commit_spec q.2 t.appl_ptr f
            (by rw [hq2, k1]; exact hlt) (by rw [hq2]; exact hfB)
          have hbpos : 0 < s.boundary := by omega
          generalize chunk_commit q.2 (t.appl_ptr + f) = t2 at h c1 c2 c3 c5
          rw [hq2, k1] at c1
          -- the result of the rest of the loop, entered on a substream `u`
          have hnext : ∀ (u : snd_pcm_substream) (e : Int), keeps_ring t2 u →
              ((∀ t hwoff off frames, (env.transfer t hwoff off frames).1 ≠ - EINVAL) →
                (∀ t, (env.snd_pcm_start t).1 ≠ - EINVAL) → e ≠ - EINVAL) →
              write1_loop env nonblock wfuel k u (size - f) (offset + f) (xfer + f) (a - f) e
                = some (r, s') →
              (∃ n, transfer_counts s xfer size r s' n) ∧
              ((∀ t hwoff off frames, (env.transfer t hwoff off frames).1 ≠ - EINVAL) →
                (∀ t, (env.snd_pcm_start t).1 ≠ - EINVAL) → err ≠ - EINVAL → r ≠ - EINVAL) := by
            intro u e hu hee h
            obtain ⟨u1, u2, u3, _, u5⟩ := hu
            obtain ⟨⟨n, hn⟩, hn2⟩ := ih u (size - f) (offset + f) (xfer + f) (a - f) e r s'
              (by rw [u5, c5, hq5]; exact hst) (by rw [u3, c3, hq3]; exact hB)
              (by rw [u3, c3, hq3, u2, c2, hq2]; exact hle)
              (by rw [u1, c1, u2, c2, hq2]; exact Nat.mod_lt _ hbpos)
              (fun h0 => by omega) h
            exact ⟨⟨n, transfer_counts_shift s u xfer size f r s' n hfs (by rw [u1, c1])
              (by rw [u2, c2, hq2]) hn⟩, fun hT hS _ => hn2 hT hS (hee hT hS)⟩
          split at h
          · have hks := henv.2.2 (record t2 Event.start)
            generalize hwdef : env.snd_pcm_start (record t2 Event.start) = w at h hks
            split at h
            · rename_i hw
              obtain ⟨rfl, rfl⟩ : r = (end_unlock w.2 (xfer + f) w.1).1 ∧
                  s' = (end_unlock w.2 (xfer + f) w.1).2 := by
                rw [Option.some.inj h]
                exact ⟨rfl, rfl⟩
              obtain ⟨h1, h2⟩ := end_unlock_counts w.2 w.2 (xfer + f) (size - f) w.1 rfl rfl
                (by rw [hks.1, hks.2.1]
                    show t2.appl_ptr < t2.boundary
                    rw [c1, c2, hq2]
                    exact Nat.mod_lt _ hbpos) (fun h0 => by omega)
              exact ⟨⟨xfer + f, transfer_counts_shift s w.2 xfer size f _ _ _ hfs
                (by rw [hks.1]; exact c1) (by rw [hks.2.1]; exact c2.trans hq2) h1⟩,
                fun _ hS _ => h2 (by rw [← hwdef]; exact hS _)⟩
            · exact hnext w.2 w.1 hks (fun _ hS => by rw [← hwdef]; exact hS _) h
          · exact hnext t2 q.1 (keeps_ring_refl _) (fun hT _ => by
              rw [← hqdef]
              exact hT _ _ _ _) h
      rw [write1_loop_succ _ _ _ _ _ _ _ _ _ _ hsz] at h
      by_cases ha : avail = 0
      · rw [if_pos ha] at h
        by_cases hn : nonblock = true
        · rw [if_pos hn] at h
          exact hexit s (- EAGAIN) rfl rfl (by decide) (by decide) h
        · rw [if_neg hn] at h
          cases hw : wait_for_avail env { s with twake := min size (avail_min_or_1 s) } wfuel with
          | none =>
            rw [hw] at h
            cases h
          | some w =>
            rw [hw] at h
            obtain ⟨e, a, t⟩ := w
            dsimp only [Option.bind] at h
            unfold wait_for_avail at hw
            obtain ⟨hk, hav, hne, _⟩ := wait_for_avail_loop_spec env henv _ _ _ _ _ _ _ _ hw
            by_cases he : e < 0
            · rw [if_pos he] at h
              exact hexit t e hk.1 hk.2.1 he hne h
            · rw [if_neg he] at h
              have h1 : 1 ≤ avail_min_or_1 s := by
                unfold avail_min_or_1
                split <;> omega
              refine hchunk t a hk.1 hk.2.1 hk.2.2.1 hk.2.2.2.2 ?_ h
              · rcases hav (by omega) with h2 | h2
                · have h3 : min size (avail_min_or_1 s) ≤ a := h2
                  omega
                · exact absurd h2.1 (by simp [hst])
      · rw [if_neg ha] at h
        exact hchunk s avail rfl rfl rfl rfl (by omega) h
    · have h0 : size = 0 := by omega
      subst h0
      rw [write1_loop_done] at h
      obtain ⟨rfl, rfl⟩ : r = (end_unlock s xfer err).1 ∧ s' = (end_unlock s xfer err).2 := by
        rw [Option.some.inj h]
        exact ⟨rfl, rfl⟩
      obtain ⟨h1, h2⟩ := end_unlock_counts s s xfer 0 err rfl rfl hlt herr
      exact ⟨⟨xfer, h1⟩, fun _ _ => h2⟩

/-- The loop of `snd_pcm_lib_read1`, the callbacks keeping the ring: a result
counts the frames by which the application pointer has advanced, and it is
`-EINVAL` only if the copy callback returned that code. -/
theorem read1_loop_spec (env : pcm_env) (henv : callbacks_keep_ring env) (nonblock : Bool)
    (wfuel : Nat) :
    ∀ (fuel : Nat) (s : snd_pcm_substream) (size offset xfer avail : Nat) (err r : Int)
      (s' : snd_pcm_substream),
      0 < s.buffer_size → s.buffer_size ≤ s.boundary →
      s.appl_ptr < s.boundary → (xfer = 0 → err ≤ 0) →
      read1_loop env nonblock wfuel fuel s size offset xfer avail err = some (r, s') →
      (∃ n, transfer_counts s xfer size r s' n) ∧
      ((∀ t hwoff off frames, (env.transfer t hwoff off frames).1 ≠ - EINVAL) →
        err ≠ - EINVAL → r ≠ - EINVAL) := by
  intro fuel
  induction fuel with
  | zero =>
    intro s size offset xfer avail err r s' _ _ hlt herr h
    by_cases hsz : 0 < size
    · rw [read1_loop_zero _ _ _ _ _ _ _ _ _ hsz] at h
      cases h
    · have h0 : size = 0 := by omega
      subst h0
      rw [read1_loop_done] at h
      obtain ⟨rfl, rfl⟩ : r = (end_unlock s xfer err).1 ∧ s' = (end_unlock s xfer err).2 := by
        rw [Option.some.inj h]
        exact ⟨rfl, rfl⟩
      obtain ⟨h1, h2⟩ := end_unlock_counts s s xfer 0 err rfl rfl hlt herr
      exact ⟨⟨xfer, h1⟩, fun _ => h2⟩
  | succ k ih =>
    intro s size offset xfer avail err r s' hB hle hlt herr h
    have hbpos : 0 < s.boundary := by omega
    by_cases hsz : 0 < size
    · -- an exit through `_end_unlock` before the chunk
      have hexit : ∀ (t : snd_pcm_substream) (e : Int), t.appl_ptr = s.appl_ptr →
          t.boundary = s.boundary → (xfer = 0 → e ≤ 0) → (err ≠ - EINVAL → e ≠ - EINVAL) →
          some (end_unlock t xfer e) = some (r, s') →
          (∃ n, transfer_counts s xfer size r s' n) ∧
          ((∀ t hwoff off frames, (env.transfer t hwoff off frames).1 ≠ - EINVAL) →
            err ≠ - EINVAL → r ≠ - EINVAL) := by
        intro t e ha hb he hne h
        obtain ⟨rfl, rfl⟩ : r = (end_unlock t xfer e).1 ∧ s' = (end_unlock t xfer e).2 := by
          rw [Option.some.inj h]
          exact ⟨rfl, rfl⟩
        obtain ⟨h1, h2⟩ := end_unlock_counts s t xfer size e ha hb hlt he
        exact ⟨⟨xfer, h1⟩, fun _ h3 => h2 (hne h3)⟩
      -- the rest of the loop, entered on a substream `u` after `f` more frames
      have hnext : ∀ (u : snd_pcm_substream) (f a : Nat) (e : Int), f ≤ size →
          (f = 0 → e ≤ 0) →
          u.appl_ptr = (s.appl_ptr + f) % s.boundary → u.boundary = s.boundary →
          u.buffer_size = s.buffer_size →
          ((∀ t hwoff off frames, (env.transfer t hwoff off frames).1 ≠ - EINVAL) →
            e ≠ - EINVAL) →
          read1_loop env nonblock wfuel k u (size - f) (offset + f) (xfer + f) a e
            = some (r, s') →
          (∃ n, transfer_counts s xfer size r s' n) ∧
          ((∀ t hwoff off frames, (env.transfer t hwoff off frames).1 ≠ - EINVAL) →
            err ≠ - EINVAL → r ≠ - EINVAL) := by
        intro u f a e hfs hfe u1 u2 u3 hee h
        obtain ⟨⟨n, hn⟩, hn2⟩ := ih u (size - f) (offset + f) (xfer + f) a e r s'
          (by rw [u3]; exact hB) (by rw [u3, u2]; exact hle)
          (by rw [u1, u2]; exact Nat.mod_lt _ hbpos) (fun h0 => hfe (by omega)) h
        exact ⟨⟨n, transfer_counts_shift s u xfer size f r s' n hfs u1 u2 hn⟩,
          fun hT _ => hn2 hT (hee hT)⟩
      -- the chunk and what follows it
      have hchunk : ∀ (t : snd_pcm_substream) (a : Nat), t.appl_ptr = s.appl_ptr →
          t.boundary = s.boundary → t.buffer_size = s.buffer_size → 0 < a →
          read1_chunk env nonblock wfuel k t size offset xfer a = some (r, s') →
          (∃ n, transfer_counts s xfer size r s' n) ∧
          ((∀ t hwoff off frames, (env.transfer t hwoff off frames).1 ≠ - EINVAL) →
            err ≠ - EINVAL → r ≠ - EINVAL) := by
        intro t a k1 k2 k3 ha h
        have hBt : 0 < t.buffer_size := by rw [k3]; exact hB
        have hfp := chunk_frames_pos t size a hsz ha hBt
        obtain ⟨hfs, _, hfr⟩ := chunk_frames_le t size a
        have hfB : chunk_frames t size a ≤ s.boundary := by
          have := hfr (by omega)
          omega
        have hkt := henv.2.1 (record t (Event.transfer (uint (t.appl_ptr % t.buffer_size)) (uint offset)
          (chunk_frames t size a))) (uint (t.appl_ptr % t.buffer_size)) (uint offset) (chunk_frames t size a)
        unfold read1_chunk at h
        rcases transfer_chunk_cases env t size offset xfer a with
          ⟨hf0, _⟩ | ⟨_, e, he, hc, hor⟩ | ⟨_, hr1, hc⟩
        · omega
        · rw [hc] at h
          dsimp only at h
          obtain ⟨rfl, rfl⟩ : r = (end_unlock _ xfer e).1 ∧ s' = (end_unlock _ xfer e).2 := by
            rw [Option.some.inj h]
            exact ⟨rfl, rfl⟩
          obtain ⟨h1, h2⟩ := end_unlock_counts s _ xfer size e
            (hkt.1.trans k1) (hkt.2.1.trans k2) hlt (fun _ => by omega)
          refine ⟨⟨xfer, h1⟩, fun hT _ => h2 ?_⟩
          rcases hor with h3 | h3 | h3
          · rw [h3]
            exact hT _ _ _ _
          · rw [h3]
            decide
          · rw [h3]
            decide
        · rw [hc] at h
          dsimp only at h
          generalize hqdef : env.transfer (record t (Event.transfer (uint (t.appl_ptr % t.buffer_size))
            (uint offset) (chunk_frames t size a))) (uint (t.appl_ptr % t.buffer_size)) (uint offset)
            (chunk_frames t size a) = q at h hkt hr1
          generalize hfdef : chunk_frames t size a = f at *
          have hq2 : q.2.boundary = s.boundary := hkt.2.1.trans k2
          have hq3 : q.2.buffer_size = s.buffer_size := hkt.2.2.1.trans k3
          obtain ⟨c1, c2, c3, _, _, _⟩ := chunk_commit_spec q.2 t.appl_ptr f
            (by rw [hq2, k1]; exact hlt) (by rw [hq2]; exact hfB)
          generalize chunk_commit q.2 (t.appl_ptr + f) = t2 at h c1 c2 c3
          rw [hq2, k1] at c1
          exact hnext t2 f (a - f) q.1 hfs (fun h0 => by omega) c1 (c2.trans hq2) (c3.trans hq3)
            (fun hT => by rw [← hqdef]; exact hT _ _ _ _) h
      rw [read1_loop_succ _ _ _ _ _ _ _ _ _ _ hsz] at h
      by_cases ha : avail = 0
      · rw [if_pos ha] at h
        by_cases hd : s.state = snd_pcm_state.DRAINING
        · rw [if_pos hd] at h
          exact hexit (snd_pcm_stop s snd_pcm_state.SETUP) err rfl rfl herr (fun h => h) h
        · rw [if_neg hd] at h
          by_cases hn : nonblock = true
          · rw [if_pos hn] at h
            exact hexit s (- EAGAIN) rfl rfl (fun _ => by decide) (fun _ => by decide) h
          · rw [if_neg hn] at h
            cases hw : wait_for_avail env { s with twake := min size (avail_min_or_1 s) }
                wfuel with
            | none =>
              rw [hw] at h
              cases h
            | some w =>
              rw [hw] at h
              obtain ⟨e, a, t⟩ := w
              dsimp only [Option.bind] at h
              unfold wait_for_avail at hw
              obtain ⟨hk, _, hne, hle0⟩ := wait_for_avail_loop_spec env henv _ _ _ _ _ _ _ _ hw
              by_cases he : e < 0
              · rw [if_pos he] at h
                exact hexit t e hk.1 hk.2.1 (fun _ => hle0) (fun _ => hne) h
              · rw [if_neg he] at h
                by_cases ha0 : a = 0
                · rw [if_pos ha0] at h
                  exact hnext t 0 a e (Nat.zero_le _) (fun _ => hle0)
                    (by rw [hk.1]; exact (Nat.mod_eq_of_lt hlt).symm) hk.2.1 hk.2.2.1
                    (fun _ => hne) h
                · rw [if_neg ha0] at h
                  exact hchunk t a hk.1 hk.2.1 hk.2.2.1 (by omega) h
      · rw [if_neg ha] at h
        exact hchunk s avail rfl rfl rfl (by omega) h
    · have h0 : size = 0 := by omega
      subst h0
      rw [read1_loop_done] at h
      obtain ⟨rfl, rfl⟩ : r = (end_unlock s xfer err).1 ∧ s' = (end_unlock s xfer err).2 := by
        rw [Option.some.inj h]
        exact ⟨rfl, rfl⟩
      obtain ⟨h1, h2⟩ := end_unlock_counts s s xfer 0 err rfl rfl hlt herr
      exact ⟨⟨xfer, h1⟩, fun _ => h2⟩

/-- A stream in a state that does not pass the check of `snd_pcm_lib_write1`:
the call ends through `_end_unlock` with a negative code other than `-EINVAL`. -/
theorem write1_gate (env : pcm_env) (s : snd_pcm_substream) (size : Nat) (nonblock : Bool)
    (fuel : Nat) (hne : size ≠ 0)
    (hst : ¬ (s.state = snd_pcm_state.PREPARED ∨ s.state = snd_pcm_state.RUNNING ∨
      s.state = snd_pcm_state.PAUSED)) :
    ∃ e : Int, e < 0 ∧ e ≠ - EINVAL ∧
      snd_pcm_lib_write1 env s size nonblock fuel = some (end_unlock s 0 e) := by
  unfold snd_pcm_lib_write1
  rw [if_neg hne]
  split
  · rename_i h
    exact absurd (Or.inl h) hst
  · rename_i h
    exact absurd (Or.inr (Or.inl h)) hst
  · rename_i h
    exact absurd (Or.inr (Or.inr h)) hst
  · exact ⟨- EPIPE, by decide, by decide, rfl⟩
  · exact ⟨- ESTRPIPE, by decide, by decide, rfl⟩
  · exact ⟨- EBADFD, by decide, by decide, rfl⟩

/-- A call of `snd_pcm_lib_write1` on a playback stream, the callbacks keeping
the ring: a result counts the frames by which the application pointer has
advanced, and it is `-EINVAL` only if a callback returned that code. -/
theorem write1_counts (env : pcm_env) (henv : callbacks_keep_ring env) (s : snd_pcm_substream)
    (size : Nat) (nonblock : Bool) (fuel : Nat) (r : Int) (s' : snd_pcm_substream)
    (hst : s.stream = snd_pcm_stream.PLAYBACK) (hB : 0 < s.buffer_size)
    (hle : s.buffer_size ≤ s.boundary) (hlt : s.appl_ptr < s.boundary)
    (h : snd_pcm_lib_write1 env s size nonblock fuel = some (r, s')) :
    (∃ n, transfer_counts s 0 size r s' n) ∧
    ((∀ t hwoff off frames, (env.transfer t hwoff off frames).1 ≠ - EINVAL) →
      (∀ t, (env.snd_pcm_start t).1 ≠ - EINVAL) → r ≠ - EINVAL) := by
  by_cases hsz : size = 0
  · subst hsz
    unfold snd_pcm_lib_write1 at h
    rw [if_pos rfl] at h
    cases h
    refine ⟨⟨0, le_refl _, le_refl _, ?_, rfl, fun h => absurd h (by decide), fun _ => le_refl _⟩,
      fun _ _ => by decide⟩
    exact (Nat.mod_eq_of_lt hlt).symm
  · by_cases hs : s.state = snd_pcm_state.PREPARED ∨ s.state = snd_pcm_state.RUNNING ∨
        s.state = snd_pcm_state.PAUSED
    · rw [write1_enter env s size nonblock fuel hsz hs] at h
      cases hu : transfer_update_hw_ptr env { s with twake := avail_min_or_1 s } with
      | none =>
        rw [hu] at h
        cases h
      | some s1 =>
        rw [hu] at h
        dsimp only [Option.bind] at h
        obtain ⟨k1, k2, k3, _, k5⟩ := transfer_update_hw_ptr_keeps env _ s1 hu
        obtain ⟨⟨n, hn⟩, hn2⟩ := write1_loop_spec env henv nonblock fuel fuel s1 size 0 0
          (snd_pcm_playback_avail s1) 0 r s' (k5.trans hst) (by rw [k3]; exact hB)
          (by rw [k3, k2]; exact hle) (by rw [k1, k2]; exact hlt) (fun _ => le_refl _) h
        refine ⟨⟨n, ?_⟩, fun hT hS => hn2 hT hS (by decide)⟩
        unfold transfer_counts at hn ⊢
        rw [k1, k2] at hn
        exact hn
    · obtain ⟨e, he, hne, hg⟩ := write1_gate env s size nonblock fuel hsz hs
      rw [hg] at h
      obtain ⟨rfl, rfl⟩ : r = (end_unlock s 0 e).1 ∧ s' = (end_unlock s 0 e).2 := by
        rw [Option.some.inj h]
        exact ⟨rfl, rfl⟩
      obtain ⟨h1, h2⟩ := end_unlock_counts s s 0 size r rfl rfl hlt (fun _ => by omega)
      exact ⟨⟨0, h1⟩, fun _ _ => h2 hne⟩

/-- The body of `snd_pcm_lib_read1`, the callbacks keeping the ring, entered with
a value of `err` that is not positive. -/
theorem read1_body_counts (env : pcm_env) (henv : callbacks_keep_ring env)
    (s t : snd_pcm_substream) (size : Nat) (nonblock : Bool) (fuel : Nat) (err r : Int)
    (s' : snd_pcm_substream) (k1 : t.appl_ptr = s.appl_ptr) (k2 : t.boundary = s.boundary)
    (k3 : t.buffer_size = s.buffer_size) (hB : 0 < s.buffer_size)
    (hle : s.buffer_size ≤ s.boundary) (hlt : s.appl_ptr < s.boundary) (herr : err ≤ 0)
    (h : read1_body env t size nonblock fuel err = some (r, s')) :
    (∃ n, transfer_counts s 0 size r s' n) ∧
    ((∀ t hwoff off frames, (env.transfer t hwoff off frames).1 ≠ - EINVAL) →
      err ≠ - EINVAL → r ≠ - EINVAL) := by
  rw [read1_body_eq] at h
  cases hu : transfer_update_hw_ptr env { t with twake := avail_min_or_1 t } with
  | none =>
    rw [hu] at h
    cases h
  | some s1 =>
    rw [hu] at h
    dsimp only [Option.bind] at h
    obtain ⟨j1, j2, j3, _, _⟩ := transfer_update_hw_ptr_keeps env _ s1 hu
    have a1 : s1.appl_ptr = s.appl_ptr := j1.trans k1
    have a2 : s1.boundary = s.boundary := j2.trans k2
    have a3 : s1.buffer_size = s.buffer_size := j3.trans k3
    obtain ⟨⟨n, hn⟩, hn2⟩ := read1_loop_spec env henv nonblock fuel fuel s1 size 0 0
      (snd_pcm_capture_avail s1) err r s' (by rw [a3]; exact hB)
      (by rw [a3, a2]; exact hle) (by rw [a1, a2]; exact hlt) (fun _ => herr) h
    refine ⟨⟨n, ?_⟩, hn2⟩
    unfold transfer_counts at hn ⊢
    rw [a1, a2] at hn
    exact hn

/-- A call of `snd_pcm_lib_read1`, the callbacks keeping the ring and
`snd_pcm_start` returning `0` or a negative code: a result counts the frames by
which the application pointer has advanced, and it is `-EINVAL` only if a
callback returned that code. -/
theorem read1_counts (env : pcm_env) (henv : callbacks_keep_ring env) (s : snd_pcm_substream)
    (size : Nat) (nonblock : Bool) (fuel : Nat) (r : Int) (s' : snd_pcm_substream)
    (hstart : ∀ t, (env.snd_pcm_start t).1 ≤ 0) (hB : 0 < s.buffer_size)
    (hle : s.buffer_size ≤ s.boundary) (hlt : s.appl_ptr < s.boundary)
    (h : snd_pcm_lib_read1 env s size nonblock fuel = some (r, s')) :
    (∃ n, transfer_counts s 0 size r s' n) ∧
    ((∀ t hwoff off frames, (env.transfer t hwoff off frames).1 ≠ - EINVAL) →
      (∀ t, (env.snd_pcm_start t).1 ≠ - EINVAL) → r ≠ - EINVAL) := by
  have hexit : ∀ (t : snd_pcm_substream) (e : Int), t.appl_ptr = s.appl_ptr →
      t.boundary = s.boundary → e < 0 →
      ((∀ t, (env.snd_pcm_start t).1 ≠ - EINVAL) → e ≠ - EINVAL) →
      some (end_unlock t 0 e) = some (r, s') →
      (∃ n, transfer_counts s 0 size r s' n) ∧
      ((∀ t hwoff off frames, (env.transfer t hwoff off frames).1 ≠ - EINVAL) →
        (∀ t, (env.snd_pcm_start t).1 ≠ - EINVAL) → r ≠ - EINVAL) := by
    intro t e ha hb he hne h
    obtain ⟨rfl, rfl⟩ : r = (end_unlock t 0 e).1 ∧ s' = (end_unlock t 0 e).2 := by
      rw [Option.some.inj h]
      exact ⟨rfl, rfl⟩
    obtain ⟨h1, h2⟩ := end_unlock_counts s t 0 size r ha hb hlt (fun _ => by omega)
    exact ⟨⟨0, h1⟩, fun _ hS => h2 (hne hS)⟩
  have hbody : ∀ (t : snd_pcm_substream) (e : Int), t.appl_ptr = s.appl_ptr →
      t.boundary = s.boundary → t.buffer_size = s.buffer_size → e ≤ 0 →
      ((∀ t, (env.snd_pcm_start t).1 ≠ - EINVAL) → e ≠ - EINVAL) →
      read1_body env t size nonblock fuel e = some (r, s') →
      (∃ n, transfer_counts s 0 size r s' n) ∧
      ((∀ t hwoff off frames, (env.transfer t hwoff off frames).1 ≠ - EINVAL) →
        (∀ t, (env.snd_pcm_start t).1 ≠ - EINVAL) → r ≠ - EINVAL) := by
    intro t e k1 k2 k3 he hne h
    obtain ⟨h1, h2⟩ := read1_body_counts env henv s t size nonblock fuel e r s' k1 k2 k3 hB hle
      hlt he h
    exact ⟨h1, fun hT hS => h2 hT (hne hS)⟩
  unfold snd_pcm_lib_read1 at h
  split at h
  · cases h
    refine ⟨⟨0, le_refl _, Nat.zero_le _, ?_, rfl, fun h => absurd h (by decide),
      fun _ => le_refl _⟩, fun _ _ => by decide⟩
    exact (Nat.mod_eq_of_lt hlt).symm
  · split at h
    · split at h
      · have hks := henv.2.2 (record s Event.start)
        have hw0 := hstart (record s Event.start)
        generalize hwdef : env.snd_pcm_start (record s Event.start) = w at h hks hw0
        dsimp only at h
        split at h
        · rename_i hw
          exact hexit w.2 w.1 hks.1 hks.2.1 hw (fun hS => by rw [← hwdef]; exact hS _) h
        · exact hbody w.2 w.1 hks.1 hks.2.1 hks.2.2.1 hw0
            (fun hS => by rw [← hwdef]; exact hS _) h
      · exact hbody s 0 rfl rfl rfl (le_refl _) (fun _ => by decide) h
    · exact hbody s 0 rfl rfl rfl (le_refl _) (fun _ => by decide) h
    · exact hbody s 0 rfl rfl rfl (le_refl _) (fun _ => by decide) h
    · exact hbody s 0 rfl rfl rfl (le_refl _) (fun _ => by decide) h
    · exact hexit s (- EPIPE) rfl rfl (by decide) (fun _ => by decide) h
    · exact hexit s (- ESTRPIPE) rfl rfl (by decide) (fun _ => by decide) h
    · exact hexit s (- EBADFD) rfl rfl (by decide) (fun _ => by decide) h

/-! ### The invocations of the copy callback -/

/-- The environment `idle_env` keeps the ring. -/
theorem idle_env_keeps : callbacks_keep_ring idle_env :=
  ⟨fun _ _ => ⟨rfl, rfl, rfl, rfl, rfl⟩, fun _ _ _ _ => ⟨rfl, rfl, rfl, rfl, rfl⟩,
    fun _ => ⟨rfl, rfl, rfl, rfl, rfl⟩⟩

/-- The exit `_end_unlock` with frames transferred and no error: the count is
returned and `snd_pcm_update_state` is run with `twake` cleared. -/
theorem end_unlock_pos (s : snd_pcm_substream) (xfer : Nat) (err : Int) (hx : 0 < xfer)
    (he : 0 ≤ err) :
    end_unlock s xfer err = ((xfer : Int), (snd_pcm_update_state { s with twake := 0 }).2) := by
  unfold end_unlock
  dsimp only
  rw [if_pos hx, if_pos ⟨hx, he⟩]

/-- A chunk that is not empty, whose copy reports no error and leaves the stream
neither in `XRUN` nor `SUSPENDED`, is committed and counted. -/
theorem transfer_chunk_ok (env : pcm_env) (s : snd_pcm_substream) (size offset xfer avail : Nat)
    (hf : chunk_frames s size avail ≠ 0)
    (h1 : 0 ≤ (env.transfer (record s (Event.transfer (uint (s.appl_ptr % s.buffer_size)) (uint offset)
      (chunk_frames s size avail))) (uint (s.appl_ptr % s.buffer_size)) (uint offset)
      (chunk_frames s size avail)).1)
    (h2 : (env.transfer (record s (Event.transfer (uint (s.appl_ptr % s.buffer_size)) (uint offset)
      (chunk_frames s size avail))) (uint (s.appl_ptr % s.buffer_size)) (uint offset)
      (chunk_frames s size avail)).2.state ≠ snd_pcm_state.XRUN)
    (h3 : (env.transfer (record s (Event.transfer (uint (s.appl_ptr % s.buffer_size)) (uint offset)
      (chunk_frames s size avail))) (uint (s.appl_ptr % s.buffer_size)) (uint offset)
      (chunk_frames s size avail)).2.state ≠ snd_pcm_state.SUSPENDED) :
    transfer_chunk env s size offset xfer avail = Sum.inr
      (chunk_commit (env.transfer (record s (Event.transfer (uint (s.appl_ptr % s.buffer_size)) (uint offset)
        (chunk_frames s size avail))) (uint (s.appl_ptr % s.buffer_size)) (uint offset)
        (chunk_frames s size avail)).2 (s.appl_ptr + chunk_frames s size avail),
       size - chunk_frames s size avail, offset + chunk_frames s size avail,
       xfer + chunk_frames s size avail, avail - chunk_frames s size avail,
       (env.transfer (record s (Event.transfer (uint (s.appl_ptr % s.buffer_size)) (uint offset)
        (chunk_frames s size avail))) (uint (s.appl_ptr % s.buffer_size)) (uint offset)
        (chunk_frames s size avail)).1) := by
  have hfd : (if (if size > avail then avail else size) >
      s.buffer_size - s.appl_ptr % s.buffer_size then s.buffer_size - s.appl_ptr % s.buffer_size
      else (if size > avail then avail else size)) = chunk_frames s size avail := rfl
  unfold transfer_chunk
  dsimp only
  rw [hfd, if_neg hf, if_neg (by omega), if_neg h2, if_neg h3]
  rfl

/-- A committed chunk changes the application pointer and the trace only. -/
theorem chunk_commit_frame (t : snd_pcm_substream) (a : Nat) (ha : a < t.boundary) :
    ∃ tr, chunk_commit t a = { t with appl_ptr := a, trace := tr } := by
  have hge : ¬ (a ≥ t.boundary) := by omega
  unfold chunk_commit
  dsimp only
  rw [if_neg hge]
  split
  · exact ⟨_, rfl⟩
  · exact ⟨t.trace, rfl⟩

/-- C15: a non-blocking `snd_pcm_lib_write1` of `N` frames, `0 < N <= buffer_size`,
into a playback stream in state `PREPARED` with `hw_ptr = appl_ptr = 0` (and
`buffer_size < boundary`), when the copy callback succeeds and leaves the
substream alone and `snd_pcm_start` succeeds and moves the stream to `RUNNING`,
returns `N`.  The request is one chunk `transfer(0, 0, N)`, committed with
`appl_ptr = N`; the queued frame count is then `N`, and `snd_pcm_start` is
invoked right after this chunk if and only if `N >= start_threshold` (as a signed
value); the call ends with `snd_pcm_update_state` on the result. -/
theorem C15_start_at_threshold (env : pcm_env) (s : snd_pcm_substream) (N fuel : Nat)
    (_hp : s.stream = snd_pcm_stream.PLAYBACK) (hs : s.state = snd_pcm_state.PREPARED)
    (hhw : s.hw_ptr = 0) (ha : s.appl_ptr = 0) (hN : 0 < N) (hNB : N ≤ s.buffer_size)
    (hbd : s.buffer_size < s.boundary)
    (ht : ∀ t hwoff off frames, 0 ≤ (env.transfer t hwoff off frames).1 ∧
      (env.transfer t hwoff off frames).2 = t)
    (hst : ∀ t, 0 ≤ (env.snd_pcm_start t).1 ∧
      (env.snd_pcm_start t).2 = { t with state := snd_pcm_state.RUNNING }) :
    snd_pcm_lib_write1 env s N true (fuel + 1) =
      some ((N : Int), (snd_pcm_update_state
        { (if slong s.start_threshold ≤ (N : Int) then
            { record (chunk_commit (record { s with twake := avail_min_or_1 s }
                (Event.transfer 0 0 N)) N) Event.start with state := snd_pcm_state.RUNNING }
          else chunk_commit (record { s with twake := avail_min_or_1 s }
            (Event.transfer 0 0 N)) N) with twake := 0 }).2) ∧
    (chunk_commit (record { s with twake := avail_min_or_1 s } (Event.transfer 0 0 N)) N).appl_ptr
      = N ∧
    snd_pcm_playback_hw_avail
      (chunk_commit (record { s with twake := avail_min_or_1 s } (Event.transfer 0 0 N)) N)
      = (N : Int) := by
  have hnr : s.state ≠ snd_pcm_state.RUNNING := by rw [hs]; decide
  -- the state after the chunk
  obtain ⟨tr, hcf⟩ := chunk_commit_frame
    (record { s with twake := avail_min_or_1 s } (Event.transfer 0 0 N)) N
    (by show N < s.boundary; omega)
  have hav1 : snd_pcm_playback_hw_avail
      (chunk_commit (record { s with twake := avail_min_or_1 s } (Event.transfer 0 0 N)) N)
      = (N : Int) := by
    unfold snd_pcm_playback_hw_avail
    rw [playback_avail_eq _ (by rw [hcf]; show s.hw_ptr < s.boundary; omega)
      (by rw [hcf]; show N < s.boundary; omega) (by rw [hcf]; show s.buffer_size ≤ s.boundary; omega)]
    rw [hcf]
    show (s.buffer_size : Int) - (if (s.hw_ptr : Int) + s.buffer_size - (N : Nat) < 0 then _
      else if (s.hw_ptr : Int) + s.buffer_size - (N : Nat) ≥ s.boundary then _
      else (s.hw_ptr : Int) + s.buffer_size - (N : Nat)) = N
    rw [hhw]
    split
    · omega
    · split <;> omega
  refine ⟨?_, by rw [hcf], hav1⟩
  -- entry
  have hav0 : snd_pcm_playback_avail { s with twake := avail_min_or_1 s } = s.buffer_size := by
    have h := playback_avail_eq { s with twake := avail_min_or_1 s }
      (by show s.hw_ptr < s.boundary; omega) (by show s.appl_ptr < s.boundary; omega)
      (by show s.buffer_size ≤ s.boundary; omega)
    have h2 : (snd_pcm_playback_avail { s with twake := avail_min_or_1 s } : Int)
        = s.buffer_size := by
      rw [h]
      show (if (s.hw_ptr : Int) + s.buffer_size - s.appl_ptr < 0 then _
        else if (s.hw_ptr : Int) + s.buffer_size - s.appl_ptr ≥ s.boundary then _
        else (s.hw_ptr : Int) + s.buffer_size - s.appl_ptr) = _
      rw [hhw, ha]
      split
      · omega
      · split <;> omega
    exact Int.ofNat.inj h2
  rw [write1_enter env s N true (fuel + 1) (by omega) (Or.inl hs),
    transfer_update_hw_ptr_idle env { s with twake := avail_min_or_1 s } hnr]
  dsimp only [Option.bind]
  have hB0 : ¬ (s.buffer_size = 0) := by omega
  rw [hav0, write1_loop_succ _ _ _ _ _ _ _ _ _ _ hN, if_neg hB0]
  -- the chunk
  have hfr : chunk_frames { s with twake := avail_min_or_1 s } N s.buffer_size = N := by
    unfold chunk_frames
    dsimp only
    have h1 : ¬ (N > s.buffer_size) := by omega
    rw [ha, Nat.zero_mod, Nat.sub_zero, if_neg h1, if_neg h1]
  have hofs : ({ s with twake := avail_min_or_1 s } : snd_pcm_substream).appl_ptr %
      ({ s with twake := avail_min_or_1 s } : snd_pcm_substream).buffer_size = 0 := by
    show s.appl_ptr % s.buffer_size = 0
    rw [ha, Nat.zero_mod]
  have hap : ({ s with twake := avail_min_or_1 s } : snd_pcm_substream).appl_ptr + N = N := by
    show s.appl_ptr + N = N
    rw [ha, Nat.zero_add]
  have hq := ht (record { s with twake := avail_min_or_1 s } (Event.transfer 0 0 N)) 0 0 N
  have hc := transfer_chunk_ok env { s with twake := avail_min_or_1 s } N 0 0 s.buffer_size
    (by rw [hfr]; omega)
  have hu0 : uint 0 = 0 := Nat.zero_mod _
  rw [hfr, hofs, hap, hu0] at hc
  have hc2 := hc hq.1 (by rw [hq.2]; show s.state ≠ _; rw [hs]; decide)
    (by rw [hq.2]; show s.state ≠ _; rw [hs]; decide)
  unfold write1_chunk
  rw [hc2, hq.2]
  dsimp only
  generalize hgen : chunk_commit (record { s with twake := avail_min_or_1 s }
    (Event.transfer 0 0 N)) N = s1 at hav1 hcf ⊢
  have hs1 : s1.state = snd_pcm_state.PREPARED := by rw [hcf]; exact hs
  have hth : s1.start_threshold = s.start_threshold := by rw [hcf]; rfl
  have e1 : N - N = 0 := Nat.sub_self N
  have e2 : 0 + N = N := Nat.zero_add N
  by_cases hcond : slong s.start_threshold ≤ (N : Int)
  · rw [if_pos ⟨hs1, by rw [hav1, hth]; exact hcond⟩, if_pos hcond]
    have hw := hst (record s1 Event.start)
    have hw1 : ¬ ((env.snd_pcm_start (record s1 Event.start)).1 < 0) := by omega
    rw [if_neg hw1, e1, e2, write1_loop_done, hw.2, end_unlock_pos _ _ _ hN hw.1]
  · rw [if_neg (fun h => hcond (by rw [hav1, hth] at h; exact h.2)), if_neg hcond,
      e1, e2, write1_loop_done, end_unlock_pos _ _ _ hN hq.1]

/-- C15 (witness, Scenario 1): `buffer_size = 1024`, `period_size = 256`,
`boundary = 4096`, `start_threshold = 256`: a non-blocking write of 1024 frames
into the prepared ring returns 1024 and leaves the stream `RUNNING`, with
`appl_ptr = 1024`. -/
theorem C15_start_at_threshold_witness :
    snd_pcm_lib_write1 idle_env prepared_ring 1024 true (0 + 1)
      = some (1024, prepared_ring_written) ∧
    prepared_ring_written.state = snd_pcm_state.RUNNING ∧
    prepared_ring_written.appl_ptr = 1024 :=
  ⟨(C15_start_at_threshold idle_env prepared_ring 1024 0 rfl rfl rfl rfl (by decide) (by decide)
      (by decide) (fun _ _ _ _ => ⟨le_refl _, rfl⟩) (fun _ => ⟨le_refl _, rfl⟩)).1.trans
      (by decide), rfl, rfl⟩

/-- C11: partial success.  At the top of any iteration of the loop of
`snd_pcm_lib_write1` (on a playback stream) or of `snd_pcm_lib_read1`, with
`xfer` frames transferred so far and `err` not positive while `xfer = 0`, the
callbacks keeping the ring and `0 < buffer_size <= boundary`,
`appl_ptr < boundary`: whatever ends the loop, the result `r` is tied to the
number `n` of frames transferred when it ends, `xfer <= n <= xfer + size`, by
which the application pointer has advanced modulo `boundary`: `r = n` whenever
`n > 0`, so that `r < 0` only when `n = 0`; in particular once `xfer > 0` the
result is a frame count `r >= xfer`, never an error code. -/
theorem C11_partial_success (env : pcm_env) (henv : callbacks_keep_ring env) (nonblock : Bool)
    (wfuel fuel : Nat) (s : snd_pcm_substream) (size offset xfer avail : Nat) (err r : Int)
    (s' : snd_pcm_substream) (hB : 0 < s.buffer_size) (hle : s.buffer_size ≤ s.boundary)
    (hlt : s.appl_ptr < s.boundary) (herr : xfer = 0 → err ≤ 0) :
    (s.stream = snd_pcm_stream.PLAYBACK →
      write1_loop env nonblock wfuel fuel s size offset xfer avail err = some (r, s') →
      ∃ n, xfer ≤ n ∧ n ≤ xfer + size ∧
        s'.appl_ptr = (s.appl_ptr + (n - xfer)) % s.boundary ∧
        (0 < n → r = (n : Int)) ∧ (r < 0 → n = 0) ∧ (0 < xfer → (xfer : Int) ≤ r)) ∧
    (read1_loop env nonblock wfuel fuel s size offset xfer avail err = some (r, s') →
      ∃ n, xfer ≤ n ∧ n ≤ xfer + size ∧
        s'.appl_ptr = (s.appl_ptr + (n - xfer)) % s.boundary ∧
        (0 < n → r = (n : Int)) ∧ (r < 0 → n = 0) ∧ (0 < xfer → (xfer : Int) ≤ r)) := by
  have hfin : ∀ n, transfer_counts s xfer size r s' n →
      xfer ≤ n ∧ n ≤ xfer + size ∧
        s'.appl_ptr = (s.appl_ptr + (n - xfer)) % s.boundary ∧
        (0 < n → r = (n : Int)) ∧ (r < 0 → n = 0) ∧ (0 < xfer → (xfer : Int) ≤ r) := by
    intro n hn
    obtain ⟨h1, h2, h3, _, h5, _⟩ := hn
    refine ⟨h1, h2, h3, h5, fun hr => ?_, fun hx => ?_⟩
    · by_cases h0 : 0 < n
      · have := h5 h0
        omega
      · omega
    · have := h5 (by omega)
      omega
  constructor
  · intro hst h
    obtain ⟨⟨n, hn⟩, _⟩ := write1_loop_spec env henv nonblock wfuel fuel s size offset xfer avail
      err r s' hst hB hle hlt herr h
    exact ⟨n, hfin n hn⟩
  · intro h
    obtain ⟨⟨n, hn⟩, _⟩ := read1_loop_spec env henv nonblock wfuel fuel s size offset xfer avail
      err r s' hB hle hlt herr h
    exact ⟨n, hfin n hn⟩

/-- C11 (witness): a blocking write of 2000 frames into the prepared ring of 1024
frames transfers 1024 frames, starts the stream and waits; the wait times out
(`-EIO`), and the call returns the 1024 frames transferred. -/
theorem C11_partial_success_witness :
    write1_loop idle_env false 8 8 prepared_ring 2000 0 0 1024 0
      = some (1024, prepared_ring_timed_out) ∧
    ∃ n, 0 ≤ n ∧ n ≤ 0 + 2000 ∧
      prepared_ring_timed_out.appl_ptr = (prepared_ring.appl_ptr + (n - 0)) % prepared_ring.boundary ∧
      (0 < n → (1024 : Int) = (n : Int)) ∧ ((1024 : Int) < 0 → n = 0) ∧
      (0 < 0 → ((0 : Nat) : Int) ≤ 1024) :=
  ⟨by decide,
    (C11_partial_success idle_env idle_env_keeps false 8 8 prepared_ring 2000 0 0 1024 0 1024
      prepared_ring_timed_out (by decide) (by decide) (by decide) (fun _ => le_refl _)).1 rfl
      (by decide)⟩

/-- C14: the accounting of the application pointer.  For a call of
`snd_pcm_lib_write1` on a playback stream, or of `snd_pcm_lib_read1` when
`snd_pcm_start` returns `0` or a negative code, that starts with
`appl_ptr < boundary` and `0 < buffer_size <= boundary`, the callbacks keeping
the ring (`appl_ptr`, `boundary`, `buffer_size`, `twake` and the direction): if
the call returns `r` and leaves `s'`, then `s'.appl_ptr` is
`(appl_ptr + n) mod boundary` with `n = r` when `r > 0` and `n = 0` otherwise,
and `s'.appl_ptr < boundary` for the unchanged `boundary`. -/
theorem C14_appl_ptr_accounting (env : pcm_env) (henv : callbacks_keep_ring env)
    (s : snd_pcm_substream) (size : Nat) (nonblock : Bool) (fuel : Nat) (r : Int)
    (s' : snd_pcm_substream) (hB : 0 < s.buffer_size) (hle : s.buffer_size ≤ s.boundary)
    (hlt : s.appl_ptr < s.boundary) :
    (s.stream = snd_pcm_stream.PLAYBACK →
      snd_pcm_lib_write1 env s size nonblock fuel = some (r, s') →
      s'.appl_ptr = (s.appl_ptr + (if 0 < r then r.toNat else 0)) % s.boundary ∧
      s'.appl_ptr < s'.boundary ∧ s'.boundary = s.boundary) ∧
    ((∀ t, (env.snd_pcm_start t).1 ≤ 0) →
      snd_pcm_lib_read1 env s size nonblock fuel = some (r, s') →
      s'.appl_ptr = (s.appl_ptr + (if 0 < r then r.toNat else 0)) % s.boundary ∧
      s'.appl_ptr < s'.boundary ∧ s'.boundary = s.boundary) := by
  have hfin : ∀ n, transfer_counts s 0 size r s' n →
      s'.appl_ptr = (s.appl_ptr + (if 0 < r then r.toNat else 0)) % s.boundary ∧
      s'.appl_ptr < s'.boundary ∧ s'.boundary = s.boundary := by
    intro n hn
    obtain ⟨_, _, h3, h4, h5, h6⟩ := hn
    have hn0 : (if 0 < r then r.toNat else 0) = n := by
      by_cases h0 : 0 < n
      · have := h5 h0
        rw [if_pos (by omega)]
        omega
      · have := h6 (by omega)
        rw [if_neg (by omega)]
        omega
    rw [hn0, h4, h3]
    exact ⟨rfl, Nat.mod_lt _ (by omega), rfl⟩
  constructor
  · intro hst h
    obtain ⟨⟨n, hn⟩, _⟩ := write1_counts env henv s size nonblock fuel r s' hst hB hle hlt h
    exact hfin n hn
  · intro hstart h
    obtain ⟨⟨n, hn⟩, _⟩ := read1_counts env henv s size nonblock fuel r s' hstart hB hle hlt h
    exact hfin n hn

/-- C14 (witness): the write of 96 frames that starts at `appl_ptr = 4000` with
`boundary = 4096` returns 96 and leaves `appl_ptr = 0`. -/
theorem C14_appl_ptr_accounting_witness :
    snd_pcm_lib_write1 idle_env ring_before_boundary 96 true 2
      = some (96, ring_after_boundary) ∧
    ring_after_boundary.appl_ptr
      = (ring_before_boundary.appl_ptr + (if 0 < (96 : Int) then (96 : Int).toNat else 0))
          % ring_before_boundary.boundary ∧
    ring_after_boundary.appl_ptr < ring_after_boundary.boundary ∧
    ring_after_boundary.boundary = ring_before_boundary.boundary :=
  ⟨by decide,
    (C14_appl_ptr_accounting idle_env idle_env_keeps ring_before_boundary 96 true 2 96
      ring_after_boundary (by decide) (by decide) (by decide)).1 rfl (by decide)⟩

/-! ### C21: the outcome of a wait -/

/-- C21: one pass of the loop of `wait_for_avail`.  A pending signal ends the wait
with `-ERESTARTSYS`; otherwise enough available frames (`avail >= twake`) end it
with `0` and `*availp = avail`; otherwise the state found after the wake-up
decides: `SUSPENDED` gives `-ESTRPIPE`, `XRUN` gives `-EPIPE`, `DRAINING` gives
`-EPIPE` for playback and `0` with `*availp = 0` for capture, `OPEN`, `SETUP` and
`DISCONNECTED` give `-EBADFD`, `PAUSED` goes on waiting whatever the timeout
returned, and in the other states (`PREPARED`, `RUNNING`) an expired timeout
gives `-EIO`, which is not the xrun code `-EPIPE`, while an unexpired one goes on
waiting.  The function `wait_for_avail` is this loop, started with `avail = 0`. -/
theorem C21_wait_outcome (env : pcm_env) (is_playback : Bool) (wait_time : Option Nat)
    (fuel : Nat) (s : snd_pcm_substream) (avail0 : Nat) :
    let avail := if is_playback = true then snd_pcm_playback_avail s else snd_pcm_capture_avail s
    let r := env.schedule_timeout (record s Event.schedule_timeout) wait_time
    let wait := wait_for_avail_loop env is_playback wait_time
    (env.signal_pending s = true → wait fuel s avail0 = some (- ERESTARTSYS, avail0, s)) ∧
    (env.signal_pending s = false → avail ≥ s.twake → wait fuel s avail0 = some (0, avail, s)) ∧
    (env.signal_pending s = false → avail < s.twake →
      (r.2.state = snd_pcm_state.SUSPENDED →
        wait (fuel + 1) s avail0 = some (- ESTRPIPE, avail, r.2)) ∧
      (r.2.state = snd_pcm_state.XRUN →
        wait (fuel + 1) s avail0 = some (- EPIPE, avail, r.2)) ∧
      (r.2.state = snd_pcm_state.DRAINING → is_playback = true →
        wait (fuel + 1) s avail0 = some (- EPIPE, avail, r.2)) ∧
      (r.2.state = snd_pcm_state.DRAINING → is_playback = false →
        wait (fuel + 1) s avail0 = some (0, 0, r.2)) ∧
      (r.2.state = snd_pcm_state.OPEN ∨ r.2.state = snd_pcm_state.SETUP ∨
          r.2.state = snd_pcm_state.DISCONNECTED →
        wait (fuel + 1) s avail0 = some (- EBADFD, avail, r.2)) ∧
      (r.2.state = snd_pcm_state.PAUSED →
        wait (fuel + 1) s avail0 = wait fuel r.2 avail) ∧
      (r.2.state = snd_pcm_state.PREPARED ∨ r.2.state = snd_pcm_state.RUNNING →
        (r.1 = 0 → wait (fuel + 1) s avail0 = some (- EIO, avail, r.2)) ∧
        (r.1 ≠ 0 → wait (fuel + 1) s avail0 = wait fuel r.2 avail))) ∧
    - EIO ≠ - EPIPE ∧
    wait_for_avail env s fuel =
      wait_for_avail_loop env (decide (s.stream = snd_pcm_stream.PLAYBACK))
        (wait_for_avail_time s) fuel s 0 := by
  intro avail r wait
  refine ⟨fun hsig => ?_, fun hsig hav => ?_, fun hsig hav => ?_, by decide, rfl⟩
  · show wait_for_avail_loop env is_playback wait_time fuel s avail0 = _
    unfold wait_for_avail_loop
    rw [if_pos hsig]
  · show wait_for_avail_loop env is_playback wait_time fuel s avail0 = _
    unfold wait_for_avail_loop
    rw [if_neg (by rw [hsig]; decide)]
    dsimp only
    rw [if_pos hav]
  · have hstep : wait (fuel + 1) s avail0 =
        match r.2.state with
        | snd_pcm_state.SUSPENDED => some (- ESTRPIPE, avail, r.2)
        | snd_pcm_state.XRUN => some (- EPIPE, avail, r.2)
        | snd_pcm_state.DRAINING =>
          if is_playback = true then some (- EPIPE, avail, r.2) else some (0, 0, r.2)
        | snd_pcm_state.OPEN => some (- EBADFD, avail, r.2)
        | snd_pcm_state.SETUP => some (- EBADFD, avail, r.2)
        | snd_pcm_state.DISCONNECTED => some (- EBADFD, avail, r.2)
        | snd_pcm_state.PAUSED => wait fuel r.2 avail
        | _ => if r.1 = 0 then some (- EIO, avail, r.2) else wait fuel r.2 avail := by
      show wait_for_avail_loop env is_playback wait_time (fuel + 1) s avail0 = _
      rw [wait_for_avail_loop]
      rw [if_neg (by rw [hsig]; decide)]
      dsimp only
      rw [if_neg (by omega)]
    refine ⟨fun h => ?_, fun h => ?_, fun h hp => ?_, fun h hp => ?_, fun h => ?_, fun h => ?_,
      fun h => ⟨fun ht => ?_, fun ht => ?_⟩⟩
    · rw [hstep, h]
    · rw [hstep, h]
    · rw [hstep, h]; dsimp only; rw [if_pos hp]
    · rw [hstep, h]; dsimp only; rw [if_neg (by rw [hp]; decide)]
    · rcases h with h | h | h <;> rw [hstep, h]
    · rw [hstep, h]
    · rcases h with h | h <;> rw [hstep, h] <;> dsimp only <;> rw [if_pos ht]
    · rcases h with h | h <;> rw [hstep, h] <;> dsimp only <;> rw [if_neg ht]

/-- C21 (witness): a playback stream that waits for 256 frames on the full ring
of a running stream, where nothing happens until the timeout expires: the wait
ends with `-EIO` after one call of `schedule_timeout`. -/
theorem C21_wait_outcome_witness :
    wait_for_avail_loop idle_env true (some 10) 1 { full_ring with twake := 256 } 0
      = some (- EIO, 0, record { full_ring with twake := 256 } Event.schedule_timeout) :=
  (((C21_wait_outcome idle_env true (some 10) 0 { full_ring with twake := 256 } 0).2.2.1 rfl
    (by decide)).2.2.2.2.2.2 (Or.inr rfl)).1 rfl

/-! ### C23: the reset of the hardware pointer -/

/-- The code from `no_delta_check` on always returns. -/
theorem hw_ptr_commit_returns (s : snd_pcm_substream) (j : Nat) (in_interrupt : Bool)
    (v : hw_ptr_locals) : ∃ r s', hw_ptr_commit s j in_interrupt v = some (r, s') := by
  by_cases h : s.hw_ptr = v.new_hw_ptr
  · exact ⟨0, s, (hw_ptr_commit_spec s j in_interrupt v).1 h⟩
  · obtain ⟨r, s', hc, _⟩ := hw_ptr_commit_moves s j in_interrupt v h
    exact ⟨r, s', hc⟩

/-- The loop of the `no_period_wakeup` branch ends when every pass takes at least
one jiffy off `hdelta`. -/
theorem no_period_wakeup_loop_returns (s : snd_pcm_substream) (pos : Nat) (thr : Int)
    (hb : 0 < s.hw_ptr_buffer_jiffies) (ht : 0 ≤ thr) (fuel : Nat) (hdelta : Int)
    (v : hw_ptr_locals) (hf : hdelta ≤ (fuel : Int)) :
    ∃ v', no_period_wakeup_loop s pos thr fuel hdelta v = some v' := by
  induction fuel generalizing hdelta v with
  | zero =>
    unfold no_period_wakeup_loop
    rw [if_neg (by omega)]
    exact ⟨v, rfl⟩
  | succ n ih =>
    unfold no_period_wakeup_loop
    split
    · exact ih _ _ (by omega)
    · exact ⟨v, rfl⟩

/-- The position update returns when period wake-ups are on, and also without
them when a buffer lasts at least one jiffy. -/
theorem update_hw_ptr0_returns (s : snd_pcm_substream) (pos j : Nat) (in_interrupt : Bool)
    (h : s.no_period_wakeup = false ∨ 0 < s.hw_ptr_buffer_jiffies) :
    ∃ r s', snd_pcm_update_hw_ptr0 s pos j in_interrupt = some (r, s') := by
  unfold snd_pcm_update_hw_ptr0
  split
  · exact ⟨_, _, rfl⟩
  · unfold hw_ptr_from_delta
    dsimp only
    split
    · rename_i hn
      have hb : 0 < s.hw_ptr_buffer_jiffies := by
        rcases h with h | h
        · rw [h] at hn
          exact absurd hn (by decide)
        · exact h
      split
      · exact hw_ptr_commit_returns _ _ _ _
      · generalize hd :
          ((jiffies_sub j s.hw_ptr_jiffies : Nat) : Int) - Int.tdiv
            (hw_ptr_delta s (hw_ptr_at_delta s (hw_ptr_pos s pos) j in_interrupt) * (s.HZ : Int))
            (s.rate : Int) = hdelta
        obtain ⟨v', hv⟩ := no_period_wakeup_loop_returns s (hw_ptr_pos s pos)
          ((s.hw_ptr_buffer_jiffies / 2 + 1 : Nat) : Int) hb (by omega) hdelta.toNat hdelta
          (hw_ptr_at_delta s (hw_ptr_pos s pos) j in_interrupt) (by omega)
        rw [hv]
        exact hw_ptr_commit_returns _ _ _ _
    · split
      · exact ⟨_, _, rfl⟩
      · exact hw_ptr_commit_returns _ _ _ _

/-- C23 (counterexample): a running playback stream with `buffer_size = 1024`,
`hw_ptr_base = 1024`, `hw_ptr = 1500`, whose driver reports the raw offset 476
(the pointer has not moved).  The reset returns `0` and leaves `hw_ptr = 476`,
the offset of the pointer in the ring, not `0`. -/
theorem C23_counterexample :
    let s : snd_pcm_substream := { full_ring with hw_ptr_base := 1024, hw_ptr := 1500, appl_ptr := 2000 }
    let env : pcm_env := { idle_env with pointer := fun _ => 476 }
    snd_pcm_lib_ioctl env s snd_pcm_ioctl1.RESET false 0 = some (0, { s with hw_ptr := 476 }) ∧
    (476 : Nat) ≠ 0 := by
  decide

/-- C23 (amended): the reset operation (`snd_pcm_lib_ioctl` with
`SNDRV_PCM_IOCTL1_RESET`) returns `0`.  When the stream is not running it leaves
`hw_ptr = 0` (and `hw_ptr_wrap = 0`), and so it does when the stream is running
and the position update reports an error; when the stream is running and the
position update succeeds, it leaves the updated pointer reduced modulo
`buffer_size`, its offset in the ring.  The operation returns whenever the
position update does, which is the case with period wake-ups on or a buffer
that lasts at least one jiffy; `hw_ptr` is then below `buffer_size`. -/
theorem C23_reset_hw_ptr (env : pcm_env) (s : snd_pcm_substream) (info_mmap : Bool)
    (width : Int) :
    (snd_pcm_running s = false →
      snd_pcm_lib_ioctl env s snd_pcm_ioctl1.RESET info_mmap width
        = some (0, { s with hw_ptr := 0, hw_ptr_wrap := 0 })) ∧
    (snd_pcm_running s = true → ∀ r s1,
      snd_pcm_update_hw_ptr s (env.pointer s) (env.jiffies s) = some (r, s1) →
      snd_pcm_lib_ioctl env s snd_pcm_ioctl1.RESET info_mmap width
        = some (0, if r ≥ 0 then { s1 with hw_ptr := s1.hw_ptr % s1.buffer_size }
            else { s1 with hw_ptr := 0, hw_ptr_wrap := 0 })) ∧
    (s.no_period_wakeup = false ∨ 0 < s.hw_ptr_buffer_jiffies →
      ∃ s', snd_pcm_lib_ioctl env s snd_pcm_ioctl1.RESET info_mmap width = some (0, s') ∧
        (0 < s.buffer_size → s'.hw_ptr < s.buffer_size)) := by
  have h1 : snd_pcm_running s = false →
      snd_pcm_lib_ioctl env s snd_pcm_ioctl1.RESET info_mmap width
        = some (0, { s with hw_ptr := 0, hw_ptr_wrap := 0 }) := by
    intro hr
    show snd_pcm_lib_ioctl_reset env s = _
    unfold snd_pcm_lib_ioctl_reset
    rw [if_neg (by rw [hr]; decide)]
  have h2 : snd_pcm_running s = true → ∀ r s1,
      snd_pcm_update_hw_ptr s (env.pointer s) (env.jiffies s) = some (r, s1) →
      snd_pcm_lib_ioctl env s snd_pcm_ioctl1.RESET info_mmap width
        = some (0, if r ≥ 0 then { s1 with hw_ptr := s1.hw_ptr % s1.buffer_size }
            else { s1 with hw_ptr := 0, hw_ptr_wrap := 0 }) := by
    intro hr r s1 hu
    show snd_pcm_lib_ioctl_reset env s = _
    unfold snd_pcm_lib_ioctl_reset
    rw [if_pos hr, hu]
    dsimp only
    split <;> rfl
  refine ⟨h1, h2, fun hret => ?_⟩
  cases hr : snd_pcm_running s with
  | false =>
    exact ⟨_, h1 hr, fun hb => hb⟩
  | true =>
    obtain ⟨r, s1, hu⟩ := update_hw_ptr0_returns s (env.pointer s) (env.jiffies s) false hret
    have hk := update_hw_ptr0_keeps s (env.pointer s) (env.jiffies s) false r s1 hu
    refine ⟨_, h2 hr r s1 hu, fun hb => ?_⟩
    have hbs : s1.buffer_size = s.buffer_size := hk.2.2.1
    split
    · show s1.hw_ptr % s1.buffer_size < s.buffer_size
      rw [hbs]
      exact Nat.mod_lt _ hb
    · exact hb

/-- C23 (witness): the reset of a stream in state `PREPARED`. -/
theorem C23_reset_hw_ptr_witness :
    snd_pcm_lib_ioctl idle_env { prepared_ring with hw_ptr := 700 } snd_pcm_ioctl1.RESET false 0
      = some (0, { prepared_ring with hw_ptr := 0, hw_ptr_wrap := 0 }) :=
  (C23_reset_hw_ptr idle_env { prepared_ring with hw_ptr := 700 } false 0).1 (by decide)

/-! ### C24: the channel-map tables -/

/-- C24: the channel-map tables.  The entry of `snd_pcm_std_chmaps` for 6 channels
is FL, FR, RL, RR, FC, LFE; both tables have entries for 1, 2, 4, 6 and 8
channels followed by a zero terminator; `snd_pcm_alt_chmaps` equals the standard
table for 1, 2 and 4 channels (and in the terminator), and its entries for 6 and
8 channels are the standard entries with the pair of slots 2-3 (RL, RR)
exchanged with the pair of slots 4-5 (FC, LFE), every other slot being the same,
which makes them differ from the standard ones; no position repeats among the
first `channels` slots of an entry. -/
theorem C24_chmap_tables :
    snd_pcm_std_chmaps.map (fun e => e.channels) = [1, 2, 4, 6, 8, 0] ∧
    snd_pcm_alt_chmaps.map (fun e => e.channels) = [1, 2, 4, 6, 8, 0] ∧
    (snd_pcm_std_chmaps.get? 3).map (fun e => (e.channels, e.map.take 6))
      = some (6, [snd_chmap.FL, snd_chmap.FR, snd_chmap.RL, snd_chmap.RR,
          snd_chmap.FC, snd_chmap.LFE]) ∧
    snd_pcm_alt_chmaps.take 3 = snd_pcm_std_chmaps.take 3 ∧
    snd_pcm_alt_chmaps.drop 5 = snd_pcm_std_chmaps.drop 5 ∧
    (snd_pcm_alt_chmaps.drop 3).take 2 =
      ((snd_pcm_std_chmaps.drop 3).take 2).map (fun e =>
        { e with
          map := e.map.take 2 ++ (e.map.drop 4).take 2 ++ (e.map.drop 2).take 2
            ++ e.map.drop 6 }) ∧
    (snd_pcm_alt_chmaps.get? 3 ≠ snd_pcm_std_chmaps.get? 3 ∧
      snd_pcm_alt_chmaps.get? 4 ≠ snd_pcm_std_chmaps.get? 4) ∧
    (snd_pcm_std_chmaps ++ snd_pcm_alt_chmaps).all
      (fun e => decide ((e.map.take e.channels).Nodup ∧ e.map.length = SNDRV_CHMAP_SLOTS))
      = true := by
  decide

/-! ### C26: the pointer invariant -/

/-- The position after the range check and the alignment is an offset of the
ring. -/
theorem hw_ptr_pos_lt (s : snd_pcm_substream) (pos : Nat) (hb : 0 < s.buffer_size) :
    hw_ptr_pos s pos < s.buffer_size := by
  unfold hw_ptr_pos
  dsimp only
  split <;> omega

/-- One advance of the base keeps it a multiple of `buffer_size` below
`boundary`. -/
theorem hw_base_advance_in_buffer (s : snd_pcm_substream) (pos : Nat) (v : hw_ptr_locals)
    (hp : pos < s.buffer_size)
    (h : v.hw_base % s.buffer_size = 0 ∧ v.hw_base < s.boundary) :
    locals_in_buffer s (hw_base_advance s v pos) := by
  obtain ⟨h1, h2⟩ := h
  unfold hw_base_advance locals_in_buffer
  dsimp only
  split
  · dsimp only
    exact ⟨Nat.zero_mod _, by omega, by omega, by omega⟩
  · dsimp only
    refine ⟨?_, by omega, by omega, by omega⟩
    rw [Nat.add_mod, h1, Nat.mod_self]
    rfl

/-- The locals at the label `__delta` keep the pointer invariant. -/
theorem hw_ptr_at_delta_in_buffer (s : snd_pcm_substream) (pos j : Nat) (in_interrupt : Bool)
    (hp : pos < s.buffer_size) (h1 : s.hw_ptr_base % s.buffer_size = 0)
    (h2 : s.hw_ptr_base < s.boundary) :
    locals_in_buffer s (hw_ptr_at_delta s pos j in_interrupt) := by
  unfold hw_ptr_at_delta
  dsimp only
  have ha := hw_base_advance_in_buffer s pos
    { hw_base := s.hw_ptr_base, new_hw_ptr := s.hw_ptr_base + pos, crossed_boundary := 0 } hp
    ⟨h1, h2⟩
  split
  · exact ha
  · split
    · exact ha
    · exact ⟨h1, h2, by show s.hw_ptr_base ≤ s.hw_ptr_base + pos; omega,
        by show s.hw_ptr_base + pos < s.hw_ptr_base + s.buffer_size; omega⟩

/-- The loop of the `no_period_wakeup` branch keeps the pointer invariant. -/
theorem no_period_wakeup_loop_in_buffer (s : snd_pcm_substream) (pos : Nat) (thr : Int)
    (hp : pos < s.buffer_size) (fuel : Nat) (hdelta : Int) (v v' : hw_ptr_locals)
    (h : locals_in_buffer s v)
    (hl : no_period_wakeup_loop s pos thr fuel hdelta v = some v') : locals_in_buffer s v' := by
  induction fuel generalizing hdelta v with
  | zero =>
    unfold no_period_wakeup_loop at hl
    split at hl
    · simp at hl
    · simp only [Option.some.injEq] at hl
      exact hl ▸ h
  | succ n ih =>
    unfold no_period_wakeup_loop at hl
    split at hl
    · exact ih _ _ (hw_base_advance_in_buffer s pos v hp ⟨h.1, h.2.1⟩) hl
    · simp only [Option.some.injEq] at hl
      exact hl ▸ h

/-- The loop of the jiffies check keeps the pointer below `boundary`. -/
theorem jiffies_skip_loop_lt (s : snd_pcm_substream) (hper : s.period_size ≤ s.boundary)
    (n new_hw_ptr : Nat) (c : Int) (h : new_hw_ptr < s.boundary) :
    (jiffies_skip_loop s n new_hw_ptr c).1 < s.boundary := by
  induction n generalizing new_hw_ptr c with
  | zero => exact h
  | succ k ih =>
    unfold jiffies_skip_loop
    dsimp only
    split
    · exact ih _ _ (by omega)
    · exact ih _ _ (by omega)

/-- The jiffies check keeps the pointer invariant. -/
theorem hw_ptr_jiffies_check_in_buffer (s : snd_pcm_substream) (j : Nat) (v : hw_ptr_locals)
    (delta : Int) (hb : 0 < s.buffer_size)
    (hh : s.hw_ptr < s.boundary)
    (hper : xrun_debug s XRUN_DEBUG_JIFFIESCHECK = 0 ∨ s.period_size ≤ s.boundary)
    (h : locals_in_buffer s v) : locals_in_buffer s (hw_ptr_jiffies_check s j v delta) := by
  unfold hw_ptr_jiffies_check
  split
  · exact h
  · rename_i hx
    have hper' : s.period_size ≤ s.boundary := by
      rcases hper with hper | hper
      · exact absurd hper hx
      · exact hper
    split
    · exact h
    · split
      · exact h
      · dsimp only
        split
        · generalize hn : (jiffies_skip_loop s
            (jiffies_sub j s.hw_ptr_jiffies / (s.period_size * s.HZ / s.rate + s.HZ / 100))
            s.hw_ptr v.crossed_boundary) = q
          have hq : q.1 < s.boundary := by
            rw [← hn]
            exact jiffies_skip_loop_lt s hper' _ _ _ hh
          unfold locals_in_buffer
          dsimp only
          have hm := Nat.mod_lt q.1 hb
          have hd := Nat.div_add_mod q.1 s.buffer_size
          have he : q.1 - q.1 % s.buffer_size = s.buffer_size * (q.1 / s.buffer_size) := by omega
          refine ⟨?_, by omega, by omega, by omega⟩
          rw [he, Nat.mul_mod_right]
        · exact h

/-- A commit of locals that keep the pointer invariant leaves a substream that
satisfies it. -/
theorem hw_ptr_commit_invariant (s : snd_pcm_substream) (j : Nat) (in_interrupt : Bool)
    (v : hw_ptr_locals) (hinv : hw_ptr_invariant s) (hv : locals_in_buffer s v) (r : Int)
    (s' : snd_pcm_substream) (hc : hw_ptr_commit s j in_interrupt v = some (r, s')) :
    hw_ptr_invariant s' := by
  by_cases hq : s.hw_ptr = v.new_hw_ptr
  · rw [(hw_ptr_commit_spec s j in_interrupt v).1 hq] at hc
    simp only [Option.some.injEq, Prod.mk.injEq] at hc
    rw [← hc.2]
    exact hinv
  · obtain ⟨r1, s1, hc1, hp, hb, _, _, _, hbs, hB, _⟩ := hw_ptr_commit_moves s j in_interrupt v hq
    rw [hc1] at hc
    simp only [Option.some.injEq, Prod.mk.injEq] at hc
    rw [← hc.2]
    unfold hw_ptr_invariant
    rw [hp, hb, hbs, hB]
    exact ⟨hinv.1, hv.1, hv.2.1, hv.2.2.1, hv.2.2.2⟩

/-- Every way through the position update: the call reports an xrun of the
driver, or leaves the substream alone, or commits locals that keep the pointer
invariant. -/
theorem update_hw_ptr0_paths (s : snd_pcm_substream) (pos j : Nat) (in_interrupt : Bool)
    (hinv : hw_ptr_invariant s)
    (hper : xrun_debug s XRUN_DEBUG_JIFFIESCHECK = 0 ∨ s.period_size ≤ s.boundary)
    (r : Int) (s' : snd_pcm_substream)
    (hu : snd_pcm_update_hw_ptr0 s pos j in_interrupt = some (r, s')) :
    s' = xrun s ∨ s' = s ∨
      ∃ v, locals_in_buffer s v ∧ hw_ptr_commit s j in_interrupt v = some (r, s') := by
  obtain ⟨i1, i2, i3, i4, i5⟩ := hinv
  have hb : 0 < s.buffer_size := by omega
  have hle := base_add_buffer_le _ _ _ i2 i1 i3
  have hp := hw_ptr_pos_lt s pos hb
  have hv := hw_ptr_at_delta_in_buffer s (hw_ptr_pos s pos) j in_interrupt hp i2 i3
  unfold snd_pcm_update_hw_ptr0 at hu
  split at hu
  · simp only [Option.some.injEq, Prod.mk.injEq] at hu
    exact Or.inl hu.2.symm
  · unfold hw_ptr_from_delta at hu
    dsimp only at hu
    split at hu
    · split at hu
      · exact Or.inr (Or.inr ⟨_, hv, hu⟩)
      · split at hu
        · simp at hu
        · rename_i v1 hl
          exact Or.inr (Or.inr ⟨v1,
            no_period_wakeup_loop_in_buffer s _ _ hp _ _ _ v1 hv hl, hu⟩)
    · split at hu
      · simp only [Option.some.injEq, Prod.mk.injEq] at hu
        exact Or.inr (Or.inl hu.2.symm)
      · exact Or.inr (Or.inr ⟨_,
          hw_ptr_jiffies_check_in_buffer s j _ _ hb (by omega) hper hv, hu⟩)

/-- C26: the pointer invariant (`boundary` and `hw_ptr_base` multiples of
`buffer_size`, `hw_ptr_base < boundary`, `hw_ptr_base <= hw_ptr < hw_ptr_base +
buffer_size`) is preserved by every call of `snd_pcm_update_hw_ptr0`, in either
context, with or without `no_period_wakeup`, for every raw position, and with
the debug jiffies check off or on; with the check on the period is taken to fit
in the boundary (`period_size <= boundary`).  The new `hw_ptr` is below
`boundary`.  The call returns when period wake-ups are on, and also without them
when a buffer lasts at least one jiffy. -/
theorem C26_pointer_invariant (s : snd_pcm_substream) (pos j : Nat) (in_interrupt : Bool)
    (hinv : hw_ptr_invariant s)
    (hper : xrun_debug s XRUN_DEBUG_JIFFIESCHECK = 0 ∨ s.period_size ≤ s.boundary) :
    (∀ r s', snd_pcm_update_hw_ptr0 s pos j in_interrupt = some (r, s') →
      hw_ptr_invariant s' ∧ s'.hw_ptr < s'.boundary) ∧
    (s.no_period_wakeup = false ∨ 0 < s.hw_ptr_buffer_jiffies →
      ∃ r s', snd_pcm_update_hw_ptr0 s pos j in_interrupt = some (r, s')) := by
  refine ⟨fun r s' hu => ?_, update_hw_ptr0_returns s pos j in_interrupt⟩
  have hi : hw_ptr_invariant s' := by
    rcases update_hw_ptr0_paths s pos j in_interrupt hinv hper r s' hu with h | h | ⟨v, hv, hc⟩
    · rw [h]
      exact hinv
    · rw [h]
      exact hinv
    · exact hw_ptr_commit_invariant s j in_interrupt v hinv hv r s' hc
  refine ⟨hi, ?_⟩
  obtain ⟨i1, i2, i3, i4, i5⟩ := hi
  have := base_add_buffer_le _ _ _ i2 i1 i3
  omega

/-- C26 (witness): the stream of `ring_near_boundary`, with the debug jiffies
check on, 100 frames before the boundary, when the raw offset 400 is read 42
jiffies after the last update. -/
theorem C26_pointer_invariant_witness :
    (∀ r s', snd_pcm_update_hw_ptr0 ring_near_boundary 400 42 false = some (r, s') →
      hw_ptr_invariant s' ∧ s'.hw_ptr < s'.boundary) ∧
    (ring_near_boundary.no_period_wakeup = false ∨ 0 < ring_near_boundary.hw_ptr_buffer_jiffies →
      ∃ r s', snd_pcm_update_hw_ptr0 ring_near_boundary 400 42 false = some (r, s')) :=
  C26_pointer_invariant ring_near_boundary 400 42 false (by decide) (Or.inr (by decide))

/-! ### C27: the distance check outside interrupt context -/

/-- The value `hw_ptr_interrupt` after its update in interrupt context: the old
value advanced, modulo `boundary`, by the largest multiple of `period_size` that
does not exceed the distance to the new pointer. -/
theorem hw_ptr_interrupt_update_spec (s : snd_pcm_substream) (new_hw_ptr : Nat)
    (hP : 0 < s.period_size) (hBP : s.boundary % s.period_size = 0)
    (hi : s.hw_ptr_interrupt < s.boundary) (hiP : s.hw_ptr_interrupt % s.period_size = 0)
    (hn : new_hw_ptr < s.boundary) (hL : s.boundary ≤ LONG_MAX) :
    (hw_ptr_interrupt_update s new_hw_ptr).hw_ptr_interrupt =
      (s.hw_ptr_interrupt +
        (((new_hw_ptr : Int) - (s.hw_ptr_interrupt : Int)) % (s.boundary : Int)).toNat
          / s.period_size * s.period_size) % s.boundary ∧
    (hw_ptr_interrupt_update s new_hw_ptr).hw_ptr_interrupt < s.boundary ∧
    (hw_ptr_interrupt_update s new_hw_ptr).hw_ptr_interrupt % s.period_size = 0 ∧
    (((new_hw_ptr : Int) - ((hw_ptr_interrupt_update s new_hw_ptr).hw_ptr_interrupt : Int))
      % (s.boundary : Int)).toNat < s.period_size := by
  have hPB : s.period_size ≤ s.boundary :=
    Nat.le_of_dvd (by omega) (Nat.dvd_of_mod_eq_zero hBP)
  have hmod : ((new_hw_ptr : Int) - (s.hw_ptr_interrupt : Int)) % (s.boundary : Int)
      = if (new_hw_ptr : Int) - (s.hw_ptr_interrupt : Int) < 0 then
          (new_hw_ptr : Int) - (s.hw_ptr_interrupt : Int) + (s.boundary : Int)
        else (new_hw_ptr : Int) - (s.hw_ptr_interrupt : Int) := by
    rw [emod_cases _ _ (by omega) (by omega)]
    split
    · rfl
    · rw [if_neg (by omega)]
  rw [hmod]
  unfold hw_ptr_interrupt_update
  dsimp only
  generalize hd1 : (if (new_hw_ptr : Int) - (s.hw_ptr_interrupt : Int) < 0 then
      (new_hw_ptr : Int) - (s.hw_ptr_interrupt : Int) + (s.boundary : Int)
    else (new_hw_ptr : Int) - (s.hw_ptr_interrupt : Int)) = delta1
  have hr1 : 0 ≤ delta1 ∧ delta1 < s.boundary := by
    rw [← hd1]
    split <;> omega
  have hu1 : ulong delta1 = delta1.toNat := by
    unfold LONG_MAX at hL
    exact ulong_of_nonneg _ hr1.1 (by unfold ULONG_MAX; omega)
  rw [hu1]
  generalize hd : delta1.toNat = d
  have hdd : (d : Int) = delta1 := by omega
  have hdm := Nat.div_add_mod d s.period_size
  have hml := Nat.mod_lt d hP
  rw [Nat.mul_comm] at hdm
  generalize hq : d / s.period_size * s.period_size = qP at hdm
  generalize hm : d % s.period_size = m at hdm hml
  have hqdvd : s.period_size ∣ qP := by
    rw [← hq]
    exact Nat.dvd_mul_left _ _
  have hu2 : ulong ((s.hw_ptr_interrupt : Int) + (delta1 - (m : Int)))
      = s.hw_ptr_interrupt + qP := by
    unfold LONG_MAX at hL
    rw [ulong_of_nonneg _ (by omega) (by unfold ULONG_MAX; omega)]
    omega
  rw [hu2]
  have hdvd : s.period_size ∣ s.hw_ptr_interrupt + qP :=
    Nat.dvd_add (Nat.dvd_of_mod_eq_zero hiP) hqdvd
  by_cases hge : s.hw_ptr_interrupt + qP ≥ s.boundary
  · rw [if_pos hge]
    have hlt : s.hw_ptr_interrupt + qP - s.boundary < s.boundary := by omega
    refine ⟨?_, hlt, ?_, ?_⟩
    · rw [Nat.mod_eq_sub_mod hge, Nat.mod_eq_of_lt hlt]
    · exact Nat.mod_eq_zero_of_dvd (Nat.dvd_sub' hdvd (Nat.dvd_of_mod_eq_zero hBP))
    · rw [emod_cases _ _ (by omega) (by omega)]
      rw [← hd1] at hdd
      split at hdd <;> split <;> try split
      all_goals omega
  · rw [if_neg hge]
    have hlt : s.hw_ptr_interrupt + qP < s.boundary := by omega
    refine ⟨?_, hlt, ?_, ?_⟩
    · rw [Nat.mod_eq_of_lt hlt]
    · exact Nat.mod_eq_zero_of_dvd hdvd
    · rw [emod_cases _ _ (by omega) (by omega)]
      rw [← hd1] at hdd
      split at hdd <;> split <;> try split
      all_goals omega

/-- In interrupt context a commit that moves the pointer stores the updated
`hw_ptr_interrupt`. -/
theorem hw_ptr_commit_interrupt (s : snd_pcm_substream) (j : Nat) (v : hw_ptr_locals)
    (h : s.hw_ptr ≠ v.new_hw_ptr) :
    ∃ r s', hw_ptr_commit s j true v = some (r, s') ∧ s'.hw_ptr = v.new_hw_ptr ∧
      s'.hw_ptr_interrupt = (hw_ptr_interrupt_update s v.new_hw_ptr).hw_ptr_interrupt ∧
      s'.boundary = s.boundary ∧ s'.period_size = s.period_size := by
  unfold hw_ptr_commit
  rw [if_neg h]
  dsimp only
  have h1 : ∃ a b tr, (if s.stream = snd_pcm_stream.PLAYBACK ∧ s.silence_size > 0 then
      snd_pcm_playback_silence s v.new_hw_ptr else some s)
      = some { s with silence_start := a, silence_filled := b, trace := tr } := by
    split
    · exact snd_pcm_playback_silence_frame s v.new_hw_ptr
    · exact ⟨s.silence_start, s.silence_filled, s.trace, rfl⟩
  obtain ⟨a, b, tr, h1⟩ := h1
  rw [h1]
  dsimp only
  simp only [if_true]
  generalize hX : hw_ptr_store (hw_ptr_interrupt_update
    { s with silence_start := a, silence_filled := b, trace := tr } v.new_hw_ptr) j v = X
  have hX1 : X.hw_ptr = v.new_hw_ptr := by rw [← hX]; rfl
  have hX2 : X.hw_ptr_interrupt = (hw_ptr_interrupt_update s v.new_hw_ptr).hw_ptr_interrupt := by
    rw [← hX]; rfl
  have hX3 : X.boundary = s.boundary := by rw [← hX]; rfl
  have hX4 : X.period_size = s.period_size := by rw [← hX]; rfl
  obtain ⟨m, st, tr', h3⟩ := snd_pcm_update_state_frame X
  refine ⟨(snd_pcm_update_state X).1, (snd_pcm_update_state X).2, rfl, ?_, ?_, ?_, ?_⟩
  · rw [h3]; exact hX1
  · rw [h3]; exact hX2
  · rw [h3]; exact hX3
  · rw [h3]; exact hX4

/-- Outside interrupt context the commit leaves `hw_ptr_interrupt` alone. -/
theorem hw_ptr_commit_keeps_interrupt (s : snd_pcm_substream) (j : Nat) (v : hw_ptr_locals)
    (r : Int) (s' : snd_pcm_substream) (h : hw_ptr_commit s j false v = some (r, s')) :
    s'.hw_ptr_interrupt = s.hw_ptr_interrupt := by
  by_cases hm : s.hw_ptr = v.new_hw_ptr
  · rw [(hw_ptr_commit_spec s j false v).1 hm] at h
    cases h
    rfl
  · obtain ⟨r', s1, hc, _, _, _, _, hi, _⟩ := hw_ptr_commit_moves s j false v hm
    rw [hc] at h
    cases h
    exact hi rfl

/-- Outside interrupt context the position update leaves `hw_ptr_interrupt`
alone. -/
theorem update_hw_ptr0_keeps_interrupt (s : snd_pcm_substream) (pos j : Nat)
    (r : Int) (s' : snd_pcm_substream)
    (h : snd_pcm_update_hw_ptr0 s pos j false = some (r, s')) :
    s'.hw_ptr_interrupt = s.hw_ptr_interrupt := by
  unfold snd_pcm_update_hw_ptr0 at h
  split at h
  · cases h
    rfl
  · dsimp only at h
    unfold hw_ptr_from_delta at h
    dsimp only at h
    split at h
    · split at h
      · exact hw_ptr_commit_keeps_interrupt _ _ _ _ _ h
      · split at h
        · cases h
        · exact hw_ptr_commit_keeps_interrupt _ _ _ _ _ h
    · split at h
      · cases h
        rfl
      · exact hw_ptr_commit_keeps_interrupt _ _ _ _ _ h

/-- Every way through the position update, in any state: the call reports an
xrun of the driver, or leaves the substream alone, or is a commit. -/
theorem update_hw_ptr0_commits (s : snd_pcm_substream) (pos j : Nat) (in_interrupt : Bool)
    (r : Int) (s' : snd_pcm_substream)
    (hu : snd_pcm_update_hw_ptr0 s pos j in_interrupt = some (r, s')) :
    s' = xrun s ∨ s' = s ∨ ∃ v, hw_ptr_commit s j in_interrupt v = some (r, s') := by
  unfold snd_pcm_update_hw_ptr0 at hu
  split at hu
  · simp only [Option.some.injEq, Prod.mk.injEq] at hu
    exact Or.inl hu.2.symm
  · unfold hw_ptr_from_delta at hu
    dsimp only at hu
    split at hu
    · split at hu
      · exact Or.inr (Or.inr ⟨_, hu⟩)
      · split at hu
        · simp at hu
        · rename_i v1 hl
          exact Or.inr (Or.inr ⟨v1, hu⟩)
    · split at hu
      · simp only [Option.some.injEq, Prod.mk.injEq] at hu
        exact Or.inr (Or.inl hu.2.symm)
      · exact Or.inr (Or.inr ⟨_, hu⟩)

/-- C29: for every state with `period_size > 0`, `boundary % period_size == 0`,
`hw_ptr_interrupt < boundary` and `hw_ptr_interrupt % period_size == 0`
(`boundary` a `long`), a call of `snd_pcm_update_hw_ptr0` in interrupt context
that commits a new pointer, itself a position modulo `boundary`, leaves
`hw_ptr_interrupt` below `boundary` and a multiple of `period_size`: the old
value advanced, modulo `boundary`, by the largest multiple of `period_size` not
exceeding `(new hw_ptr - old hw_ptr_interrupt) mod boundary`, so that
`(hw_ptr - hw_ptr_interrupt) mod boundary < period_size` afterwards.  From a
state that satisfies the pointer invariant every committed pointer is below
`boundary`.  A call outside interrupt context never changes `hw_ptr_interrupt`,
in any state. -/
theorem C29_interrupt_tracking (s : snd_pcm_substream) (pos j : Nat)
    (hP : 0 < s.period_size) (hBP : s.boundary % s.period_size = 0)
    (hi : s.hw_ptr_interrupt < s.boundary) (hiP : s.hw_ptr_interrupt % s.period_size = 0)
    (hL : s.boundary ≤ LONG_MAX) :
    (∀ r s', snd_pcm_update_hw_ptr0 s pos j true = some (r, s') → s'.hw_ptr ≠ s.hw_ptr →
      s'.hw_ptr < s.boundary →
      s'.hw_ptr_interrupt < s'.boundary ∧ s'.hw_ptr_interrupt % s'.period_size = 0 ∧
      s'.hw_ptr_interrupt =
        (s.hw_ptr_interrupt +
          (((s'.hw_ptr : Int) - (s.hw_ptr_interrupt : Int)) % (s.boundary : Int)).toNat
            / s.period_size * s.period_size) % s.boundary ∧
      (((s'.hw_ptr : Int) - (s'.hw_ptr_interrupt : Int)) % (s'.boundary : Int)).toNat
        < s'.period_size) ∧
    (hw_ptr_invariant s → ∀ r s', snd_pcm_update_hw_ptr0 s pos j true = some (r, s') →
      s'.hw_ptr < s.boundary) ∧
    (∀ r s', snd_pcm_update_hw_ptr0 s pos j false = some (r, s') →
      s'.hw_ptr_interrupt = s.hw_ptr_interrupt) := by
  have hPB : s.period_size ≤ s.boundary :=
    Nat.le_of_dvd (by omega) (Nat.dvd_of_mod_eq_zero hBP)
  refine ⟨fun r s' hu hne hlt => ?_, fun hinv r s' hu => ?_,
    update_hw_ptr0_keeps_interrupt s pos j⟩
  · rcases update_hw_ptr0_commits s pos j true r s' hu with h | h | ⟨v, hc⟩
    · rw [h] at hne
      exact absurd rfl hne
    · rw [h] at hne
      exact absurd rfl hne
    · by_cases hq : s.hw_ptr = v.new_hw_ptr
      · rw [(hw_ptr_commit_spec s j true v).1 hq] at hc
        cases hc
        exact absurd rfl hne
      · obtain ⟨r1, s1, hc1, hp, hint, hB, hper⟩ := hw_ptr_commit_interrupt s j v hq
        rw [hc1] at hc
        cases hc
        rw [hp] at hlt
        obtain ⟨e1, e2, e3, e4⟩ :=
          hw_ptr_interrupt_update_spec s v.new_hw_ptr hP hBP hi hiP hlt hL
        rw [hp, hint, hB, hper]
        exact ⟨e2, e3, e1, e4⟩
  · have hk := update_hw_ptr0_keeps s pos j true r s' hu
    have hi' : hw_ptr_invariant s' := by
      rcases update_hw_ptr0_paths s pos j true hinv (Or.inr hPB) r s' hu with h | h | ⟨v, hv, hc⟩
      · rw [h]
        exact hinv
      · rw [h]
        exact hinv
      · exact hw_ptr_commit_invariant s j true v hinv hv r s' hc
    obtain ⟨i1, i2, i3, i4, i5⟩ := hi'
    have := base_add_buffer_le _ _ _ i2 i1 i3
    rw [← hk.2.1]
    omega

/-- C29 (witness): the first period interrupt of the full ring, with the raw
offset 256 read 5 jiffies after the start. -/
theorem C29_interrupt_tracking_witness :
    (∀ r s', snd_pcm_update_hw_ptr0 full_ring 256 5 true = some (r, s') →
      s'.hw_ptr ≠ full_ring.hw_ptr → s'.hw_ptr < full_ring.boundary →
      s'.hw_ptr_interrupt < s'.boundary ∧ s'.hw_ptr_interrupt % s'.period_size = 0 ∧
      s'.hw_ptr_interrupt =
        (full_ring.hw_ptr_interrupt +
          (((s'.hw_ptr : Int) - (full_ring.hw_ptr_interrupt : Int))
              % (full_ring.boundary : Int)).toNat
            / full_ring.period_size * full_ring.period_size) % full_ring.boundary ∧
      (((s'.hw_ptr : Int) - (s'.hw_ptr_interrupt : Int)) % (s'.boundary : Int)).toNat
        < s'.period_size) ∧
    (hw_ptr_invariant full_ring →
      ∀ r s', snd_pcm_update_hw_ptr0 full_ring 256 5 true = some (r, s') →
      s'.hw_ptr < full_ring.boundary) ∧
    (∀ r s', snd_pcm_update_hw_ptr0 full_ring 256 5 false = some (r, s') →
      s'.hw_ptr_interrupt = full_ring.hw_ptr_interrupt) :=
  C29_interrupt_tracking full_ring 256 5 (by decide) (by decide) (by decide) (by decide)
    (by decide)

/-! ### C22, C25: the silence written in threshold mode -/

/-- The frames written by a trace with one more call. -/
theorem silence_written_append (tr : List Event) (e : Event) (ch : Int) :
    silence_written (tr ++ [e]) ch = silence_written tr ch + silence_written [e] ch := by
  unfold silence_written
  rw [List.map_append, List.sum_append]

/-- The frames written by the per-channel calls of one chunk. -/
theorem foldl_record_written (ofs transfer : Nat) (ch : Int) (n : Nat) (s : snd_pcm_substream) :
    silence_written ((List.range n).foldl
        (fun (t : snd_pcm_substream) (c : Nat) =>
          record t (Event.silence (Int.ofNat c) ofs transfer)) s).trace ch
      = silence_written s.trace ch + (if 0 ≤ ch ∧ ch < (n : Int) then transfer else 0) := by
  induction n with
  | zero =>
    rw [List.range_zero, List.foldl_nil, if_neg (by omega)]
    rfl
  | succ k ih =>
    rw [List.range_succ, List.foldl_append, List.foldl_cons, List.foldl_nil]
    show silence_written (_ ++ [_]) ch = _
    rw [silence_written_append, ih]
    have h1 : silence_written [Event.silence (Int.ofNat k) ofs transfer] ch
        = if Int.ofNat k = ch then transfer else 0 := by
      unfold silence_written
      simp
    rw [h1]
    have hk : Int.ofNat k = (k : Int) := rfl
    rw [hk]
    split <;> split <;> split <;> omega

/-- The frames written by one chunk of silence. -/
theorem silence_chunk_written (s : snd_pcm_substream) (ofs transfer : Nat) (ch : Int) :
    silence_written (silence_chunk s ofs transfer).trace ch
      = silence_written s.trace ch + (if silence_channel s ch = true then transfer else 0) := by
  unfold silence_chunk silence_channel
  split
  · show silence_written (_ ++ [_]) ch = _
    rw [silence_written_append]
    have h1 : silence_written [Event.silence (-1) ofs transfer] ch
        = if (-1 : Int) = ch then transfer else 0 := by
      unfold silence_written
      simp
    rw [h1]
    by_cases hc : ch = -1
    · rw [if_pos hc.symm, if_pos (by simpa using hc)]
    · rw [if_neg (fun h => hc h.symm), if_neg (by simpa using hc)]
  · rw [foldl_record_written]
    by_cases hc : 0 ≤ ch ∧ ch < (s.channels : Int)
    · rw [if_pos hc, if_pos (by simpa using hc)]
    · rw [if_neg hc, if_neg (by simpa using hc)]

/-- One pass of the silence loop. -/
theorem silence_loop_succ (fuel : Nat) (s : snd_pcm_substream) (frames ofs : Nat)
    (h : 0 < frames) :
    silence_loop (fuel + 1) s frames ofs =
      silence_loop fuel
        { silence_chunk s ofs (if ofs + frames > s.buffer_size then s.buffer_size - ofs else frames)
          with silence_filled :=
            (silence_chunk s ofs
              (if ofs + frames > s.buffer_size then s.buffer_size - ofs else frames)).silence_filled
              + (if ofs + frames > s.buffer_size then s.buffer_size - ofs else frames) }
        (frames - (if ofs + frames > s.buffer_size then s.buffer_size - ofs else frames)) 0 := by
  rw [silence_loop]
  rw [if_pos h]

/-- The silence loop with nothing left to write. -/
theorem silence_loop_done (fuel : Nat) (s : snd_pcm_substream) (ofs : Nat) :
    silence_loop fuel s 0 ofs = some s := by
  unfold silence_loop
  rw [if_neg (by omega)]

/-- The silence loop writes the frames it is asked for and counts them in
`silence_filled`. -/
theorem silence_loop_counts (fuel : Nat) (s : snd_pcm_substream) (frames ofs : Nat)
    (hf : frames ≤ fuel) (ho : ofs < s.buffer_size) :
    ∃ s', silence_loop fuel s frames ofs = some s' ∧
      s'.silence_filled = s.silence_filled + frames ∧
      ∀ ch, silence_written s'.trace ch
        = silence_written s.trace ch + (if silence_channel s ch = true then frames else 0) := by
  induction fuel generalizing s frames ofs with
  | zero =>
    have h0 : frames = 0 := by omega
    subst h0
    exact ⟨s, silence_loop_done _ _ _, rfl, fun ch => by split <;> rfl⟩
  | succ n ih =>
    by_cases h0 : frames = 0
    · subst h0
      exact ⟨s, silence_loop_done _ _ _, rfl, fun ch => by split <;> rfl⟩
    · rw [silence_loop_succ n s frames ofs (by omega)]
      generalize ht : (if ofs + frames > s.buffer_size then s.buffer_size - ofs else frames) = t
      have ht1 : 0 < t ∧ t ≤ frames := by
        rw [← ht]
        split <;> omega
      obtain ⟨tr, hc⟩ := silence_chunk_frame s ofs t
      have hw := silence_chunk_written s ofs t
      rw [hc] at hw ⊢
      obtain ⟨s', hl, hfl, hwr⟩ := ih
        { s with silence_filled := s.silence_filled + t, trace := tr } (frames - t) 0
        (by omega) (by show 0 < s.buffer_size; omega)
      refine ⟨s', hl, ?_, fun ch => ?_⟩
      · rw [hfl]
        show s.silence_filled + t + (frames - t) = _
        omega
      · rw [hwr ch]
        have := hw ch
        have hsc : silence_channel { s with silence_filled := s.silence_filled + t, trace := tr } ch
            = silence_channel s ch := rfl
        rw [hsc]
        show silence_written tr ch + _ = _
        change silence_written tr ch = _ at this
        rw [this]
        split <;> omega

/-- The tail of `snd_pcm_playback_silence` on a count that fits the buffer: it
writes the frames and counts them in `silence_filled`. -/
theorem silence_fill_counts (s : snd_pcm_substream) (frames : Nat)
    (hb : frames ≤ s.buffer_size) :
    ∃ s', silence_fill s frames = some s' ∧
      s'.silence_filled = s.silence_filled + frames ∧ s'.silence_start = s.silence_start ∧
      ∀ ch, silence_written s'.trace ch
        = silence_written s.trace ch + (if silence_channel s ch = true then frames else 0) := by
  unfold silence_fill
  rw [if_neg (by omega)]
  by_cases h0 : frames = 0
  · rw [if_pos h0]
    subst h0
    exact ⟨s, rfl, rfl, rfl, fun ch => by split <;> rfl⟩
  · rw [if_neg h0]
    obtain ⟨s', hl, hf, hw⟩ := silence_loop_counts frames s frames
      (s.silence_start % s.buffer_size) (Nat.le_refl _) (Nat.mod_lt _ (by omega))
    obtain ⟨b, tr, he⟩ := silence_loop_frame _ _ _ _ _ hl
    exact ⟨s', hl, hf, by rw [he], hw⟩

/-- C25: the amount of silence written in threshold mode
(`silence_size < boundary`), for pointers below `boundary` and sizes in the range
of `long`.  With `filled` the value of `silence_filled` after the adjustment for
the movement of `appl_ptr` (reduced by `(appl_ptr - silence_start) mod boundary`
and floored at `0`, `silence_start` becoming `appl_ptr`) and
`noise_dist = playback hw_avail + filled`: the call writes nothing and leaves
`silence_filled = filled` when `filled >= buffer_size`, when
`noise_dist >= silence_threshold`, or when the amount
`min(silence_threshold - noise_dist, silence_size)` exceeds `buffer_size`;
otherwise it writes exactly that amount of frames (for every channel it writes
to) and adds it to `silence_filled`. -/
theorem C25_threshold_silence (s : snd_pcm_substream) (new_hw_ptr : Nat)
    (hsz : s.silence_size < s.boundary) (ha : s.appl_ptr < s.boundary)
    (hs : s.silence_start < s.boundary) (hL : s.boundary ≤ LONG_MAX)
    (ht : s.silence_threshold ≤ LONG_MAX) :
    let dist : Nat := (((s.appl_ptr : Int) - (s.silence_start : Int)) % (s.boundary : Int)).toNat
    let filled : Nat := s.silence_filled - dist
    let noise_dist : Int := snd_pcm_playback_hw_avail s + (filled : Int)
    let amount : Nat := min ((s.silence_threshold : Int) - noise_dist).toNat s.silence_size
    ∃ s', snd_pcm_playback_silence s new_hw_ptr = some s' ∧ s'.silence_start = s.appl_ptr ∧
      (filled ≥ s.buffer_size ∨ noise_dist ≥ (s.silence_threshold : Int) ∨
          amount > s.buffer_size →
        s'.silence_filled = filled ∧ s'.trace = s.trace) ∧
      (filled < s.buffer_size → noise_dist < (s.silence_threshold : Int) →
          amount ≤ s.buffer_size →
        s'.silence_filled = filled + amount ∧
        ∀ ch, silence_written s'.trace ch
          = silence_written s.trace ch + (if silence_channel s ch = true then amount else 0)) := by
  intro dist filled noise_dist amount
  have hdist : ((s.appl_ptr : Int) - (s.silence_start : Int)) % (s.boundary : Int)
      = if (s.appl_ptr : Int) - (s.silence_start : Int) < 0 then
          (s.appl_ptr : Int) - (s.silence_start : Int) + (s.boundary : Int)
        else (s.appl_ptr : Int) - (s.silence_start : Int) := by
    rw [emod_cases _ _ (by omega) (by omega)]
    split
    · rfl
    · rw [if_neg (by omega)]
  unfold snd_pcm_playback_silence
  rw [if_pos hsz]
  dsimp only
  generalize hg : (if s.silence_start ≠ s.appl_ptr then _ else s) = s1
  have hs1 : s1 = { s with silence_filled := filled, silence_start := s.appl_ptr } := by
    rw [← hg]
    by_cases he : s.silence_start = s.appl_ptr
    · rw [if_neg (by simpa using he)]
      have hd0 : dist = 0 := by
        show (((s.appl_ptr : Int) - (s.silence_start : Int)) % (s.boundary : Int)).toNat = 0
        rw [he, Int.sub_self, Int.zero_emod]
        rfl
      have hf : filled = s.silence_filled := by
        show s.silence_filled - dist = s.silence_filled
        rw [hd0]
        rfl
      rw [hf]
      have e1 : s = { s with silence_filled := s.silence_filled, silence_start := s.silence_start } :=
        rfl
      refine e1.trans ?_
      rw [he]
    · rw [if_pos he]
      generalize hn : (if (s.appl_ptr : Int) - (s.silence_start : Int) < 0 then
          (s.appl_ptr : Int) - (s.silence_start : Int) + (s.boundary : Int)
        else (s.appl_ptr : Int) - (s.silence_start : Int)) = n at hdist
      have hn0 : 0 ≤ n ∧ n < s.boundary := by
        rw [← hn]
        split <;> omega
      have hu : ulong n = dist := by
        unfold LONG_MAX at hL
        rw [ulong_of_nonneg _ hn0.1 (by unfold ULONG_MAX; omega)]
        show n.toNat = (((s.appl_ptr : Int) - (s.silence_start : Int)) % (s.boundary : Int)).toNat
        rw [hdist]
      rw [hu]
      have hf : (if dist < s.silence_filled then s.silence_filled - dist else 0) = filled := by
        show _ = s.silence_filled - dist
        split <;> omega
      rw [hf]
  subst hs1
  have hav : snd_pcm_playback_hw_avail
      { s with silence_filled := filled, silence_start := s.appl_ptr }
      = snd_pcm_playback_hw_avail s := rfl
  rw [hav]
  dsimp only
  have hsl : slong s.silence_threshold = (s.silence_threshold : Int) := by
    unfold slong ULONG_MOD
    unfold LONG_MAX at ht ⊢
    rw [if_pos (by omega)]
    omega
  rw [hsl]
  have hB : 0 < s.boundary := by omega
  have hpa : (snd_pcm_playback_avail s : Int) < s.boundary := by
    unfold snd_pcm_playback_avail
    have := Int.emod_lt_of_pos ((s.buffer_size : Int)
      - ((s.appl_ptr : Int) - (s.hw_ptr : Int)) % (s.boundary : Int))
      (show (0 : Int) < (s.boundary : Int) by omega)
    have := Int.emod_nonneg ((s.buffer_size : Int)
      - ((s.appl_ptr : Int) - (s.hw_ptr : Int)) % (s.boundary : Int))
      (show (s.boundary : Int) ≠ 0 by omega)
    omega
  have hnd : noise_dist = (s.buffer_size : Int) - (snd_pcm_playback_avail s : Int) + (filled : Int) :=
    rfl
  by_cases h1 : filled ≥ s.buffer_size
  · rw [if_pos h1]
    exact ⟨_, rfl, rfl, fun _ => ⟨rfl, rfl⟩, fun h => absurd h1 (by omega)⟩
  · rw [if_neg h1]
    by_cases h2 : noise_dist ≥ (s.silence_threshold : Int)
    · rw [if_pos h2]
      exact ⟨_, rfl, rfl, fun _ => ⟨rfl, rfl⟩, fun _ h => absurd h2 (by omega)⟩
    · rw [if_neg h2]
      have hfr : ulong ((s.silence_threshold : Int) - noise_dist)
          = ((s.silence_threshold : Int) - noise_dist).toNat := by
        unfold LONG_MAX at hL ht
        exact ulong_of_nonneg _ (by omega) (by unfold ULONG_MAX; omega)
      have hfr' : ulong ((s.silence_threshold : Int)
          - (snd_pcm_playback_hw_avail s + (filled : Int)))
          = ((s.silence_threshold : Int) - noise_dist).toNat := hfr
      rw [hfr']
      have ham : (if ((s.silence_threshold : Int) - noise_dist).toNat > s.silence_size then
          s.silence_size else ((s.silence_threshold : Int) - noise_dist).toNat) = amount := by
        show _ = min ((s.silence_threshold : Int) - noise_dist).toNat s.silence_size
        split <;> omega
      rw [ham]
      by_cases h3 : amount ≤ s.buffer_size
      · obtain ⟨s', hf, hfl, hst, hw⟩ := silence_fill_counts
          { s with silence_filled := filled, silence_start := s.appl_ptr } amount h3
        exact ⟨s', hf, hst, fun h => by
          rcases h with h | h | h
          · exact absurd h h1
          · exact absurd h h2
          · omega, fun _ _ _ => ⟨hfl, hw⟩⟩
      · have hf : silence_fill { s with silence_filled := filled, silence_start := s.appl_ptr }
            amount = some { s with silence_filled := filled, silence_start := s.appl_ptr } := by
          unfold silence_fill
          rw [if_pos (by show amount > s.buffer_size; omega)]
        exact ⟨_, hf, rfl, fun _ => ⟨rfl, rfl⟩, fun _ _ h => absurd h h3⟩

/-- C25 (witness): the stream `silence_ring` (`silence_threshold = silence_size =
8`, 4 frames queued for the hardware, nothing silenced): the call writes 4 frames
of silence. -/
theorem C25_threshold_silence_witness :
    ∃ s', snd_pcm_playback_silence silence_ring 1020 = some s' ∧
      s'.silence_start = 1022 ∧ s'.silence_filled = 4 ∧
      silence_written s'.trace (-1) = 4 := by
  obtain ⟨s', h, hst, _, hw⟩ := C25_threshold_silence silence_ring 1020 (by decide) (by decide)
    (by decide) (by decide) (by decide)
  obtain ⟨hf, hwr⟩ := hw (by decide) (by decide) (by decide)
  exact ⟨s', h, hst, hf, hwr (-1)⟩

/-- The offsets written by a trace with one more call. -/
theorem silence_offsets_append (tr : List Event) (e : Event) (ch : Int) :
    silence_offsets (tr ++ [e]) ch = silence_offsets tr ch ++ silence_offsets [e] ch := by
  unfold silence_offsets
  rw [List.flatMap_append]

/-- The offsets written by the per-channel calls of one chunk. -/
theorem foldl_record_offsets (ofs transfer : Nat) (ch : Int) (n : Nat) (s : snd_pcm_substream) :
    silence_offsets ((List.range n).foldl
        (fun (t : snd_pcm_substream) (c : Nat) =>
          record t (Event.silence (Int.ofNat c) ofs transfer)) s).trace ch
      = silence_offsets s.trace ch
        ++ (if 0 ≤ ch ∧ ch < (n : Int) then (List.range transfer).map (fun k => ofs + k)
            else []) := by
  induction n with
  | zero =>
    rw [List.range_zero, List.foldl_nil, if_neg (by omega), List.append_nil]
  | succ k ih =>
    rw [List.range_succ, List.foldl_append, List.foldl_cons, List.foldl_nil]
    show silence_offsets (_ ++ [_]) ch = _
    rw [silence_offsets_append, ih]
    have h1 : silence_offsets [Event.silence (Int.ofNat k) ofs transfer] ch
        = if Int.ofNat k = ch then (List.range transfer).map (fun k => ofs + k) else [] := by
      unfold silence_offsets
      simp
    rw [h1, List.append_assoc]
    congr 1
    have hk : Int.ofNat k = (k : Int) := rfl
    rw [hk]
    by_cases hc : (k : Int) = ch
    · rw [if_pos hc, if_neg (by omega), if_pos (by omega), List.nil_append]
    · rw [if_neg hc, List.append_nil]
      by_cases h2 : 0 ≤ ch ∧ ch < (k : Int)
      · rw [if_pos h2, if_pos (by omega)]
      · rw [if_neg h2, if_neg (by omega)]

/-- The offsets written by one chunk of silence. -/
theorem silence_chunk_offsets (s : snd_pcm_substream) (ofs transfer : Nat) (ch : Int) :
    silence_offsets (silence_chunk s ofs transfer).trace ch
      = silence_offsets s.trace ch
        ++ (if silence_channel s ch = true then (List.range transfer).map (fun k => ofs + k)
            else []) := by
  unfold silence_chunk silence_channel
  split
  · show silence_offsets (_ ++ [_]) ch = _
    rw [silence_offsets_append]
    have h1 : silence_offsets [Event.silence (-1) ofs transfer] ch
        = if (-1 : Int) = ch then (List.range transfer).map (fun k => ofs + k) else [] := by
      unfold silence_offsets
      simp
    rw [h1]
    by_cases hc : ch = -1
    · rw [if_pos hc.symm, if_pos (by simpa using hc)]
    · rw [if_neg (fun h => hc h.symm), if_neg (by simpa using hc)]
  · rw [foldl_record_offsets]
    by_cases hc : 0 ≤ ch ∧ ch < (s.channels : Int)
    · rw [if_pos hc, if_pos (by simpa using hc)]
    · rw [if_neg hc, if_neg (by simpa using hc)]

/-- The ring offsets of the frames `[first, first + a + b)`, split after `a`
frames. -/
theorem frame_offsets_split (s : snd_pcm_substream) (first a b : Nat) :
    frame_offsets s first (first + (a + b))
      = frame_offsets s first (first + a) ++ frame_offsets s (first + a) (first + a + b) := by
  unfold frame_offsets
  have e1 : first + (a + b) - first = a + b := by omega
  have e2 : first + a - first = a := by omega
  have e3 : first + a + b - (first + a) = b := by omega
  rw [e1, e2, e3, List.range_add, List.map_append, List.map_map]
  congr 1
  apply List.map_congr_left
  intro k _
  show (first + (a + k)) % s.buffer_size = (first + a + k) % s.buffer_size
  rw [Nat.add_assoc]

/-- The ring offsets of frames that do not reach the end of the ring. -/
theorem frame_offsets_eq (s : snd_pcm_substream) (first n : Nat)
    (h : first % s.buffer_size + n ≤ s.buffer_size) :
    frame_offsets s first (first + n)
      = (List.range n).map (fun k => first % s.buffer_size + k) := by
  unfold frame_offsets
  have e1 : first + n - first = n := by omega
  rw [e1]
  apply List.map_congr_left
  intro k hk
  have hk' : k < n := List.mem_range.mp hk
  show (first + k) % s.buffer_size = first % s.buffer_size + k
  rw [Nat.add_mod, Nat.mod_eq_of_lt (show k < s.buffer_size by omega)]
  exact Nat.mod_eq_of_lt (by omega)

/-- The silence loop on a count that does not reach the end of the ring: one
chunk, at the offset it was entered with. -/
theorem silence_loop_single (fuel : Nat) (s : snd_pcm_substream) (frames ofs : Nat)
    (hf : frames ≤ fuel) (h : ofs + frames ≤ s.buffer_size) :
    ∃ s', silence_loop fuel s frames ofs = some s' ∧
      ∀ ch, silence_offsets s'.trace ch
        = silence_offsets s.trace ch
          ++ (if silence_channel s ch = true then (List.range frames).map (fun k => ofs + k)
              else []) := by
  by_cases h0 : frames = 0
  · subst h0
    refine ⟨s, silence_loop_done _ _ _, fun ch => ?_⟩
    split <;> simp
  · obtain ⟨n, rfl⟩ : ∃ n, fuel = n + 1 := ⟨fuel - 1, by omega⟩
    rw [silence_loop_succ n s frames ofs (by omega)]
    rw [if_neg (by omega), Nat.sub_self, silence_loop_done]
    exact ⟨_, rfl, fun ch => silence_chunk_offsets s ofs frames ch⟩

/-- The tail of `snd_pcm_playback_silence` on a count that fits the buffer writes
the ring offsets of the frames `[silence_start, silence_start + frames)`,
whatever `silence_filled` is. -/
theorem silence_fill_offsets (s : snd_pcm_substream) (frames : Nat)
    (hb : frames ≤ s.buffer_size) :
    ∃ s', silence_fill s frames = some s' ∧
      ∀ ch, silence_offsets s'.trace ch
        = silence_offsets s.trace ch
          ++ (if silence_channel s ch = true then
                frame_offsets s s.silence_start (s.silence_start + frames)
              else []) := by
  unfold silence_fill
  rw [if_neg (by omega)]
  by_cases h0 : frames = 0
  · rw [if_pos h0]
    subst h0
    refine ⟨s, rfl, fun ch => ?_⟩
    unfold frame_offsets
    split <;> simp
  · rw [if_neg h0]
    have hbs : 0 < s.buffer_size := by omega
    have hofs := Nat.mod_lt s.silence_start hbs
    by_cases hw : s.silence_start % s.buffer_size + frames ≤ s.buffer_size
    · obtain ⟨s', hl, ho⟩ := silence_loop_single frames s frames
        (s.silence_start % s.buffer_size) (Nat.le_refl _) hw
      refine ⟨s', hl, fun ch => ?_⟩
      rw [ho ch, frame_offsets_eq s s.silence_start frames hw]
    · obtain ⟨n, hn⟩ : ∃ n, frames = n + 1 := ⟨frames - 1, by omega⟩
      generalize hofs' : s.silence_start % s.buffer_size = ofs at hofs hw
      have hstep := silence_loop_succ n s frames ofs (by omega)
      rw [if_pos (by omega)] at hstep
      have hfuel : silence_loop frames s frames ofs = silence_loop (n + 1) s frames ofs := by
        rw [hn]
      rw [hfuel, hstep]
      obtain ⟨tr, hc⟩ := silence_chunk_frame s ofs (s.buffer_size - ofs)
      have hco := silence_chunk_offsets s ofs (s.buffer_size - ofs)
      rw [hc] at hco ⊢
      obtain ⟨s', hl, ho⟩ := silence_loop_single n
        { s with silence_filled := s.silence_filled + (s.buffer_size - ofs), trace := tr }
        (frames - (s.buffer_size - ofs)) 0 (by omega)
        (by show 0 + (frames - (s.buffer_size - ofs)) ≤ s.buffer_size; omega)
      refine ⟨s', hl, fun ch => ?_⟩
      rw [ho ch]
      have hsc : silence_channel
          { s with silence_filled := s.silence_filled + (s.buffer_size - ofs), trace := tr } ch
          = silence_channel s ch := rfl
      rw [hsc]
      have h1 := hco ch
      change silence_offsets tr ch = _ at h1
      show silence_offsets tr ch ++ _ = _
      rw [h1, List.append_assoc]
      congr 1
      by_cases hs : silence_channel s ch = true
      · rw [if_pos hs, if_pos hs, if_pos hs]
        have hfr : frames = (s.buffer_size - ofs) + (frames - (s.buffer_size - ofs)) := by omega
        have hsplit := frame_offsets_split s s.silence_start (s.buffer_size - ofs)
          (frames - (s.buffer_size - ofs))
        rw [← hfr] at hsplit
        rw [hsplit]
        have hA := frame_offsets_eq s s.silence_start (s.buffer_size - ofs)
          (by rw [hofs']; omega)
        rw [hofs'] at hA
        have hmod0 : (s.silence_start + (s.buffer_size - ofs)) % s.buffer_size = 0 := by
          have hd := Nat.div_add_mod s.silence_start s.buffer_size
          rw [hofs'] at hd
          have e : s.silence_start + (s.buffer_size - ofs)
              = s.buffer_size * (s.silence_start / s.buffer_size + 1) := by
            rw [Nat.mul_add, Nat.mul_one]
            omega
          rw [e, Nat.mul_mod_right]
        have hB := frame_offsets_eq s (s.silence_start + (s.buffer_size - ofs))
          (frames - (s.buffer_size - ofs)) (by rw [hmod0]; omega)
        rw [hmod0] at hB
        rw [hA, hB]
      · rw [if_neg hs, if_neg hs, if_neg hs, List.append_nil]

/-- C22 (failing input): threshold mode with `silence_threshold = silence_size =
8` on a ring of 1024 frames, `appl_ptr = silence_start = 1022`.  With
`hw_ptr = 1018` a first call silences the 4 frames `[1022, 1026)` (ring offsets
1022, 1023, 0, 1) and leaves `silence_filled = 4`.  Once the hardware has played
2 more frames (`hw_ptr = 1020`) a second call finds `f0 = 4`, writes 2 frames
and returns with `f1 = 6`; it writes them at the ring offsets 1022 and 1023 of
the frames `[1022, 1024)`, which were silent already, and the offsets 2 and 3
of the frames `[silence_start + f0, silence_start + f1) = [1026, 1028)` are
written by neither call. -/
theorem C22_failing_input :
    (snd_pcm_playback_silence silence_ring 1020).map
        (fun t => (t.silence_start, t.silence_filled, t.trace))
      = some (1022, 4, silence_ring_filled.trace) ∧
    (snd_pcm_playback_silence { silence_ring_filled with hw_ptr := 1020 } 1021).map
        (fun t => (t.silence_start, t.silence_filled, t.trace))
      = some (1022, 6, silence_ring_filled.trace ++ [Event.silence (-1) 1022 2]) ∧
    silence_offsets [Event.silence (-1) 1022 2] (-1) = [1022, 1023] ∧
    frame_offsets silence_ring (1022 + 4) (1022 + 6) = [2, 3] ∧
    silence_offsets (silence_ring_filled.trace ++ [Event.silence (-1) 1022 2]) (-1)
      = [1022, 1023, 0, 1, 1022, 1023] := by
  decide!

/-! ### C28: the walk over the firmware log -/

/-- On the buffer `stuck_log` a call of `fw_log_ptr` at offset `0` succeeds and
leaves the offset at `0`. -/
theorem fw_log_ptr_stuck :
    fw_log_ptr sample_boot_api stuck_log.vaddr stuck_log.size 0
      = Except.ok (stuck_log.vaddr 0, 0) := by
  rfl

/-- The walk of `ivpu_fw_log_print` over `stuck_log` never ends. -/
theorem fw_log_print_loop_stuck (fuel : Nat) (printed : List vpu_tracing_buffer_header) :
    fw_log_print_loop sample_boot_api stuck_log fuel 0 printed = none := by
  induction fuel generalizing printed with
  | zero =>
    unfold fw_log_print_loop
    rw [fw_log_ptr_stuck]
  | succ n ih =>
    unfold fw_log_print_loop
    rw [fw_log_ptr_stuck]
    exact ih _

/-- The walk of `ivpu_fw_log_clear` over `stuck_log` never ends. -/
theorem fw_log_clear_loop_stuck (fuel : Nat) :
    fw_log_clear_loop sample_boot_api stuck_log.size fuel 0 stuck_log.vaddr = none := by
  induction fuel with
  | zero =>
    unfold fw_log_clear_loop
    rw [fw_log_ptr_stuck]
  | succ n ih =>
    unfold fw_log_clear_loop
    rw [fw_log_ptr_stuck]
    dsimp only
    have h : Function.update stuck_log.vaddr 0
        { stuck_log.vaddr 0 with read_index := (stuck_log.vaddr 0).write_index }
        = stuck_log.vaddr := by
      have hv : ({ stuck_log.vaddr 0 with read_index := (stuck_log.vaddr 0).write_index }
          : vpu_tracing_buffer_header) = stuck_log.vaddr 0 := by decide
      rw [hv, Function.update_eq_self]
    rw [h]
    exact ih

/-- A successful call of `fw_log_ptr` on a buffer of less than 4 GiB returns a
header that lies inside the buffer and adds its `size` to the offset. -/
theorem fw_log_ptr_ok (api : vpu_boot_api) (vaddr : Nat → vpu_tracing_buffer_header)
    (size offset : Nat) (hs : size < UINT_MOD) (h : vpu_tracing_buffer_header) (next : Nat)
    (hok : fw_log_ptr api vaddr size offset = Except.ok (h, next)) :
    h = vaddr offset ∧ offset + api.sizeof_header ≤ size ∧ offset + h.size ≤ size ∧
      next = offset + h.size := by
  unfold fw_log_ptr at hok
  split at hok
  · cases hok
  · dsimp only at hok
    split at hok
    · cases hok
    · split at hok
      · cases hok
      · split at hok
        · cases hok
        · simp only [Except.ok.injEq, Prod.mk.injEq] at hok
          obtain ⟨h1, h2⟩ := hok
          subst h1
          refine ⟨rfl, by omega, by omega, ?_⟩
          rw [← h2]
          exact Nat.mod_eq_of_lt (by omega)

/-- The walk of `ivpu_fw_log_print` ends on every buffer of less than 4 GiB in
which no header has the size `0`: each successful call of `fw_log_ptr` moves the
offset forward, and the offset stays inside the buffer. -/
theorem fw_log_print_loop_returns (api : vpu_boot_api) (log : ivpu_fw_log)
    (hs : log.size < UINT_MOD) (hpos : ∀ offset, 0 < (log.vaddr offset).size)
    (fuel next : Nat) (printed : List vpu_tracing_buffer_header)
    (hf : log.size < next + fuel) :
    ∃ out, fw_log_print_loop api log fuel next printed = some out := by
  induction fuel generalizing next printed with
  | zero =>
    unfold fw_log_print_loop
    cases hp : fw_log_ptr api log.vaddr log.size next with
    | error e => exact ⟨printed, rfl⟩
    | ok r =>
      obtain ⟨_, h2, _, _⟩ := fw_log_ptr_ok api log.vaddr log.size next hs r.1 r.2 hp
      omega
  | succ n ih =>
    unfold fw_log_print_loop
    cases hp : fw_log_ptr api log.vaddr log.size next with
    | error e => exact ⟨printed, rfl⟩
    | ok r =>
      obtain ⟨h1, _, _, h4⟩ := fw_log_ptr_ok api log.vaddr log.size next hs r.1 r.2 hp
      have := hpos next
      rw [← h1] at this
      exact ih _ _ (by omega)

/-- C28 (failing input): a log buffer of 4096 bytes whose first header has a
valid canary, a valid `header_size` and `size = 0`.  Every call of `fw_log_ptr`
at offset `0` passes the four checks and adds `0` to the offset, so neither the
walk of `ivpu_fw_log_print` nor the walks of `ivpu_fw_log_clear` end, whatever
the number of iterations allowed. -/
theorem C28_failing_input (fuel : Nat) :
    fw_log_ptr sample_boot_api stuck_log.vaddr stuck_log.size 0
      = Except.ok (stuck_log.vaddr 0, 0) ∧
    ivpu_fw_log_print sample_boot_api fuel [stuck_log] = none ∧
    ivpu_fw_log_clear sample_boot_api fuel stuck_log stuck_log = none := by
  refine ⟨fw_log_ptr_stuck, ?_, ?_⟩
  · unfold ivpu_fw_log_print
    rw [fw_log_print_loop_stuck]
  · unfold ivpu_fw_log_clear
    rw [fw_log_clear_loop_stuck]

/-! ### C30: the marking of a refined parameter -/

/-- The marking leaves the parameters alone when nothing is reported. -/
theorem hw_param_mark_zero (params : snd_pcm_hw_params) (var : Nat) :
    hw_param_mark params var 0 = params := by
  unfold hw_param_mark
  rw [if_neg (by decide)]

/-- The marking sets bit `var` of `cmask` and `rmask` for every non-zero value. -/
theorem hw_param_mark_nonzero (params : snd_pcm_hw_params) (var : Nat) (changed : Int)
    (h : changed ≠ 0) :
    (hw_param_mark params var changed).cmask = params.cmask ||| (1 <<< var) ∧
    (hw_param_mark params var changed).rmask = params.rmask ||| (1 <<< var) ∧
    (hw_param_mark params var changed).masks = params.masks ∧
    (hw_param_mark params var changed).intervals = params.intervals := by
  unfold hw_param_mark
  rw [if_pos h]
  exact ⟨rfl, rfl, rfl, rfl⟩

/-- The refinement of an interval to its first value: it returns `-EINVAL`, `0` or
`1`, and changes the interval only when it returns `1`. -/
theorem snd_interval_refine_first_result (i : snd_interval) :
    ((snd_interval_refine_first i).1 = - EINVAL ∧ i.empty = true ∧
        (snd_interval_refine_first i).2 = i) ∨
    ((snd_interval_refine_first i).1 = 0 ∧ (snd_interval_refine_first i).2 = i) ∨
    (snd_interval_refine_first i).1 = 1 := by
  unfold snd_interval_refine_first
  split
  · rename_i h
    exact Or.inl ⟨rfl, h, rfl⟩
  · split
    · exact Or.inr (Or.inl ⟨rfl, rfl⟩)
    · exact Or.inr (Or.inr rfl)

/-- The refinement of an interval to its last value: it returns `-EINVAL`, `0` or
`1`, and changes the interval only when it returns `1`. -/
theorem snd_interval_refine_last_result (i : snd_interval) :
    ((snd_interval_refine_last i).1 = - EINVAL ∧ i.empty = true ∧
        (snd_interval_refine_last i).2 = i) ∨
    ((snd_interval_refine_last i).1 = 0 ∧ (snd_interval_refine_last i).2 = i) ∨
    (snd_interval_refine_last i).1 = 1 := by
  unfold snd_interval_refine_last
  split
  · rename_i h
    exact Or.inl ⟨rfl, h, rfl⟩
  · split
    · exact Or.inr (Or.inl ⟨rfl, rfl⟩)
    · exact Or.inr (Or.inr rfl)

/-- What `_snd_pcm_hw_param_first` does to an interval parameter: when the
refinement returns `1` the bit of the parameter is set in `cmask` and `rmask`;
when it returns `0` the parameters are left as they are; when the interval is
empty the call returns `-EINVAL`, leaves the interval as it is, and sets the bit
in `cmask` and `rmask` all the same. -/
theorem hw_param_first_interval (params : snd_pcm_hw_params) (var : Nat)
    (hm : hw_is_mask var = false) (hi : hw_is_interval var = true) :
    let r := _snd_pcm_hw_param_first params var
    (r.1 = 1 ∨ r.1 = 0 ∨ r.1 = - EINVAL) ∧
    (r.1 = 1 → r.2.cmask = params.cmask ||| (1 <<< var) ∧
      r.2.rmask = params.rmask ||| (1 <<< var)) ∧
    (r.1 = 0 → r.2.cmask = params.cmask ∧ r.2.rmask = params.rmask ∧
      hw_param_interval_c r.2 var = hw_param_interval_c params var) ∧
    (r.1 = - EINVAL → r.2.cmask = params.cmask ||| (1 <<< var) ∧
      r.2.rmask = params.rmask ||| (1 <<< var) ∧
      hw_param_interval_c r.2 var = hw_param_interval_c params var) := by
  intro r
  have hr : r = ((snd_interval_refine_first (hw_param_interval_c params var)).1,
      hw_param_mark
        { params with
          intervals := Function.update params.intervals
            (var - SNDRV_PCM_HW_PARAM_FIRST_INTERVAL)
            (snd_interval_refine_first (hw_param_interval_c params var)).2 }
        var (snd_interval_refine_first (hw_param_interval_c params var)).1) := by
    show _snd_pcm_hw_param_first params var = _
    unfold _snd_pcm_hw_param_first
    rw [if_neg (by rw [hm]; decide), if_pos hi]
  rw [hr]
  dsimp only
  rcases snd_interval_refine_first_result (hw_param_interval_c params var) with
    ⟨h1, _, h2⟩ | ⟨h1, h2⟩ | h1
  · rw [h1, h2]
    obtain ⟨e1, e2, _, e4⟩ := hw_param_mark_nonzero
      { params with
        intervals := Function.update params.intervals
          (var - SNDRV_PCM_HW_PARAM_FIRST_INTERVAL) (hw_param_interval_c params var) }
      var (- EINVAL) (by decide)
    refine ⟨Or.inr (Or.inr rfl), fun h => absurd h (by decide), fun h => absurd h (by decide),
      fun _ => ⟨e1, e2, ?_⟩⟩
    exact (congrFun e4 (var - SNDRV_PCM_HW_PARAM_FIRST_INTERVAL)).trans
      (Function.update_same _ _ _)
  · rw [h1, h2, hw_param_mark_zero]
    refine ⟨Or.inr (Or.inl rfl), fun h => absurd h (by decide), fun _ => ⟨rfl, rfl, ?_⟩,
      fun h => absurd h (by decide)⟩
    exact Function.update_same _ _ _
  · rw [h1]
    obtain ⟨e1, e2, _, _⟩ := hw_param_mark_nonzero
      { params with
        intervals := Function.update params.intervals
          (var - SNDRV_PCM_HW_PARAM_FIRST_INTERVAL)
          (snd_interval_refine_first (hw_param_interval_c params var)).2 }
      var 1 (by decide)
    exact ⟨Or.inl rfl, fun _ => ⟨e1, e2⟩, fun h => absurd h (by decide),
      fun h => absurd h (by decide)⟩

/-- What `_snd_pcm_hw_param_first` and `_snd_pcm_hw_param_last` do to `cmask` and
`rmask`, for every parameter: a parameter that is neither a mask nor an interval
gives `-EINVAL` and leaves the parameters alone; otherwise the bit of the
parameter is set in both exactly when the return value is not `0`, be it `1` or
an error code of the refinement. -/
theorem hw_param_marks (params : snd_pcm_hw_params) (var : Nat) :
    (hw_is_mask var = false → hw_is_interval var = false →
      _snd_pcm_hw_param_first params var = (- EINVAL, params) ∧
      _snd_pcm_hw_param_last params var = (- EINVAL, params)) ∧
    (hw_is_mask var = true ∨ hw_is_interval var = true →
      ((_snd_pcm_hw_param_first params var).1 ≠ 0 →
        (_snd_pcm_hw_param_first params var).2.cmask = params.cmask ||| (1 <<< var) ∧
        (_snd_pcm_hw_param_first params var).2.rmask = params.rmask ||| (1 <<< var)) ∧
      ((_snd_pcm_hw_param_first params var).1 = 0 →
        (_snd_pcm_hw_param_first params var).2.cmask = params.cmask ∧
        (_snd_pcm_hw_param_first params var).2.rmask = params.rmask) ∧
      ((_snd_pcm_hw_param_last params var).1 ≠ 0 →
        (_snd_pcm_hw_param_last params var).2.cmask = params.cmask ||| (1 <<< var) ∧
        (_snd_pcm_hw_param_last params var).2.rmask = params.rmask ||| (1 <<< var)) ∧
      ((_snd_pcm_hw_param_last params var).1 = 0 →
        (_snd_pcm_hw_param_last params var).2.cmask = params.cmask ∧
        (_snd_pcm_hw_param_last params var).2.rmask = params.rmask)) := by
  have hmark : ∀ (p : snd_pcm_hw_params) (c : Int),
      (c ≠ 0 → (hw_param_mark p var c).cmask = p.cmask ||| (1 <<< var) ∧
        (hw_param_mark p var c).rmask = p.rmask ||| (1 <<< var)) ∧
      (c = 0 → (hw_param_mark p var c).cmask = p.cmask ∧
        (hw_param_mark p var c).rmask = p.rmask) := by
    intro p c
    refine ⟨fun h => ?_, fun h => ?_⟩
    · obtain ⟨e1, e2, _, _⟩ := hw_param_mark_nonzero p var c h
      exact ⟨e1, e2⟩
    · rw [h, hw_param_mark_zero]
      exact ⟨rfl, rfl⟩
  refine ⟨fun hm hi => ?_, fun h => ?_⟩
  · unfold _snd_pcm_hw_param_first _snd_pcm_hw_param_last
    rw [if_neg (by rw [hm]; decide), if_neg (by rw [hi]; decide),
      if_neg (by rw [hm]; decide), if_neg (by rw [hi]; decide)]
    exact ⟨rfl, rfl⟩
  · unfold _snd_pcm_hw_param_first _snd_pcm_hw_param_last
    by_cases hm : hw_is_mask var = true
    · rw [if_pos hm, if_pos hm]
      dsimp only
      exact ⟨(hmark _ _).1, (hmark _ _).2, (hmark _ _).1, (hmark _ _).2⟩
    · have hi : hw_is_interval var = true := by
        rcases h with h | h
        · exact absurd h hm
        · exact h
      rw [if_neg hm, if_pos hi, if_neg hm, if_pos hi]
      dsimp only
      exact ⟨(hmark _ _).1, (hmark _ _).2, (hmark _ _).1, (hmark _ _).2⟩

/-- C30 (failing input): the parameter `SNDRV_PCM_HW_PARAM_RATE` of a
configuration space whose rate interval is empty, with `cmask = rmask = 0`.
Both `_snd_pcm_hw_param_first` and `_snd_pcm_hw_param_last` return `-EINVAL`
and leave the interval as it is, yet they set bit 11 (the bit of the rate) in
`cmask` and in `rmask`. -/
theorem C30_failing_input :
    hw_is_interval SNDRV_PCM_HW_PARAM_RATE = true ∧
    (hw_param_interval_c empty_params SNDRV_PCM_HW_PARAM_RATE).empty = true ∧
    (_snd_pcm_hw_param_first empty_params SNDRV_PCM_HW_PARAM_RATE).1 = - EINVAL ∧
    (_snd_pcm_hw_param_first empty_params SNDRV_PCM_HW_PARAM_RATE).2.cmask
      = 1 <<< SNDRV_PCM_HW_PARAM_RATE ∧
    (_snd_pcm_hw_param_first empty_params SNDRV_PCM_HW_PARAM_RATE).2.rmask
      = 1 <<< SNDRV_PCM_HW_PARAM_RATE ∧
    hw_param_interval_c (_snd_pcm_hw_param_first empty_params SNDRV_PCM_HW_PARAM_RATE).2
        SNDRV_PCM_HW_PARAM_RATE
      = hw_param_interval_c empty_params SNDRV_PCM_HW_PARAM_RATE ∧
    (_snd_pcm_hw_param_last empty_params SNDRV_PCM_HW_PARAM_RATE).1 = - EINVAL ∧
    (_snd_pcm_hw_param_last empty_params SNDRV_PCM_HW_PARAM_RATE).2.cmask
      = 1 <<< SNDRV_PCM_HW_PARAM_RATE ∧
    (_snd_pcm_hw_param_last empty_params SNDRV_PCM_HW_PARAM_RATE).2.rmask
      = 1 <<< SNDRV_PCM_HW_PARAM_RATE ∧
    hw_param_interval_c (_snd_pcm_hw_param_last empty_params SNDRV_PCM_HW_PARAM_RATE).2
        SNDRV_PCM_HW_PARAM_RATE
      = hw_param_interval_c empty_params SNDRV_PCM_HW_PARAM_RATE ∧
    empty_params.cmask = 0 ∧ empty_params.rmask = 0 ∧
    (1 <<< SNDRV_PCM_HW_PARAM_RATE : Nat) = 2048 := by
  decide

end PcmLib
